import Mathlib

/-! # opencas systemd activation generator (`utils/systemd/systemd-generator.c`)

A shallow embedding of the generator and a verification of its specification.

Modelling conventions.

* A C string is a `List Char` (its bytes, without the terminating NUL).
* `int` values are `Int`; `%d` is `fmt_d`.
* Undefined behaviour of the C program (a NULL pointer handed to `atoi` or
  `strdup`, a write past a fixed-size table, a loop that never ends) is the
  result `none`.
* `print_err` only writes to the kernel log and never changes control flow;
  it is not part of the model.
* `malloc` and `strdup` are taken to succeed; `snprintf` into the `PATH_MAX`
  buffers is taken not to truncate.
-/

namespace OpenCAS

/-! ## String helpers -/

/-- The test `strstr(s, old_word) == s`: the needle occurs at the very start of `s`. -/
def strstr_here (s old_word : List Char) : Bool := old_word.isPrefixOf s

/-- The counting pass of `str_replace`:
`for (i = 0; s[i] != 0; i++) if (strstr(&s[i], old_word) == &s[i]) { cnt++; i += old_len - 1; }`.
One unit of fuel is one iteration; the result is the final `(i, cnt)`, and `none`
means that the fuel ran out. -/
def str_replace_count (s old_word : List Char) : Nat → Nat → Nat → Option (Nat × Nat)
  | 0, _, _ => none
  | fuel + 1, i, cnt =>
    match s.drop i with
    | [] => some (i, cnt)
    | c :: rest =>
      if strstr_here (c :: rest) old_word then
        str_replace_count s old_word fuel (i + old_word.length) (cnt + 1)
      else
        str_replace_count s old_word fuel (i + 1) cnt

/-- The copying pass of `str_replace`:
`while (*s) if (strstr(s, old_word) == s) { strcpy(&result[i], new_word); i += new_len; s += old_len; } else result[i++] = *s++;`.
`result` holds the bytes written so far. -/
def str_replace_copy (old_word new_word : List Char) : Nat → List Char → List Char → Option (List Char)
  | 0, _, _ => none
  | _ + 1, [], result => some result
  | fuel + 1, c :: rest, result =>
    if strstr_here (c :: rest) old_word then
      str_replace_copy old_word new_word fuel ((c :: rest).drop old_word.length) (result ++ new_word)
    else
      str_replace_copy old_word new_word fuel rest (result ++ [c])

/-- The size handed to `malloc` by `str_replace`: `i + cnt * (new_len - old_len) + 1`. -/
def str_replace_size (i cnt : Nat) (old_word new_word : List Char) : Int :=
  (i : Int) + (cnt : Int) * ((new_word.length : Int) - (old_word.length : Int)) + 1

/-- Function `str_replace`: both passes, run with fuel `strlen(s) + 1`.
The result is `none` when a pass does not end or when the copy (with its
terminator) does not fit the allocated buffer. -/
def str_replace (s old_word new_word : List Char) : Option (List Char) :=
  match str_replace_count s old_word (s.length + 1) 0 0 with
  | none => none
  | some (i, cnt) =>
    match str_replace_copy old_word new_word (s.length + 1) s [] with
    | none => none
    | some result =>
      if (result.length : Int) + 1 ≤ str_replace_size i cnt old_word new_word then some result
      else none

/-- Function `build_devname`: `/dev/mapper/luks-nvme0n1p1` becomes
`dev-mapper-luks\x2dnvme0n1p1`; `none` is the NULL result. -/
def build_devname (dev : List Char) : Option (List Char) :=
  match dev with
  | [] => none
  | c :: device =>
    if c ≠ '/' then none
    else
      match str_replace device "-".toList "\\x2d".toList with
      | none => none
      | some device => some (device.map fun p => if p = '/' then '-' else p)

/-- Every occurrence of the character `a` replaced by the string `r`
(the wording of the specification of the escaper). -/
def subst_char (a : Char) (r : List Char) : List Char → List Char
  | [] => []
  | c :: cs => (if c = a then r else [c]) ++ subst_char a r cs

/-- The escaper as the specification words it: drop the first character, replace
every hyphen by `\x2d`, then replace every slash by a hyphen. -/
def escape_spec (p : List Char) : List Char :=
  subst_char '/' ['-'] (subst_char '-' ['\\', 'x', '2', 'd'] (p.drop 1))

/-! ## Records -/

/-- Macro `FLAG_NETWORK`: `(1 << 0)`, the underlying device is a remote one. -/
def FLAG_NETWORK : Nat := 1 <<< 0

/-- The test `flags & FLAG_NETWORK` read as a C truth value. -/
def has_network (flags : Nat) : Bool := flags &&& FLAG_NETWORK != 0

/-- Record `struct opencas_cache`. -/
structure opencas_cache where
  id : Int
  device : List Char
  flags : Nat
  deriving DecidableEq, Repr

/-- Record `struct opencas_device`. -/
structure opencas_device where
  core_id : Int
  cache_id : Int
  device : List Char
  flags : Nat
  deriving DecidableEq, Repr

def MAX_CACHES : Nat := 50

def MAX_DEVICES : Nat := 600

def OPENCAS_CONFIG_FILE : List Char := "/etc/opencas/opencas.conf".toList

/-! ## Configuration parser -/

/-- The C-locale `isspace`. -/
def isspace (c : Char) : Bool :=
  c = ' ' || c = '\t' || c = '\n' || c = '\x0b' || c = '\x0c' || c = '\r'

/-- The C string held by a byte buffer: the bytes before the first NUL. -/
def cstr (buf : List Char) : List Char := buf.takeWhile fun c => c != '\x00'

/-- The successive results of `getline` on a text: each line with its newline,
the last one possibly without. `cur` is the line being read. -/
def getlines : List Char → List Char → List (List Char)
  | [], [] => []
  | [], c :: cur => [c :: cur]
  | c :: cs, cur =>
    if c = '\n' then (cur ++ ['\n']) :: getlines cs [] else getlines cs (cur ++ [c])

/-- One call of `strtok_r` on the remaining text `s`: the token, if there is
one, and the text that remains for the next call. -/
def strtok_r (delim : List Char) (s : List Char) : Option (List Char) × List Char :=
  match s.dropWhile fun c => decide (c ∈ delim) with
  | [] => (none, [])
  | c :: rest =>
    (some ((c :: rest).takeWhile fun x => !decide (x ∈ delim)),
      ((c :: rest).dropWhile fun x => !decide (x ∈ delim)).drop 1)

/-- The value `strtol` reads: leading white space, an optional sign, decimal digits. -/
def strtol_value (s : List Char) : Int :=
  let s := s.dropWhile isspace
  let neg := s.head? = some '-'
  let s := if s.head? = some '-' ∨ s.head? = some '+' then s.drop 1 else s
  let v : Nat := (s.takeWhile Char.isDigit).foldl (fun acc c => acc * 10 + (c.toNat - '0'.toNat)) 0
  if neg then -(v : Int) else (v : Int)

/-- Function `atoi`, as `(int) strtol(s, NULL, 10)` on an LP64 machine:
the value saturates at the range of `long` and is then cut to 32 bits. -/
def atoi (s : List Char) : Int :=
  let v := max (-(2 : Int) ^ 63) (min (2 ^ 63 - 1) (strtol_value s))
  (v + 2 ^ 31) % 2 ^ 32 - 2 ^ 31

/-- The loop over the comma-separated options of `parse_cache` and `parse_device`:
true when a token is `_netdev`. One unit of fuel is one token. -/
def scan_options : Nat → List Char → Bool
  | 0, _ => false
  | fuel + 1, s =>
    match strtok_r [','] s with
    | (none, _) => false
    | (some o, rest) => if o = "_netdev".toList then true else scan_options fuel rest

/-- The flags that the option field gives a record whose flags were zero. -/
def options_flags (options : Option (List Char)) : Nat :=
  match options with
  | none => 0
  | some o => if scan_options (o.length + 1) o then 0 ||| FLAG_NETWORK else 0

/-- Function `parse_cache` on a trimmed line: the record stored in
`caches[caches_num]`. `none`: a NULL token reaches `atoi` or `strdup`. -/
def parse_cache (line : List Char) : Option opencas_cache :=
  let (id, p1) := strtok_r [' ', '\t'] line
  let (device, p2) := strtok_r [' ', '\t'] p1
  let (_mode, p3) := strtok_r [' ', '\t'] p2
  let (options, _) := strtok_r [' ', '\t'] p3
  match id, device with
  | some id, some device =>
    some { id := atoi id, device := device, flags := options_flags options }
  | _, _ => none

/-- Function `parse_device` on a trimmed line: the record stored in
`devices[devices_num]`. `none`: a NULL token reaches `atoi` or `strdup`. -/
def parse_device (line : List Char) : Option opencas_device :=
  let (cache_id, p1) := strtok_r [' ', '\t'] line
  let (core_id, p2) := strtok_r [' ', '\t'] p1
  let (device, p3) := strtok_r [' ', '\t'] p2
  let (options, _) := strtok_r [' ', '\t'] p3
  match cache_id, core_id, device with
  | some cache_id, some core_id, some device =>
    some { core_id := atoi core_id, cache_id := atoi cache_id, device := device,
           flags := options_flags options }
  | _, _, _ => none

def STAGE_PROLOG : Nat := 0

def STAGE_PARSE_CACHES : Nat := 1

def STAGE_PARSE_DEVICES : Nat := 2

/-- The parser state: the stage and the two global tables. -/
structure ParseState where
  stage : Nat
  caches : List opencas_cache
  devices : List opencas_device
  deriving DecidableEq, Repr

/-- The line as `parse_config` interprets it: the comment cut off, white space
trimmed at both ends. The result is the `len` bytes that remain. -/
def trim_line (buffer : List Char) : List Char :=
  let line := if '#' ∈ cstr buffer then (cstr buffer).takeWhile fun c => c != '#' else buffer
  let line := (line.reverse.dropWhile isspace).reverse
  line.dropWhile isspace

/-- The body of the `getline` loop of `parse_config` for one line. `none`: the
program has no defined behaviour (NULL token, or a record stored past the end
of its table). -/
def parse_line (st : ParseState) (buffer : List Char) : Option ParseState :=
  let line := trim_line buffer
  if line = [] then some st
  else if cstr line = "[caches]".toList then some { st with stage := STAGE_PARSE_CACHES }
  else if cstr line = "[cores]".toList then some { st with stage := STAGE_PARSE_DEVICES }
  else if st.stage = STAGE_PARSE_CACHES then
    if st.caches.length < MAX_CACHES then
      (parse_cache (cstr line)).map fun c => { st with caches := st.caches ++ [c] }
    else none
  else if st.stage = STAGE_PARSE_DEVICES then
    if st.devices.length < MAX_DEVICES then
      (parse_device (cstr line)).map fun d => { st with devices := st.devices ++ [d] }
    else none
  else some st

/-- The `getline` loop of `parse_config` over the lines of the file. -/
def parse_lines : ParseState → List (List Char) → Option ParseState
  | st, [] => some st
  | st, l :: ls =>
    match parse_line st l with
    | none => none
    | some st1 => parse_lines st1 ls

/-- Function `parse_config`. The argument is the content of the configuration
file, `none` when it cannot be opened. The result is the returned flag with the
two tables; the outer `none` is undefined behaviour. -/
def parse_config (cfg : Option (List Char)) :
    Option (Bool × List opencas_cache × List opencas_device) :=
  match cfg with
  | none => some (false, [], [])
  | some text =>
    (parse_lines ⟨STAGE_PROLOG, [], []⟩ (getlines text [])).map fun st =>
      (true, st.caches, st.devices)

/-! ## File system -/

/-- The part of the file system the generator touches: regular files with
their content, directories, symbolic links with their target, each by path. -/
structure FS where
  files : List Char → Option (List Char)
  dirs : List Char → Bool
  links : List Char → Option (List Char)

/-- A file system without any entry. -/
def FS.empty : FS := ⟨fun _ => none, fun _ => false, fun _ => none⟩

/-- Some entry has this path. -/
def FS.pathExists (fs : FS) (path : List Char) : Bool :=
  (fs.files path).isSome || fs.dirs path || (fs.links path).isSome

/-- What the environment does to the system calls of one pass of the loop of
`generate_units`, beyond what the state of the file system implies. -/
structure Faults where
  /-- The call `creat` returns a negative value. -/
  creat_fails : Bool
  /-- The number of bytes `dprintf` manages to write; `none` when it writes all. -/
  dprintf_written : Option Nat
  /-- The call `close` returns a negative value. -/
  close_fails : Bool
  /-- The first `mkdir` fails with an error other than `EEXIST`. -/
  mkdir_device_fails : Bool
  /-- The first `symlink` fails. -/
  symlink_device_fails : Bool
  /-- The second `mkdir` fails with an error other than `EEXIST`. -/
  mkdir_target_fails : Bool
  /-- The second `symlink` fails. -/
  symlink_target_fails : Bool
  deriving DecidableEq, Repr

/-- An environment in which no call fails except for the state of the file system. -/
def no_faults : Nat → Faults := fun _ => ⟨false, none, false, false, false, false, false⟩

/-- A successful `creat(path, 0644)`: the file exists and is empty. -/
def FS.creat (fs : FS) (path : List Char) : FS :=
  { fs with files := Function.update fs.files path (some []) }

/-- The call `dprintf(fd, ...)` on the file just opened at `path`: the text, or
its first `written` bytes, is appended. -/
def FS.dprintf (fs : FS) (path text : List Char) (written : Option Nat) : FS :=
  let data := match written with
    | none => text
    | some n => text.take n
  { fs with files := Function.update fs.files path (some ((fs.files path).getD [] ++ data)) }

/-- The call `mkdir(path, 0755)`: it fails (`EEXIST`) when the path exists, or
when the environment says so; otherwise the directory is created. -/
def FS.mkdir (fs : FS) (path : List Char) (fails : Bool) : FS :=
  if fails || fs.pathExists path then fs
  else { fs with dirs := Function.update fs.dirs path true }

/-- The call `symlink(target, location)`: it fails (`EEXIST`) when the location
exists, or when the environment says so; otherwise the link is created. -/
def FS.symlink (fs : FS) (target location : List Char) (fails : Bool) : FS :=
  if fails || fs.pathExists location then fs
  else { fs with links := Function.update fs.links location (some target) }

/-! ## Unit generation -/

/-- The conversion `%d` of `printf`. -/
def fmt_d (n : Int) : List Char :=
  match n with
  | Int.ofNat m => Nat.toDigits 10 m
  | Int.negSucc m => '-' :: Nat.toDigits 10 (m + 1)

/-- The inner loop of `generate_units`: the first cache whose id is `cache_id`. -/
def find_cache (caches : List opencas_cache) (cache_id : Int) : Option opencas_cache :=
  caches.find? fun c => decide (cache_id = c.id)

/-- The name `opencas@opencas%d-%d.service`. -/
def unit_name (cache_id core_id : Int) : List Char :=
  "opencas@opencas".toList ++ fmt_d cache_id ++ "-".toList ++ fmt_d core_id ++ ".service".toList

/-- The global activation target of a unit. -/
def opencas_target (remote : Bool) : List Char :=
  if remote then "remote-opencas.target".toList else "opencas.target".toList

/-- The file-system preparation target of a unit. -/
def fs_pre_target (remote : Bool) : List Char :=
  if remote then "remote-fs-pre.target".toList else "local-fs-pre.target".toList

/-- The lines of the text that `dprintf` writes, without their newlines, in the
order of the format string. -/
def unit_lines (cache_id core_id : Int) (cache_devname core_devname device : List Char)
    (remote : Bool) : List (List Char) :=
  [ "# Automatically generated by opencas-activation-generator".toList,
    "#".toList,
    "# This unit is responsible for direct activation of OpenCAS volumes".toList,
    "[Unit]".toList,
    "Description=OpenCAS Setup for %I".toList,
    "Documentation=man:opencas(5) man:opencas-activation-generator(8) man:opencas@.service(8)".toList,
    "SourcePath=".toList ++ OPENCAS_CONFIG_FILE,
    "DefaultDependencies=no".toList,
    "Before=blockdev@dev-opencas".toList ++ fmt_d cache_id ++ "\\x2".toList ++ fmt_d core_id
      ++ ".target".toList,
    "Wants=blockdev@dev-opencas".toList ++ fmt_d cache_id ++ "\\x2".toList ++ fmt_d core_id
      ++ ".target".toList,
    "Conflicts=umount.target".toList,
    "Before=umount.target".toList,
    "Before=".toList ++ opencas_target remote,
    "Before=".toList ++ fs_pre_target remote,
    "BindsTo=".toList ++ cache_devname ++ ".device ".toList ++ core_devname ++ ".device".toList,
    "After=".toList ++ cache_devname ++ ".device ".toList ++ core_devname ++ ".device".toList,
    [],
    "[Service]".toList,
    "Type=oneshot".toList,
    "RemainAfterExit=yes".toList,
    "ExecStart=/usr/sbin/casadm --add-core --cache-id ".toList ++ fmt_d cache_id
      ++ " --core-device ".toList ++ device ++ " --core-id ".toList ++ fmt_d core_id,
    "ExecStop=/usr/sbin/casadm --remove-core --cache-id ".toList ++ fmt_d cache_id
      ++ " --core-id ".toList ++ fmt_d core_id ]

/-- Each line followed by its newline, all in one text. -/
def join_lines : List (List Char) → List Char
  | [] => []
  | l :: ls => l ++ '\n' :: join_lines ls

/-- The text that `dprintf` writes to the unit file. -/
def unit_text (cache_id core_id : Int) (cache_devname core_devname device : List Char)
    (remote : Bool) : List Char :=
  join_lines (unit_lines cache_id core_id cache_devname core_devname device remote)

/-- The path `%s/%s` of the unit file. -/
def unit_path (generator_dir : List Char) (cache_id core_id : Int) : List Char :=
  generator_dir ++ "/".toList ++ unit_name cache_id core_id

/-- The target `../%s` of both symlinks. -/
def symlink_target (cache_id core_id : Int) : List Char :=
  "../".toList ++ unit_name cache_id core_id

/-- The directory `%s/dev-opencas%d\x2d%d.device.requires`. -/
def device_requires_dir (generator_dir : List Char) (cache_id core_id : Int) : List Char :=
  generator_dir ++ "/dev-opencas".toList ++ fmt_d cache_id ++ "\\x2d".toList ++ fmt_d core_id
    ++ ".device.requires".toList

/-- The directory `%s/%s.target.requires`. -/
def target_requires_dir (generator_dir : List Char) (remote : Bool) : List Char :=
  generator_dir ++ "/".toList ++ (if remote then "remote-opencas".toList else "opencas".toList)
    ++ ".target.requires".toList

/-- The location `%s/%s` of a symlink in a directory. -/
def symlink_location (dir unitname : List Char) : List Char :=
  dir ++ "/".toList ++ unitname

/-- The body of the loop of `generate_units` for the core device `d`, with the
outcomes `e` of its system calls. The flag is false when the body returns
false, true when the loop goes on. -/
def generate_unit (generator_dir : List Char) (caches : List opencas_cache) (e : Faults)
    (d : opencas_device) (fs : FS) : Bool × FS :=
  match find_cache caches d.cache_id with
  | none => (false, fs)
  | some c =>
    let remote := has_network d.flags
    if has_network c.flags && !remote then (false, fs)
    else
      let unitname := unit_name d.cache_id d.core_id
      let unitpath := unit_path generator_dir d.cache_id d.core_id
      if e.creat_fails then (false, fs)
      else
        let fs := fs.creat unitpath
        match build_devname c.device with
        | none => (false, fs)
        | some cache_devname =>
          match build_devname d.device with
          | none => (false, fs)
          | some core_devname =>
            let fs := fs.dprintf unitpath
              (unit_text d.cache_id d.core_id cache_devname core_devname d.device remote)
              e.dprintf_written
            if e.close_fails then (false, fs)
            else
              let target := symlink_target d.cache_id d.core_id
              let dir := device_requires_dir generator_dir d.cache_id d.core_id
              let fs := fs.mkdir dir e.mkdir_device_fails
              let fs := fs.symlink target (symlink_location dir unitname) e.symlink_device_fails
              let dir := target_requires_dir generator_dir remote
              let fs := fs.mkdir dir e.mkdir_target_fails
              let fs := fs.symlink target (symlink_location dir unitname) e.symlink_target_fails
              (true, fs)

/-- The loop of `generate_units` from index `i` on; `env i` gives the outcomes
of the system calls of pass `i`. -/
def generate_units_from (generator_dir : List Char) (caches : List opencas_cache)
    (env : Nat → Faults) : Nat → List opencas_device → FS → Bool × FS
  | _, [], fs => (true, fs)
  | i, d :: rest, fs =>
    match generate_unit generator_dir caches (env i) d fs with
    | (false, fs1) => (false, fs1)
    | (true, fs1) => generate_units_from generator_dir caches env (i + 1) rest fs1

/-- Function `generate_units` on the two tables: the returned flag and the
file system it leaves. -/
def generate_units (generator_dir : List Char) (caches : List opencas_cache)
    (devices : List opencas_device) (env : Nat → Faults) (fs : FS) : Bool × FS :=
  generate_units_from generator_dir caches env 0 devices fs

/-- Function `run` once the argument count is right: parse the configuration,
then generate the units. -/
def run (generator_dir : List Char) (cfg : Option (List Char)) (env : Nat → Faults) (fs : FS) :
    Option (Bool × FS) :=
  match parse_config cfg with
  | none => none
  | some (false, _, _) => some (false, fs)
  | some (true, caches, devices) => some (generate_units generator_dir caches devices env fs)

/-! ## Notions of the specification -/

/-- The text holds the lines of `block`, one after the other, each a full line. -/
def has_lines (block : List (List Char)) (text : List Char) : Prop :=
  ∃ pre post, text = pre ++ join_lines block ++ post ∧
    (pre = [] ∨ ∃ pre0, pre = pre0 ++ ['\n'])

/-- The text holds `line` as a full line. -/
def has_line (line text : List Char) : Prop := has_lines [line] text

/-- The environment `env` with the outcomes of its `mkdir` and `symlink` calls
replaced: `m1 i`, `s1 i`, `m2 i`, `s2 i` say whether the four calls of pass `i` fail. -/
def with_link_outcomes (env : Nat → Faults) (m1 s1 m2 s2 : Nat → Bool) : Nat → Faults :=
  fun i => { env i with mkdir_device_fails := m1 i, symlink_device_fails := s1 i,
                        mkdir_target_fails := m2 i, symlink_target_fails := s2 i }

/-- The directories and symlinks of the core device `d` all exist. -/
def links_exist (gd : List Char) (fs : FS) (d : opencas_device) : Prop :=
  fs.pathExists (device_requires_dir gd d.cache_id d.core_id) = true ∧
  fs.pathExists (symlink_location (device_requires_dir gd d.cache_id d.core_id)
    (unit_name d.cache_id d.core_id)) = true ∧
  fs.pathExists (target_requires_dir gd (has_network d.flags)) = true ∧
  fs.pathExists (symlink_location (target_requires_dir gd (has_network d.flags))
    (unit_name d.cache_id d.core_id)) = true

/-- The layout of the destination directory once the core devices in `S` have
been processed: the unit file, the two requirement directories and the two
symlinks of each of them exist, and every file, directory and symlink is one
of those. -/
def layout_inv (gd : List Char) (S : opencas_device → Prop) (fs : FS) : Prop :=
  (∀ d, S d →
    (fs.files (unit_path gd d.cache_id d.core_id)).isSome = true ∧
    fs.dirs (device_requires_dir gd d.cache_id d.core_id) = true ∧
    fs.links (symlink_location (device_requires_dir gd d.cache_id d.core_id)
      (unit_name d.cache_id d.core_id)) = some (symlink_target d.cache_id d.core_id) ∧
    fs.dirs (target_requires_dir gd (has_network d.flags)) = true ∧
    fs.links (symlink_location (target_requires_dir gd (has_network d.flags))
      (unit_name d.cache_id d.core_id)) = some (symlink_target d.cache_id d.core_id)) ∧
  (∀ p, (fs.files p).isSome = true → ∃ d, S d ∧ p = unit_path gd d.cache_id d.core_id) ∧
  (∀ p, fs.dirs p = true → ∃ d, S d ∧
    (p = device_requires_dir gd d.cache_id d.core_id ∨
      p = target_requires_dir gd (has_network d.flags))) ∧
  (∀ p t, fs.links p = some t → ∃ d, S d ∧ t = symlink_target d.cache_id d.core_id ∧
    (p = symlink_location (device_requires_dir gd d.cache_id d.core_id)
        (unit_name d.cache_id d.core_id) ∨
      p = symlink_location (target_requires_dir gd (has_network d.flags))
        (unit_name d.cache_id d.core_id)))

/-- The data lines whose most recent section header is the one of stage `hdr`,
in file order, each as the parser reads it (comment removed, trimmed). A data
line is a line that is not empty after trimming and is not a section header.
`cur` is the stage of the most recent header before the lines. -/
def data_lines_under (hdr : Nat) : Nat → List (List Char) → List (List Char)
  | _, [] => []
  | cur, b :: bs =>
    if trim_line b = [] then data_lines_under hdr cur bs
    else if cstr (trim_line b) = "[caches]".toList then
      data_lines_under hdr STAGE_PARSE_CACHES bs
    else if cstr (trim_line b) = "[cores]".toList then
      data_lines_under hdr STAGE_PARSE_DEVICES bs
    else if cur = hdr then cstr (trim_line b) :: data_lines_under hdr cur bs
    else data_lines_under hdr cur bs

/-- The string `s` with each leftmost occurrence of `old_word` that overlaps no
earlier one replaced by `new_word`, read from left to right. `skip` is the
number of characters of `s` that still belong to the occurrence just replaced. -/
def replace_occurrences (old_word new_word : List Char) : Nat → List Char → List Char
  | _, [] => []
  | skip + 1, _ :: cs => replace_occurrences old_word new_word skip cs
  | 0, c :: cs =>
    if old_word.isPrefixOf (c :: cs) then
      new_word ++ replace_occurrences old_word new_word (old_word.length - 1) cs
    else c :: replace_occurrences old_word new_word 0 cs

/-- The number of leftmost occurrences of `old_word` in `s` that overlap no
earlier one; `skip` as in `replace_occurrences`. -/
def count_occurrences (old_word : List Char) : Nat → List Char → Nat
  | _, [] => 0
  | skip + 1, _ :: cs => count_occurrences old_word skip cs
  | 0, c :: cs =>
    if old_word.isPrefixOf (c :: cs) then count_occurrences old_word (old_word.length - 1) cs + 1
    else count_occurrences old_word 0 cs

/-- What the escaper writes for one character of the path after the leading slash. -/
def escape_char (c : Char) : List Char :=
  if c = '-' then ['\\', 'x', '2', 'd'] else if c = '/' then ['-'] else [c]

/-- The escaper as one pass over the characters. -/
def escape_chars : List Char → List Char
  | [] => []
  | c :: cs => escape_char c ++ escape_chars cs

/-- The pieces of `s` between the characters of `delim`, empty pieces included. -/
def split_on (delim : List Char) : List Char → List (List Char)
  | [] => [[]]
  | c :: cs =>
    if c ∈ delim then [] :: split_on delim cs
    else
      match split_on delim cs with
      | [] => [[c]]
      | w :: ws => (c :: w) :: ws

/-- The fields of `s` delimited by the characters of `delim`: the pieces that
are not empty. -/
def delimited_fields (delim : List Char) (s : List Char) : List (List Char) :=
  (split_on delim s).filter fun w => decide (w ≠ [])

/-- The space/tab-delimited fields of a record line. -/
def line_fields (line : List Char) : List (List Char) := delimited_fields [' ', '\t'] line

/-- The record line sets the network flag as the specification says: a fourth
field exists and one of its comma-separated tokens is exactly `_netdev`. -/
def netdev_declared (line : List Char) : Prop :=
  ∃ o, (line_fields line)[3]? = some o ∧ "_netdev".toList ∈ split_on [','] o

/-- The characters that the unit-name escaping of the init system keeps: ASCII
letters, digits, `:`, `_` and `.`. -/
def is_unit_char (c : Char) : Bool :=
  c.isAlpha || c.isDigit || c = ':' || c = '_' || c = '.'

/-- A byte written as backslash, `x` and its two lowercase hexadecimal digits. -/
def escape_byte (c : Char) : List Char :=
  ['\\', 'x', Nat.digitChar (c.toNat / 16 % 16), Nat.digitChar (c.toNat % 16)]

/-- Repeated slashes collapsed and a trailing slash removed: a slash goes when
a slash or the end follows it. -/
def squeeze_slashes : List Char → List Char
  | [] => []
  | [c] => if c = '/' then [] else [c]
  | c :: d :: r =>
    if c = '/' ∧ d = '/' then squeeze_slashes (d :: r) else c :: squeeze_slashes (d :: r)

/-- The unit-name escaping of the characters of a simplified path: a slash
becomes a hyphen, a kept character stays, any other byte is written in
hexadecimal. -/
def systemd_escape_chars : List Char → List Char
  | [] => []
  | c :: cs =>
    (if c = '/' then ['-'] else if is_unit_char c then [c] else escape_byte c)
      ++ systemd_escape_chars cs

/-- The path-to-unit-name escaping of the init system as the specification
words it: leading and trailing slashes removed and repeated slashes collapsed;
the root path gives `-`; a leading `.` is written in hexadecimal; then
`systemd_escape_chars`. -/
def systemd_path_escape (p : List Char) : List Char :=
  match squeeze_slashes (p.dropWhile fun c => c = '/') with
  | [] => ['-']
  | c :: cs =>
    (if c = '.' then escape_byte c else systemd_escape_chars [c]) ++ systemd_escape_chars cs

/-- No component of the path is empty after the first one starts: no slash is
followed by a slash or by the end. -/
def no_empty_component : List Char → Bool
  | [] => true
  | [c] => c ≠ '/'
  | c :: d :: r => !(c = '/' && d = '/') && no_empty_component (d :: r)

/-- The paths on which the escaper and the init system agree, given without
their leading slash: not empty, no leading slash or dot, no empty component,
and only ASCII letters, digits, `:`, `_`, `.`, `-` and `/`. -/
def plain_path (s : List Char) : Bool :=
  s ≠ [] && s.head? ≠ some '/' && s.head? ≠ some '.' && no_empty_component s
    && s.all fun c => is_unit_char c || c = '-' || c = '/'

/-- The characters that end neither the C string nor the text before a comment. -/
def plain_char (c : Char) : Bool := c != '\x00' && c != '#'

/-- The bytes of the line that `parse_config` keeps after it has looked for a comment. -/
def cut_comment (buffer : List Char) : List Char :=
  if '#' ∈ cstr buffer then (cstr buffer).takeWhile fun c => c != '#' else buffer

/-- White space removed at both ends, the end first. -/
def trim_ws (x : List Char) : List Char :=
  ((x.reverse.dropWhile isspace).reverse).dropWhile isspace

/-- A line that `parse_config` skips, given without its newline: white space
only, or white space followed by a comment. -/
def ignorable_line (x : List Char) : Prop :=
  (∀ c ∈ x, isspace c = true) ∨ ∃ w t, x = w ++ '#' :: t ∧ ∀ c ∈ w, isspace c = true

/-! # Theorems -/

/-! ## The device-name escaper -/

theorem strstr_here_length {s old_word : List Char} (h : strstr_here s old_word = true) :
    old_word.length ≤ s.length := by
  unfold strstr_here at h
  exact (List.isPrefixOf_iff_prefix.mp h).length_le

/-- Both passes of `str_replace` end when the needle is not empty, and the
length of the copy is the one the counting pass predicts. -/
theorem str_replace_passes (s old_word new_word : List Char) (hold : old_word ≠ []) :
    ∀ (fuel i cnt : Nat) (result : List Char), i ≤ s.length → s.length - i < fuel →
      ∃ (n : Nat) (r : List Char),
        str_replace_count s old_word fuel i cnt = some (s.length, cnt + n) ∧
        str_replace_copy old_word new_word fuel (s.drop i) result = some (result ++ r) ∧
        r.length + n * old_word.length = (s.length - i) + n * new_word.length := by
  have hpos : 0 < old_word.length := List.length_pos.mpr hold
  intro fuel
  induction fuel with
  | zero => intro i cnt result _ h; omega
  | succ fuel ih =>
    intro i cnt result hi hfuel
    cases hd : s.drop i with
    | nil =>
      have hlen : s.length ≤ i := List.drop_eq_nil_iff.mp hd
      have hi2 : i = s.length := by omega
      refine ⟨0, [], ?_, ?_, ?_⟩
      · simp [str_replace_count, hd, hi2]
      · simp [str_replace_copy]
      · simp; omega
    | cons c rest =>
      have hlen : (c :: rest).length = s.length - i := by rw [← hd, List.length_drop]
      by_cases hp : strstr_here (c :: rest) old_word = true
      · have hle := strstr_here_length hp
        have hdrop : (c :: rest).drop old_word.length = s.drop (i + old_word.length) := by
          rw [← hd, List.drop_drop]
        obtain ⟨n, r, h1, h2, h3⟩ := ih (i + old_word.length) (cnt + 1) (result ++ new_word)
          (by omega) (by omega)
        refine ⟨n + 1, new_word ++ r, ?_, ?_, ?_⟩
        · simp only [str_replace_count, hd, hp, if_true]
          rw [h1]; congr 2; omega
        · simp only [str_replace_copy, hp, if_true]
          rw [hdrop, h2, List.append_assoc]
        · simp only [List.length_append]
          have : (n + 1) * old_word.length = n * old_word.length + old_word.length := by ring
          have : (n + 1) * new_word.length = n * new_word.length + new_word.length := by ring
          omega
      · have hrest : rest = s.drop (i + 1) := by
          have := congrArg (List.drop 1) hd
          rw [List.drop_drop] at this
          simpa [Nat.add_comm] using this.symm
        simp only [List.length_cons] at hlen
        obtain ⟨n, r, h1, h2, h3⟩ := ih (i + 1) cnt (result ++ [c]) (by omega) (by omega)
        refine ⟨n, c :: r, ?_, ?_, ?_⟩
        · simp only [str_replace_count, hd, hp]
          exact h1
        · simp only [str_replace_copy, hp]
          rw [hrest, h2]; simp
        · simp only [List.length_cons]; omega

/-- With a non-empty needle `str_replace` returns the outcome of its copying pass. -/
theorem str_replace_eq_copy (s old_word new_word : List Char) (hold : old_word ≠ []) :
    ∃ r, str_replace_copy old_word new_word (s.length + 1) s [] = some r ∧
      str_replace s old_word new_word = some r := by
  obtain ⟨n, r, h1, h2, h3⟩ := str_replace_passes s old_word new_word hold (s.length + 1) 0 0 []
    (Nat.zero_le _) (by omega)
  simp only [List.drop_zero, List.nil_append, Nat.zero_add, Nat.sub_zero] at h1 h2 h3
  refine ⟨r, h2, ?_⟩
  unfold str_replace
  rw [h1, h2]
  simp only [str_replace_size]
  rw [if_pos]
  have : ((r.length : Int) + (n : Int) * (old_word.length : Int)) =
      (s.length : Int) + (n : Int) * (new_word.length : Int) := by exact_mod_cast h3
  linarith

/-- The copying pass with a one-character needle is `subst_char`. -/
theorem str_replace_copy_char (a : Char) (new_word : List Char) :
    ∀ (fuel : Nat) (s result : List Char), s.length < fuel →
      str_replace_copy [a] new_word fuel s result = some (result ++ subst_char a new_word s) := by
  intro fuel
  induction fuel with
  | zero => intro s result h; omega
  | succ fuel ih =>
    intro s result h
    cases s with
    | nil => simp [str_replace_copy, subst_char]
    | cons c rest =>
      simp only [List.length_cons] at h
      by_cases hc : c = a
      · subst hc
        simp [str_replace_copy, strstr_here, subst_char]
        rw [ih rest _ (by omega)]; simp
      · have hc2 : ¬ (a = c) := fun h => hc h.symm
        simp [str_replace_copy, strstr_here, subst_char, hc, hc2]
        rw [ih rest _ (by omega)]; simp

theorem str_replace_char (a : Char) (new_word s : List Char) :
    str_replace s [a] new_word = some (subst_char a new_word s) := by
  obtain ⟨r, h1, h2⟩ := str_replace_eq_copy s [a] new_word (by simp)
  rw [str_replace_copy_char a new_word _ s [] (by omega)] at h1
  rw [h2]; simpa using h1.symm

theorem subst_char_single (a b : Char) (s : List Char) :
    subst_char a [b] s = s.map fun p => if p = a then b else p := by
  induction s with
  | nil => rfl
  | cons c cs ih =>
    simp only [subst_char, List.map_cons, ih]
    by_cases h : c = a <;> simp [h]

theorem build_devname_eq (p : List Char) :
    build_devname p = if p.head? = some '/' then some (escape_spec p) else none := by
  cases p with
  | nil => simp [build_devname]
  | cons c rest =>
    by_cases hc : c = '/'
    · subst hc
      have h := str_replace_char '-' "\\x2d".toList rest
      simp only [build_devname, List.head?_cons, if_true, ne_eq, not_true_eq_false, if_false]
      rw [show "-".toList = ['-'] from rfl, h]
      simp only [escape_spec, List.drop_succ_cons, List.drop_zero, subst_char_single]
      rfl
    · simp [build_devname, hc]

theorem escape_spec_no_slash (p : List Char) : '/' ∉ escape_spec p := by
  simp only [escape_spec, subst_char_single, List.mem_map, not_exists, not_and]
  intro x _
  by_cases h : x = '/'
  · simp [h]
  · simp [h]

/-- Claim C1. `build_devname` returns the null result on a path that does not
begin with a slash; on a path that does, it returns the path without its first
character, every hyphen replaced by `\x2d` and then every slash by a hyphen.
`/dev/mapper/luks-nvme0n1p1` gives `dev-mapper-luks\x2dnvme0n1p1`. -/
theorem C1_build_devname_spec :
    (∀ p : List Char,
      build_devname p = if p.head? = some '/' then some (escape_spec p) else none) ∧
    build_devname "/dev/mapper/luks-nvme0n1p1".toList
      = some "dev-mapper-luks\\x2dnvme0n1p1".toList :=
  ⟨build_devname_eq, by decide⟩

/-- Claim C2. On a path that begins with a slash `build_devname` returns a
string, that string holds no slash, and equal paths give equal strings. -/
theorem C2_build_devname_no_slash (p : List Char) (h : p.head? = some '/') :
    (∃ r, build_devname p = some r ∧ '/' ∉ r) ∧
    (∀ q, q = p → build_devname q = build_devname p) := by
  refine ⟨⟨escape_spec p, ?_, escape_spec_no_slash p⟩, fun q hq => by rw [hq]⟩
  rw [build_devname_eq, if_pos h]

theorem C2_build_devname_no_slash_witness :
    "/dev/sda-1".toList.head? = some '/' ∧
    ((∃ r, build_devname "/dev/sda-1".toList = some r ∧ '/' ∉ r) ∧
      (∀ q, q = "/dev/sda-1".toList → build_devname q = build_devname "/dev/sda-1".toList)) :=
  ⟨by decide, C2_build_devname_no_slash "/dev/sda-1".toList (by decide)⟩

/-! ## The loop of `generate_units` -/

theorem generate_units_from_append (gd : List Char) (caches : List opencas_cache)
    (env : Nat → Faults) (l1 l2 : List opencas_device) :
    ∀ (i : Nat) (fs : FS),
      generate_units_from gd caches env i (l1 ++ l2) fs =
        if (generate_units_from gd caches env i l1 fs).1 = true then
          generate_units_from gd caches env (i + l1.length) l2
            (generate_units_from gd caches env i l1 fs).2
        else (false, (generate_units_from gd caches env i l1 fs).2) := by
  induction l1 with
  | nil => intro i fs; simp [generate_units_from]
  | cons d l1 ih =>
    intro i fs
    simp only [List.cons_append, generate_units_from, List.length_cons]
    rcases hstep : generate_unit gd caches (env i) d fs with ⟨ok, fs1⟩
    cases ok with
    | false => simp
    | true =>
      have hlen : i + 1 + l1.length = i + (l1.length + 1) := by omega
      have hih := ih (i + 1) fs1
      rw [hlen] at hih
      exact hih

/-- When the body of the loop returns false without a change for the device at
index `n`, the whole run returns false and leaves what the devices before `n` left. -/
theorem generate_units_stop (gd : List Char) (caches : List opencas_cache)
    (devices : List opencas_device) (env : Nat → Faults) (fs : FS) (n : Nat)
    (hn : n < devices.length)
    (hstop : ∀ (e : Faults) (fs1 : FS), generate_unit gd caches e devices[n] fs1 = (false, fs1)) :
    (generate_units gd caches devices env fs).1 = false ∧
    (generate_units gd caches devices env fs).2
      = (generate_units gd caches (devices.take n) env fs).2 := by
  have hsplit : devices = devices.take n ++ devices[n] :: devices.drop (n + 1) := by
    rw [List.getElem_cons_drop, List.take_append_drop]
  have hrun : generate_units gd caches devices env fs
      = generate_units_from gd caches env 0
          (devices.take n ++ devices[n] :: devices.drop (n + 1)) fs := by
    rw [← hsplit]; rfl
  rw [hrun, generate_units_from_append]
  unfold generate_units
  by_cases hpre : (generate_units_from gd caches env 0 (devices.take n) fs).1 = true
  · rw [if_pos hpre]
    simp [generate_units_from, hstop]
  · rw [if_neg hpre]
    exact ⟨rfl, rfl⟩

theorem find_cache_eq_none {caches : List opencas_cache} {cache_id : Int}
    (h : ∀ c ∈ caches, c.id ≠ cache_id) : find_cache caches cache_id = none := by
  unfold find_cache
  rw [List.find?_eq_none]
  intro c hc
  simpa using fun heq => h c hc heq.symm

/-- Claim C3. When the cache id of some core device is the id of no cache
record, `generate_units` returns failure, and the file system it leaves is the
one left by the core devices before that one: nothing is created or written for
that device or a later one. -/
theorem C3_unresolved_cache_fails (gd : List Char) (caches : List opencas_cache)
    (devices : List opencas_device) (env : Nat → Faults) (fs : FS) (n : Nat)
    (hn : n < devices.length) (h : ∀ c ∈ caches, c.id ≠ devices[n].cache_id) :
    (generate_units gd caches devices env fs).1 = false ∧
    (generate_units gd caches devices env fs).2
      = (generate_units gd caches (devices.take n) env fs).2 := by
  apply generate_units_stop gd caches devices env fs n hn
  intro e fs1
  simp [generate_unit, find_cache_eq_none h]

theorem C3_unresolved_cache_fails_witness :
    (∀ c ∈ [(⟨1, "/dev/sda".toList, 0⟩ : opencas_cache)],
      c.id ≠ [(⟨0, 1, "/dev/sdb".toList, 0⟩ : opencas_device),
              ⟨0, 2, "/dev/sdc".toList, 0⟩, ⟨1, 1, "/dev/sdd".toList, 0⟩][1].cache_id) ∧
    ((generate_units "/run".toList [⟨1, "/dev/sda".toList, 0⟩]
        [⟨0, 1, "/dev/sdb".toList, 0⟩, ⟨0, 2, "/dev/sdc".toList, 0⟩, ⟨1, 1, "/dev/sdd".toList, 0⟩]
        no_faults FS.empty).1 = false ∧
     (generate_units "/run".toList [⟨1, "/dev/sda".toList, 0⟩]
        [⟨0, 1, "/dev/sdb".toList, 0⟩, ⟨0, 2, "/dev/sdc".toList, 0⟩, ⟨1, 1, "/dev/sdd".toList, 0⟩]
        no_faults FS.empty).2
      = (generate_units "/run".toList [⟨1, "/dev/sda".toList, 0⟩]
          (List.take 1 [⟨0, 1, "/dev/sdb".toList, 0⟩, ⟨0, 2, "/dev/sdc".toList, 0⟩,
            ⟨1, 1, "/dev/sdd".toList, 0⟩])
          no_faults FS.empty).2) :=
  ⟨by decide,
   C3_unresolved_cache_fails "/run".toList [⟨1, "/dev/sda".toList, 0⟩]
     [⟨0, 1, "/dev/sdb".toList, 0⟩, ⟨0, 2, "/dev/sdc".toList, 0⟩, ⟨1, 1, "/dev/sdd".toList, 0⟩]
     no_faults FS.empty 1 (by decide) (by decide)⟩

/-- Claim C4. When a core device without the network flag has a cache id that
resolves to a cache record with the network flag, `generate_units` returns
failure, and the file system it leaves is the one left by the core devices
before that one: no unit file is created or written for the pair. -/
theorem C4_local_core_on_network_cache_fails (gd : List Char) (caches : List opencas_cache)
    (devices : List opencas_device) (env : Nat → Faults) (fs : FS) (n : Nat)
    (hn : n < devices.length) (c : opencas_cache)
    (hfind : find_cache caches devices[n].cache_id = some c)
    (hcache : has_network c.flags = true) (hcore : has_network devices[n].flags = false) :
    (generate_units gd caches devices env fs).1 = false ∧
    (generate_units gd caches devices env fs).2
      = (generate_units gd caches (devices.take n) env fs).2 := by
  apply generate_units_stop gd caches devices env fs n hn
  intro e fs1
  simp [generate_unit, hfind, hcache, hcore]

/-- The configuration of the end-to-end scenario of claim C4. -/
theorem C4_local_core_on_network_cache_fails_witness :
    parse_config (some "[caches]\n1 /dev/sda wt _netdev\n[cores]\n1 0 /dev/sdb\n".toList)
      = some (true, [⟨1, "/dev/sda".toList, 1⟩], [⟨0, 1, "/dev/sdb".toList, 0⟩]) ∧
    find_cache [⟨1, "/dev/sda".toList, 1⟩]
      [(⟨0, 1, "/dev/sdb".toList, 0⟩ : opencas_device)][0].cache_id
      = some ⟨1, "/dev/sda".toList, 1⟩ ∧
    has_network (⟨1, "/dev/sda".toList, 1⟩ : opencas_cache).flags = true ∧
    has_network [(⟨0, 1, "/dev/sdb".toList, 0⟩ : opencas_device)][0].flags = false ∧
    ((generate_units "/run".toList [⟨1, "/dev/sda".toList, 1⟩] [⟨0, 1, "/dev/sdb".toList, 0⟩]
        no_faults FS.empty).1 = false ∧
     (generate_units "/run".toList [⟨1, "/dev/sda".toList, 1⟩] [⟨0, 1, "/dev/sdb".toList, 0⟩]
        no_faults FS.empty).2
      = (generate_units "/run".toList [⟨1, "/dev/sda".toList, 1⟩]
          (List.take 0 [⟨0, 1, "/dev/sdb".toList, 0⟩]) no_faults FS.empty).2) ∧
    run "/run".toList (some "[caches]\n1 /dev/sda wt _netdev\n[cores]\n1 0 /dev/sdb\n".toList)
      no_faults FS.empty = some (false, FS.empty) :=
  ⟨by decide, by decide, by decide, by decide,
   C4_local_core_on_network_cache_fails "/run".toList [⟨1, "/dev/sda".toList, 1⟩]
     [⟨0, 1, "/dev/sdb".toList, 0⟩] no_faults FS.empty 0 (by decide) ⟨1, "/dev/sda".toList, 1⟩
     (by decide) (by decide) (by decide), rfl⟩

/-! ## The unit text -/

theorem join_lines_append (a b : List (List Char)) :
    join_lines (a ++ b) = join_lines a ++ join_lines b := by
  induction a with
  | nil => rfl
  | cons l a ih => simp [join_lines, ih]

theorem join_lines_line_start (a : List (List Char)) :
    join_lines a = [] ∨ ∃ pre0, join_lines a = pre0 ++ ['\n'] := by
  induction a with
  | nil => exact Or.inl rfl
  | cons l a ih =>
    right
    rcases ih with h | ⟨p, hp⟩
    · exact ⟨l, by simp [join_lines, h]⟩
    · exact ⟨l ++ '\n' :: p, by simp [join_lines, hp]⟩

theorem has_lines_of_index (ls : List (List Char)) (k : Nat) (block : List (List Char))
    (h : (ls.drop k).take block.length = block) : has_lines block (join_lines ls) := by
  refine ⟨join_lines (ls.take k), join_lines ((ls.drop k).drop block.length), ?_,
    join_lines_line_start _⟩
  rw [← join_lines_append, ← join_lines_append]
  conv_lhs => rw [← List.take_append_drop k ls]
  rw [List.append_assoc]
  conv_lhs => rw [← List.take_append_drop block.length (ls.drop k), h]

/-! ## One pass of the loop -/

/-- A pass that completes: the cache is found, the policy holds, `creat` and
`close` succeed, both device names are built, and the file system is the one
left by `creat`, `dprintf`, and the two `mkdir` and two `symlink` calls. -/
theorem generate_unit_ok {gd : List Char} {caches : List opencas_cache} {e : Faults}
    {d : opencas_device} {fs : FS} (h : (generate_unit gd caches e d fs).1 = true) :
    ∃ c ec ek, find_cache caches d.cache_id = some c ∧
      (has_network c.flags = true → has_network d.flags = true) ∧
      e.creat_fails = false ∧ build_devname c.device = some ec ∧
      build_devname d.device = some ek ∧ e.close_fails = false ∧
      (generate_unit gd caches e d fs).2 =
        (((((fs.creat (unit_path gd d.cache_id d.core_id)).dprintf
              (unit_path gd d.cache_id d.core_id)
              (unit_text d.cache_id d.core_id ec ek d.device (has_network d.flags))
              e.dprintf_written).mkdir
            (device_requires_dir gd d.cache_id d.core_id) e.mkdir_device_fails).symlink
            (symlink_target d.cache_id d.core_id)
            (symlink_location (device_requires_dir gd d.cache_id d.core_id)
              (unit_name d.cache_id d.core_id)) e.symlink_device_fails).mkdir
            (target_requires_dir gd (has_network d.flags)) e.mkdir_target_fails).symlink
            (symlink_target d.cache_id d.core_id)
            (symlink_location (target_requires_dir gd (has_network d.flags))
              (unit_name d.cache_id d.core_id)) e.symlink_target_fails := by
  unfold generate_unit at h ⊢
  cases hfind : find_cache caches d.cache_id with
  | none => simp [hfind] at h
  | some c =>
    simp only [hfind] at h ⊢
    by_cases hpol : (has_network c.flags && !has_network d.flags) = true
    · simp [hpol] at h
    · simp only [hpol] at h ⊢
      cases hcreat : e.creat_fails with
      | true => simp [hcreat] at h
      | false =>
        simp only [hcreat] at h ⊢
        cases hc : build_devname c.device with
        | none => simp [hc] at h
        | some ec =>
          simp only [hc] at h ⊢
          cases hd : build_devname d.device with
          | none => simp [hd] at h
          | some ek =>
            simp only [hd] at h ⊢
            cases hclose : e.close_fails with
            | true => simp [hclose] at h
            | false =>
              have hpol2 : has_network c.flags = true → has_network d.flags = true := by
                intro hcn
                cases hdn : has_network d.flags with
                | true => rfl
                | false => simp [hcn, hdn] at hpol
              refine ⟨c, ec, ek, ?_, hpol2, ?_, ?_, ?_, ?_, ?_⟩ <;> first | assumption | rfl | simp

/-! ## System calls -/

@[simp] theorem FS.mkdir_files (fs : FS) (p : List Char) (f : Bool) :
    (fs.mkdir p f).files = fs.files := by
  unfold FS.mkdir; split <;> rfl

@[simp] theorem FS.symlink_files (fs : FS) (t p : List Char) (f : Bool) :
    (fs.symlink t p f).files = fs.files := by
  unfold FS.symlink; split <;> rfl

@[simp] theorem FS.mkdir_links (fs : FS) (p : List Char) (f : Bool) :
    (fs.mkdir p f).links = fs.links := by
  unfold FS.mkdir; split <;> rfl

@[simp] theorem FS.symlink_dirs (fs : FS) (t p : List Char) (f : Bool) :
    (fs.symlink t p f).dirs = fs.dirs := by
  unfold FS.symlink; split <;> rfl

@[simp] theorem FS.creat_dirs (fs : FS) (p : List Char) : (fs.creat p).dirs = fs.dirs := rfl

@[simp] theorem FS.creat_links (fs : FS) (p : List Char) : (fs.creat p).links = fs.links := rfl

@[simp] theorem FS.dprintf_dirs (fs : FS) (p t : List Char) (w : Option Nat) :
    (fs.dprintf p t w).dirs = fs.dirs := rfl

@[simp] theorem FS.dprintf_links (fs : FS) (p t : List Char) (w : Option Nat) :
    (fs.dprintf p t w).links = fs.links := rfl

/-- After `creat` and a `dprintf` that writes all, the file holds the text. -/
theorem FS.creat_dprintf_files (fs : FS) (p t : List Char) :
    ((fs.creat p).dprintf p t none).files = Function.update fs.files p (some t) := by
  funext q
  by_cases h : q = p
  · subst h; simp [FS.creat, FS.dprintf]
  · simp [FS.creat, FS.dprintf, Function.update_noteq h]

theorem FS.mkdir_dirs_other (fs : FS) (p q : List Char) (f : Bool) (h : q ≠ p) :
    (fs.mkdir p f).dirs q = fs.dirs q := by
  unfold FS.mkdir; split
  · rfl
  · simp [Function.update_noteq h]

theorem FS.symlink_links_other (fs : FS) (t p q : List Char) (f : Bool) (h : q ≠ p) :
    (fs.symlink t p f).links q = fs.links q := by
  unfold FS.symlink; split
  · rfl
  · simp [Function.update_noteq h]

theorem FS.pathExists_mkdir (fs : FS) (p : List Char) :
    (fs.mkdir p false).pathExists p = true := by
  unfold FS.mkdir
  split
  · rename_i h; simpa using h
  · simp [FS.pathExists]

theorem FS.pathExists_symlink (fs : FS) (t p : List Char) :
    (fs.symlink t p false).pathExists p = true := by
  unfold FS.symlink
  split
  · rename_i h; simpa using h
  · simp [FS.pathExists]

theorem FS.pathExists_mkdir_mono (fs : FS) (p q : List Char) (f : Bool)
    (h : fs.pathExists q = true) : (fs.mkdir p f).pathExists q = true := by
  unfold FS.mkdir; split
  · exact h
  · by_cases hq : q = p
    · subst hq; simp [FS.pathExists]
    · simpa [FS.pathExists, Function.update_noteq hq] using h

theorem FS.pathExists_symlink_mono (fs : FS) (t p q : List Char) (f : Bool)
    (h : fs.pathExists q = true) : (fs.symlink t p f).pathExists q = true := by
  unfold FS.symlink; split
  · exact h
  · by_cases hq : q = p
    · subst hq; simp [FS.pathExists]
    · simpa [FS.pathExists, Function.update_noteq hq] using h

theorem FS.pathExists_creat_mono (fs : FS) (p q : List Char)
    (h : fs.pathExists q = true) : (fs.creat p).pathExists q = true := by
  by_cases hq : q = p
  · subst hq; simp [FS.pathExists, FS.creat]
  · simpa [FS.pathExists, FS.creat, Function.update_noteq hq] using h

theorem FS.pathExists_dprintf_mono (fs : FS) (p t q : List Char) (w : Option Nat)
    (h : fs.pathExists q = true) : (fs.dprintf p t w).pathExists q = true := by
  by_cases hq : q = p
  · subst hq; simp [FS.pathExists, FS.dprintf]
  · simpa [FS.pathExists, FS.dprintf, Function.update_noteq hq] using h

/-- The file that a completed pass with a full write leaves at the unit path. -/
theorem generate_unit_file {gd : List Char} {caches : List opencas_cache} {e : Faults}
    {d : opencas_device} {fs : FS} (h : (generate_unit gd caches e d fs).1 = true)
    (hwr : e.dprintf_written = none) :
    ∃ c ec ek, find_cache caches d.cache_id = some c ∧ build_devname c.device = some ec ∧
      build_devname d.device = some ek ∧
      (generate_unit gd caches e d fs).2.files =
        Function.update fs.files (unit_path gd d.cache_id d.core_id)
          (some (unit_text d.cache_id d.core_id ec ek d.device (has_network d.flags))) := by
  obtain ⟨c, ec, ek, hfind, _, _, hc, hd, _, hfs⟩ := generate_unit_ok h
  refine ⟨c, ec, ek, hfind, hc, hd, ?_⟩
  rw [hfs, hwr]
  simp [FS.creat_dprintf_files]

theorem find_cache_id {caches : List opencas_cache} {cache_id : Int} {c : opencas_cache}
    (h : find_cache caches cache_id = some c) : c.id = cache_id := by
  unfold find_cache at h
  have := List.find?_some h
  simp only [decide_eq_true_eq] at this
  exact this.symm

/-- What the four calls of the link step of one pass do to the file system. -/
theorem link_step_effect (fs1 : FS) (t dd l1 td l2 : List Char) (m1 s1 m2 s2 : Bool) :
    (m2 = false →
      ((((fs1.mkdir dd m1).symlink t l1 s1).mkdir td m2).symlink t l2 s2).pathExists td = true) ∧
    (s2 = false →
      ((((fs1.mkdir dd m1).symlink t l1 s1).mkdir td m2).symlink t l2 s2).pathExists l2 = true) ∧
    (∀ q, q ≠ dd → q ≠ td →
      ((((fs1.mkdir dd m1).symlink t l1 s1).mkdir td m2).symlink t l2 s2).dirs q = fs1.dirs q) ∧
    (∀ q, q ≠ l1 → q ≠ l2 →
      ((((fs1.mkdir dd m1).symlink t l1 s1).mkdir td m2).symlink t l2 s2).links q
        = fs1.links q) := by
  refine ⟨?_, ?_, ?_, ?_⟩
  · intro h; subst h
    exact FS.pathExists_symlink_mono _ _ _ _ _ (FS.pathExists_mkdir _ _)
  · intro h; subst h
    exact FS.pathExists_symlink _ _ _
  · intro q h1 h2
    rw [FS.symlink_dirs, FS.mkdir_dirs_other _ _ _ _ h2, FS.symlink_dirs,
      FS.mkdir_dirs_other _ _ _ _ h1]
  · intro q h1 h2
    rw [FS.symlink_links_other _ _ _ _ _ h2, FS.mkdir_links,
      FS.symlink_links_other _ _ _ _ _ h1, FS.mkdir_links]

theorem unit_text_before_target (c k : Int) (ec ek dv : List Char) (r : Bool) :
    has_line ("Before=".toList ++ opencas_target r) (unit_text c k ec ek dv r) :=
  has_lines_of_index _ 12 _ rfl

theorem unit_text_before_fs_pre (c k : Int) (ec ek dv : List Char) (r : Bool) :
    has_line ("Before=".toList ++ fs_pre_target r) (unit_text c k ec ek dv r) :=
  has_lines_of_index _ 13 _ rfl

/-- The requirement group of the activation target after a completed pass. -/
theorem generate_unit_target_group {gd : List Char} {caches : List opencas_cache} {e : Faults}
    {d : opencas_device} {fs : FS} (h : (generate_unit gd caches e d fs).1 = true)
    (hmk : e.mkdir_target_fails = false) (hsl : e.symlink_target_fails = false) :
    (generate_unit gd caches e d fs).2.pathExists
      (target_requires_dir gd (has_network d.flags)) = true ∧
    (generate_unit gd caches e d fs).2.pathExists
      (symlink_location (target_requires_dir gd (has_network d.flags))
        (unit_name d.cache_id d.core_id)) = true ∧
    (generate_unit gd caches e d fs).2.dirs (target_requires_dir gd (!has_network d.flags))
      = fs.dirs (target_requires_dir gd (!has_network d.flags)) ∧
    (generate_unit gd caches e d fs).2.links
      (symlink_location (target_requires_dir gd (!has_network d.flags))
        (unit_name d.cache_id d.core_id))
      = fs.links (symlink_location (target_requires_dir gd (!has_network d.flags))
        (unit_name d.cache_id d.core_id)) := by
  obtain ⟨c, ec, ek, _, _, _, _, _, _, hfs⟩ := generate_unit_ok h
  rw [hfs]
  obtain ⟨h1, h2, h3, h4⟩ := link_step_effect
    ((fs.creat (unit_path gd d.cache_id d.core_id)).dprintf (unit_path gd d.cache_id d.core_id)
      (unit_text d.cache_id d.core_id ec ek d.device (has_network d.flags)) e.dprintf_written)
    (symlink_target d.cache_id d.core_id) (device_requires_dir gd d.cache_id d.core_id)
    (symlink_location (device_requires_dir gd d.cache_id d.core_id)
      (unit_name d.cache_id d.core_id))
    (target_requires_dir gd (has_network d.flags))
    (symlink_location (target_requires_dir gd (has_network d.flags))
      (unit_name d.cache_id d.core_id))
    e.mkdir_device_fails e.symlink_device_fails e.mkdir_target_fails e.symlink_target_fails
  refine ⟨h1 hmk, h2 hsl, ?_, ?_⟩
  · rw [h3]
    · rfl
    · simp [target_requires_dir, device_requires_dir]
      cases has_network d.flags <;> simp
    · cases has_network d.flags <;> simp [target_requires_dir]
  · rw [h4]
    · rfl
    · simp [target_requires_dir, device_requires_dir, symlink_location]
      cases has_network d.flags <;> simp
    · cases has_network d.flags <;> simp [target_requires_dir, symlink_location]

/-- Claim C5. For a pair whose pass completes, the activation targets follow
the network flag of the core device alone. With the flag, the unit text holds
the lines `Before=remote-opencas.target` and `Before=remote-fs-pre.target`, and
the directory and symlink of the global requirement group are those of
`remote-opencas.target.requires`, the group `opencas.target.requires` being
left as it was. Without the flag the same holds with `opencas.target`,
`local-fs-pre.target` and `opencas.target.requires`. -/
theorem C5_targets_follow_core_flag (gd : List Char) (caches : List opencas_cache) (e : Faults)
    (d : opencas_device) (fs : FS) (h : (generate_unit gd caches e d fs).1 = true)
    (hwr : e.dprintf_written = none) (hmk : e.mkdir_target_fails = false)
    (hsl : e.symlink_target_fails = false) :
    ∃ text, (generate_unit gd caches e d fs).2.files
        (gd ++ "/".toList ++ unit_name d.cache_id d.core_id) = some text ∧
      (has_network d.flags = true →
        has_line "Before=remote-opencas.target".toList text ∧
        has_line "Before=remote-fs-pre.target".toList text ∧
        (generate_unit gd caches e d fs).2.pathExists
          (gd ++ "/remote-opencas.target.requires".toList) = true ∧
        (generate_unit gd caches e d fs).2.pathExists
          (gd ++ "/remote-opencas.target.requires/".toList ++ unit_name d.cache_id d.core_id)
          = true ∧
        (generate_unit gd caches e d fs).2.dirs (gd ++ "/opencas.target.requires".toList)
          = fs.dirs (gd ++ "/opencas.target.requires".toList) ∧
        (generate_unit gd caches e d fs).2.links
          (gd ++ "/opencas.target.requires/".toList ++ unit_name d.cache_id d.core_id)
          = fs.links
            (gd ++ "/opencas.target.requires/".toList ++ unit_name d.cache_id d.core_id)) ∧
      (has_network d.flags = false →
        has_line "Before=opencas.target".toList text ∧
        has_line "Before=local-fs-pre.target".toList text ∧
        (generate_unit gd caches e d fs).2.pathExists
          (gd ++ "/opencas.target.requires".toList) = true ∧
        (generate_unit gd caches e d fs).2.pathExists
          (gd ++ "/opencas.target.requires/".toList ++ unit_name d.cache_id d.core_id)
          = true ∧
        (generate_unit gd caches e d fs).2.dirs (gd ++ "/remote-opencas.target.requires".toList)
          = fs.dirs (gd ++ "/remote-opencas.target.requires".toList) ∧
        (generate_unit gd caches e d fs).2.links
          (gd ++ "/remote-opencas.target.requires/".toList ++ unit_name d.cache_id d.core_id)
          = fs.links
            (gd ++ "/remote-opencas.target.requires/".toList
              ++ unit_name d.cache_id d.core_id)) := by
  obtain ⟨c, ec, ek, _, _, _, hfiles⟩ := generate_unit_file h hwr
  obtain ⟨h1, h2, h3, h4⟩ := generate_unit_target_group h hmk hsl
  have e1 : target_requires_dir gd true = gd ++ "/remote-opencas.target.requires".toList := by
    simp [target_requires_dir]
  have e2 : target_requires_dir gd false = gd ++ "/opencas.target.requires".toList := by
    simp [target_requires_dir]
  have e3 : ∀ u, symlink_location (target_requires_dir gd true) u
      = gd ++ "/remote-opencas.target.requires/".toList ++ u := by
    intro u; simp [target_requires_dir, symlink_location]
  have e4 : ∀ u, symlink_location (target_requires_dir gd false) u
      = gd ++ "/opencas.target.requires/".toList ++ u := by
    intro u; simp [target_requires_dir, symlink_location]
  refine ⟨unit_text d.cache_id d.core_id ec ek d.device (has_network d.flags), ?_, ?_, ?_⟩
  · rw [hfiles]; simp [unit_path]
  · intro hn
    rw [hn] at h1 h2 h3 h4
    simp only [Bool.not_true, e3, e4] at h2 h4
    simp only [Bool.not_true, e1, e2] at h1 h3
    rw [hn]
    exact ⟨unit_text_before_target _ _ _ _ _ true, unit_text_before_fs_pre _ _ _ _ _ true,
      h1, h2, h3, h4⟩
  · intro hn
    rw [hn] at h1 h2 h3 h4
    simp only [Bool.not_false, e3, e4] at h2 h4
    simp only [Bool.not_false, e1, e2] at h1 h3
    rw [hn]
    exact ⟨unit_text_before_target _ _ _ _ _ false, unit_text_before_fs_pre _ _ _ _ _ false,
      h1, h2, h3, h4⟩

/-- The two end-to-end scenarios of claim C5: cache `1 /dev/sda` with core
`1 0 /dev/sdb`, first without `_netdev`, then with `_netdev` on both. -/
theorem C5_targets_follow_core_flag_witness :
    (parse_config (some "[caches]\n1 /dev/sda wt\n[cores]\n1 0 /dev/sdb\n".toList)
        = some (true, [⟨1, "/dev/sda".toList, 0⟩], [⟨0, 1, "/dev/sdb".toList, 0⟩]) ∧
      (generate_unit "/run".toList [⟨1, "/dev/sda".toList, 0⟩] (no_faults 0)
        ⟨0, 1, "/dev/sdb".toList, 0⟩ FS.empty).1 = true ∧
      ∃ text, (generate_unit "/run".toList [⟨1, "/dev/sda".toList, 0⟩] (no_faults 0)
          ⟨0, 1, "/dev/sdb".toList, 0⟩ FS.empty).2.files
            "/run/opencas@opencas1-0.service".toList = some text ∧
        has_line "Before=opencas.target".toList text ∧
        has_line "Before=local-fs-pre.target".toList text ∧
        (generate_unit "/run".toList [⟨1, "/dev/sda".toList, 0⟩] (no_faults 0)
          ⟨0, 1, "/dev/sdb".toList, 0⟩ FS.empty).2.pathExists
            "/run/opencas.target.requires/opencas@opencas1-0.service".toList = true) ∧
    (parse_config
        (some "[caches]\n1 /dev/sda wt _netdev\n[cores]\n1 0 /dev/sdb _netdev\n".toList)
        = some (true, [⟨1, "/dev/sda".toList, 1⟩], [⟨0, 1, "/dev/sdb".toList, 1⟩]) ∧
      (generate_unit "/run".toList [⟨1, "/dev/sda".toList, 1⟩] (no_faults 0)
        ⟨0, 1, "/dev/sdb".toList, 1⟩ FS.empty).1 = true ∧
      ∃ text, (generate_unit "/run".toList [⟨1, "/dev/sda".toList, 1⟩] (no_faults 0)
          ⟨0, 1, "/dev/sdb".toList, 1⟩ FS.empty).2.files
            "/run/opencas@opencas1-0.service".toList = some text ∧
        has_line "Before=remote-opencas.target".toList text ∧
        has_line "Before=remote-fs-pre.target".toList text ∧
        (generate_unit "/run".toList [⟨1, "/dev/sda".toList, 1⟩] (no_faults 0)
          ⟨0, 1, "/dev/sdb".toList, 1⟩ FS.empty).2.pathExists
            "/run/remote-opencas.target.requires/opencas@opencas1-0.service".toList = true) := by
  refine ⟨⟨by decide, by decide, ?_⟩, ⟨by decide, by decide, ?_⟩⟩
  · obtain ⟨text, h1, _, h3⟩ := C5_targets_follow_core_flag "/run".toList
      [⟨1, "/dev/sda".toList, 0⟩] (no_faults 0) ⟨0, 1, "/dev/sdb".toList, 0⟩ FS.empty
      (by decide) rfl rfl rfl
    obtain ⟨l1, l2, _, l4, _, _⟩ := h3 (by decide)
    exact ⟨text, h1, l1, l2, l4⟩
  · obtain ⟨text, h1, h2, _⟩ := C5_targets_follow_core_flag "/run".toList
      [⟨1, "/dev/sda".toList, 1⟩] (no_faults 0) ⟨0, 1, "/dev/sdb".toList, 1⟩ FS.empty
      (by decide) rfl rfl rfl
    obtain ⟨l1, l2, _, l4, _, _⟩ := h2 (by decide)
    exact ⟨text, h1, l1, l2, l4⟩

/-- Claim C6. For a pair whose pass completes with a full write, the unit file
holds the text `unit_text` of the two ids, the two escaped device names, the
core device path and the core network flag, and nothing else enters the text.
The text holds the `SourcePath=`, `BindsTo=`, `After=`, `ExecStart=` and
`ExecStop=` lines of the claim, and `Type=oneshot` and `RemainAfterExit=yes`
right under `[Service]`. -/
theorem C6_unit_text_lines (gd : List Char) (caches : List opencas_cache) (e : Faults)
    (d : opencas_device) (fs : FS) (h : (generate_unit gd caches e d fs).1 = true)
    (hwr : e.dprintf_written = none) :
    ∃ c ec ek text, find_cache caches d.cache_id = some c ∧ c.id = d.cache_id ∧
      build_devname c.device = some ec ∧ build_devname d.device = some ek ∧
      (generate_unit gd caches e d fs).2.files
        (gd ++ "/".toList ++ unit_name d.cache_id d.core_id) = some text ∧
      text = unit_text c.id d.core_id ec ek d.device (has_network d.flags) ∧
      has_line "SourcePath=/etc/opencas/opencas.conf".toList text ∧
      has_line ("BindsTo=".toList ++ ec ++ ".device ".toList ++ ek ++ ".device".toList) text ∧
      has_line ("After=".toList ++ ec ++ ".device ".toList ++ ek ++ ".device".toList) text ∧
      has_line ("ExecStart=/usr/sbin/casadm --add-core --cache-id ".toList ++ fmt_d c.id
        ++ " --core-device ".toList ++ d.device ++ " --core-id ".toList ++ fmt_d d.core_id)
        text ∧
      has_line ("ExecStop=/usr/sbin/casadm --remove-core --cache-id ".toList ++ fmt_d c.id
        ++ " --core-id ".toList ++ fmt_d d.core_id) text ∧
      has_lines ["[Service]".toList, "Type=oneshot".toList, "RemainAfterExit=yes".toList]
        text := by
  obtain ⟨c, ec, ek, hfind, hc, hd, hfiles⟩ := generate_unit_file h hwr
  have hid := find_cache_id hfind
  refine ⟨c, ec, ek, unit_text c.id d.core_id ec ek d.device (has_network d.flags),
    hfind, hid, hc, hd, ?_, rfl, has_lines_of_index _ 6 _ rfl, has_lines_of_index _ 14 _ rfl,
    has_lines_of_index _ 15 _ rfl, has_lines_of_index _ 20 _ rfl,
    has_lines_of_index _ 21 _ rfl, has_lines_of_index _ 17 _ rfl⟩
  rw [hfiles, hid]; simp [unit_path]

theorem C6_unit_text_lines_witness :
    (generate_unit "/run".toList [⟨1, "/dev/sda".toList, 0⟩] (no_faults 0)
      ⟨0, 1, "/dev/disk/by-id/ata-X".toList, 0⟩ FS.empty).1 = true ∧
    (no_faults 0).dprintf_written = none ∧
    ∃ text, (generate_unit "/run".toList [⟨1, "/dev/sda".toList, 0⟩] (no_faults 0)
        ⟨0, 1, "/dev/disk/by-id/ata-X".toList, 0⟩ FS.empty).2.files
          "/run/opencas@opencas1-0.service".toList = some text ∧
      has_line "SourcePath=/etc/opencas/opencas.conf".toList text ∧
      has_line "BindsTo=dev-sda.device dev-disk-by\\x2did-ata\\x2dX.device".toList text ∧
      has_line "After=dev-sda.device dev-disk-by\\x2did-ata\\x2dX.device".toList text ∧
      has_line ("ExecStart=/usr/sbin/casadm --add-core --cache-id 1 "
        ++ "--core-device /dev/disk/by-id/ata-X --core-id 0").toList text ∧
      has_line "ExecStop=/usr/sbin/casadm --remove-core --cache-id 1 --core-id 0".toList text ∧
      has_lines ["[Service]".toList, "Type=oneshot".toList, "RemainAfterExit=yes".toList]
        text := by
  refine ⟨by decide, rfl, ?_⟩
  obtain ⟨c, ec, ek, text, hfind, _, hc, hd, hf, _, l1, l2, l3, l4, l5, l6⟩ :=
    C6_unit_text_lines "/run".toList [⟨1, "/dev/sda".toList, 0⟩] (no_faults 0)
      ⟨0, 1, "/dev/disk/by-id/ata-X".toList, 0⟩ FS.empty (by decide) rfl
  have hc0 : c = ⟨1, "/dev/sda".toList, 0⟩ :=
    Option.some.inj (hfind.symm.trans (by decide))
  subst hc0
  have hec : ec = "dev-sda".toList := Option.some.inj (hc.symm.trans (by decide))
  have hek : ek = "dev-disk-by\\x2did-ata\\x2dX".toList :=
    Option.some.inj (hd.symm.trans (by decide))
  subst hec hek
  exact ⟨text, hf, l1, l2, l3, l4, l5, l6⟩

/-! ## The link step is best-effort -/

theorem FS.creat_files_congr {fs fs2 : FS} (p : List Char) (h : fs.files = fs2.files) :
    (fs.creat p).files = (fs2.creat p).files := by
  simp [FS.creat, h]

theorem FS.dprintf_files_congr {fs fs2 : FS} (p t : List Char) (w : Option Nat)
    (h : fs.files = fs2.files) : (fs.dprintf p t w).files = (fs2.dprintf p t w).files := by
  simp [FS.dprintf, h]

/-- The flag and the regular files that one pass leaves depend on the outcomes
of `creat`, `dprintf` and `close` and on the regular files before it, and on
nothing else of the environment and of the file system. -/
theorem generate_unit_files_congr (gd : List Char) (caches : List opencas_cache)
    (e e2 : Faults) (d : opencas_device) (fs fs2 : FS)
    (hcreat : e.creat_fails = e2.creat_fails) (hwr : e.dprintf_written = e2.dprintf_written)
    (hclose : e.close_fails = e2.close_fails) (hf : fs.files = fs2.files) :
    (generate_unit gd caches e d fs).1 = (generate_unit gd caches e2 d fs2).1 ∧
    (generate_unit gd caches e d fs).2.files = (generate_unit gd caches e2 d fs2).2.files := by
  unfold generate_unit
  rw [← hcreat, ← hwr, ← hclose]
  cases find_cache caches d.cache_id with
  | none => exact ⟨rfl, hf⟩
  | some c =>
    by_cases hpol : (has_network c.flags && !has_network d.flags) = true
    · simp only [hpol, if_true]
      exact ⟨trivial, hf⟩
    · simp only [hpol]
      cases e.creat_fails with
      | true => exact ⟨rfl, hf⟩
      | false =>
        have h1 := FS.creat_files_congr (unit_path gd d.cache_id d.core_id) hf
        cases build_devname c.device with
        | none => exact ⟨rfl, h1⟩
        | some ec =>
          cases build_devname d.device with
          | none => exact ⟨rfl, h1⟩
          | some ek =>
            have h2 := FS.dprintf_files_congr (unit_path gd d.cache_id d.core_id)
              (unit_text d.cache_id d.core_id ec ek d.device (has_network d.flags))
              e.dprintf_written h1
            cases e.close_fails with
            | true => exact ⟨rfl, h2⟩
            | false => simpa using h2

theorem generate_units_from_files_congr (gd : List Char) (caches : List opencas_cache)
    (env env2 : Nat → Faults)
    (hcreat : ∀ i, (env i).creat_fails = (env2 i).creat_fails)
    (hwr : ∀ i, (env i).dprintf_written = (env2 i).dprintf_written)
    (hclose : ∀ i, (env i).close_fails = (env2 i).close_fails)
    (devices : List opencas_device) :
    ∀ (i : Nat) (fs fs2 : FS), fs.files = fs2.files →
      (generate_units_from gd caches env i devices fs).1
        = (generate_units_from gd caches env2 i devices fs2).1 ∧
      (generate_units_from gd caches env i devices fs).2.files
        = (generate_units_from gd caches env2 i devices fs2).2.files := by
  induction devices with
  | nil => intro i fs fs2 hf; exact ⟨rfl, hf⟩
  | cons d rest ih =>
    intro i fs fs2 hf
    obtain ⟨h1, h2⟩ := generate_unit_files_congr gd caches (env i) (env2 i) d fs fs2
      (hcreat i) (hwr i) (hclose i) hf
    simp only [generate_units_from]
    rcases hs : generate_unit gd caches (env i) d fs with ⟨ok, fs1⟩
    rcases hs2 : generate_unit gd caches (env2 i) d fs2 with ⟨ok2, fs3⟩
    rw [hs, hs2] at h1 h2
    simp only at h1 h2
    subst h1
    cases ok with
    | false => exact ⟨rfl, h2⟩
    | true => exact ih (i + 1) fs1 fs3 h2

/-- Claim C8. Whatever the outcomes `m1`, `s1`, `m2`, `s2` of the `mkdir` and
`symlink` calls of each pass, `generate_units` returns what it returns, and
leaves the unit files with the content it leaves, when each of those calls
succeeds: a failed `mkdir` or `symlink` does not end the loop. -/
theorem C8_link_step_best_effort (gd : List Char) (caches : List opencas_cache)
    (devices : List opencas_device) (env : Nat → Faults) (m1 s1 m2 s2 : Nat → Bool) (fs : FS) :
    (generate_units gd caches devices (with_link_outcomes env m1 s1 m2 s2) fs).1
      = (generate_units gd caches devices
          (with_link_outcomes env (fun _ => false) (fun _ => false) (fun _ => false)
            (fun _ => false)) fs).1 ∧
    (generate_units gd caches devices (with_link_outcomes env m1 s1 m2 s2) fs).2.files
      = (generate_units gd caches devices
          (with_link_outcomes env (fun _ => false) (fun _ => false) (fun _ => false)
            (fun _ => false)) fs).2.files :=
  generate_units_from_files_congr gd caches (with_link_outcomes env m1 s1 m2 s2)
    (with_link_outcomes env (fun _ => false) (fun _ => false) (fun _ => false) (fun _ => false))
    (fun _ => rfl) (fun _ => rfl) (fun _ => rfl) devices 0 fs fs rfl

/-! ## Running the generator twice -/

theorem FS.ext_fields {a b : FS} (h1 : a.files = b.files) (h2 : a.dirs = b.dirs)
    (h3 : a.links = b.links) : a = b := by
  cases a; cases b; simp_all

/-- The flag that one pass returns does not depend on the file system. -/
theorem generate_unit_flag (gd : List Char) (caches : List opencas_cache) (e : Faults)
    (d : opencas_device) (fs fs2 : FS) :
    (generate_unit gd caches e d fs).1 = (generate_unit gd caches e d fs2).1 := by
  unfold generate_unit
  cases find_cache caches d.cache_id with
  | none => rfl
  | some c =>
    by_cases hpol : (has_network c.flags && !has_network d.flags) = true
    · simp only [hpol, if_true]
    · simp only [hpol]
      cases e.creat_fails with
      | true => rfl
      | false =>
        cases build_devname c.device with
        | none => rfl
        | some ec =>
          cases build_devname d.device with
          | none => rfl
          | some ek =>
            cases e.close_fails with
            | true => rfl
            | false => rfl

theorem generate_units_from_flag (gd : List Char) (caches : List opencas_cache)
    (env : Nat → Faults) (devices : List opencas_device) :
    ∀ (i : Nat) (fs fs2 : FS),
      (generate_units_from gd caches env i devices fs).1
        = (generate_units_from gd caches env i devices fs2).1 := by
  induction devices with
  | nil => intro i fs fs2; rfl
  | cons d rest ih =>
    intro i fs fs2
    have h1 := generate_unit_flag gd caches (env i) d fs fs2
    simp only [generate_units_from]
    rcases hs : generate_unit gd caches (env i) d fs with ⟨ok, fs1⟩
    rcases hs2 : generate_unit gd caches (env i) d fs2 with ⟨ok2, fs3⟩
    rw [hs, hs2] at h1
    simp only at h1
    subst h1
    cases ok with
    | false => rfl
    | true => exact ih (i + 1) fs1 fs3

/-- No pass removes an entry of the file system. -/
theorem generate_unit_mono (gd : List Char) (caches : List opencas_cache) (e : Faults)
    (d : opencas_device) (fs : FS) (q : List Char) (h : fs.pathExists q = true) :
    (generate_unit gd caches e d fs).2.pathExists q = true := by
  unfold generate_unit
  cases find_cache caches d.cache_id with
  | none => exact h
  | some c =>
    by_cases hpol : (has_network c.flags && !has_network d.flags) = true
    · simp only [hpol, if_true]; exact h
    · simp only [hpol]
      cases e.creat_fails with
      | true => exact h
      | false =>
        have h1 := FS.pathExists_creat_mono fs (unit_path gd d.cache_id d.core_id) q h
        cases build_devname c.device with
        | none => exact h1
        | some ec =>
          cases build_devname d.device with
          | none => exact h1
          | some ek =>
            have h2 := FS.pathExists_dprintf_mono _ (unit_path gd d.cache_id d.core_id)
              (unit_text d.cache_id d.core_id ec ek d.device (has_network d.flags)) q
              e.dprintf_written h1
            cases e.close_fails with
            | true => exact h2
            | false =>
              exact FS.pathExists_symlink_mono _ _ _ _ _
                (FS.pathExists_mkdir_mono _ _ _ _
                  (FS.pathExists_symlink_mono _ _ _ _ _
                    (FS.pathExists_mkdir_mono _ _ _ _ h2)))

theorem generate_units_from_mono (gd : List Char) (caches : List opencas_cache)
    (env : Nat → Faults) (devices : List opencas_device) (q : List Char) :
    ∀ (i : Nat) (fs : FS), fs.pathExists q = true →
      (generate_units_from gd caches env i devices fs).2.pathExists q = true := by
  induction devices with
  | nil => intro i fs h; exact h
  | cons d rest ih =>
    intro i fs h
    have h1 := generate_unit_mono gd caches (env i) d fs q h
    simp only [generate_units_from]
    rcases hs : generate_unit gd caches (env i) d fs with ⟨ok, fs1⟩
    rw [hs] at h1
    cases ok with
    | false => exact h1
    | true => exact ih (i + 1) fs1 h1

theorem FS.mkdir_of_exists (fs : FS) (p : List Char) (f : Bool)
    (h : fs.pathExists p = true) : fs.mkdir p f = fs := by
  simp [FS.mkdir, h]

theorem FS.symlink_of_exists (fs : FS) (t p : List Char) (f : Bool)
    (h : fs.pathExists p = true) : fs.symlink t p f = fs := by
  simp [FS.symlink, h]

/-- A pass for a device whose directories and symlinks exist changes no
directory and no symlink. -/
theorem generate_unit_links_fixed (gd : List Char) (caches : List opencas_cache) (e : Faults)
    (d : opencas_device) (fs : FS) (h : links_exist gd fs d) :
    (generate_unit gd caches e d fs).2.dirs = fs.dirs ∧
    (generate_unit gd caches e d fs).2.links = fs.links := by
  obtain ⟨h1, h2, h3, h4⟩ := h
  unfold generate_unit
  cases find_cache caches d.cache_id with
  | none => exact ⟨rfl, rfl⟩
  | some c =>
    by_cases hpol : (has_network c.flags && !has_network d.flags) = true
    · simp only [hpol, if_true]; exact ⟨trivial, trivial⟩
    · simp only [hpol]
      cases e.creat_fails with
      | true => exact ⟨rfl, rfl⟩
      | false =>
        cases build_devname c.device with
        | none => exact ⟨rfl, rfl⟩
        | some ec =>
          cases build_devname d.device with
          | none => exact ⟨rfl, rfl⟩
          | some ek =>
            cases e.close_fails with
            | true => exact ⟨rfl, rfl⟩
            | false =>
              have m : ∀ q, fs.pathExists q = true →
                  ((fs.creat (unit_path gd d.cache_id d.core_id)).dprintf
                    (unit_path gd d.cache_id d.core_id)
                    (unit_text d.cache_id d.core_id ec ek d.device (has_network d.flags))
                    e.dprintf_written).pathExists q = true :=
                fun q hq => FS.pathExists_dprintf_mono _ _ _ _ _
                  (FS.pathExists_creat_mono _ _ _ hq)
              simp only [Bool.false_eq_true, if_false]
              rw [FS.mkdir_of_exists _ _ _ (m _ h1), FS.symlink_of_exists _ _ _ _ (m _ h2),
                FS.mkdir_of_exists _ _ _ (m _ h3), FS.symlink_of_exists _ _ _ _ (m _ h4)]
              exact ⟨rfl, rfl⟩

theorem generate_units_from_links_fixed (gd : List Char) (caches : List opencas_cache)
    (env : Nat → Faults) (devices : List opencas_device) :
    ∀ (i : Nat) (fs : FS), (∀ d ∈ devices, links_exist gd fs d) →
      (generate_units_from gd caches env i devices fs).2.dirs = fs.dirs ∧
      (generate_units_from gd caches env i devices fs).2.links = fs.links := by
  induction devices with
  | nil => intro i fs _; exact ⟨rfl, rfl⟩
  | cons d rest ih =>
    intro i fs h
    have h1 := generate_unit_links_fixed gd caches (env i) d fs (h d (List.mem_cons_self _ _))
    have hm := fun q hq => generate_unit_mono gd caches (env i) d fs q hq
    simp only [generate_units_from]
    rcases hs : generate_unit gd caches (env i) d fs with ⟨ok, fs1⟩
    rw [hs] at h1 hm
    simp only at h1 hm
    cases ok with
    | false => exact h1
    | true =>
      have h2 := ih (i + 1) fs1 (fun d2 hd2 => by
        obtain ⟨a, b, c, e⟩ := h d2 (List.mem_cons_of_mem _ hd2)
        exact ⟨hm _ a, hm _ b, hm _ c, hm _ e⟩)
      exact ⟨h2.1.trans h1.1, h2.2.trans h1.2⟩

/-- After a completed pass without a failure of `mkdir` or `symlink`, the
directories and symlinks of the device exist. -/
theorem generate_unit_links_exist {gd : List Char} {caches : List opencas_cache} {e : Faults}
    {d : opencas_device} {fs : FS} (h : (generate_unit gd caches e d fs).1 = true)
    (h1 : e.mkdir_device_fails = false) (h2 : e.symlink_device_fails = false)
    (h3 : e.mkdir_target_fails = false) (h4 : e.symlink_target_fails = false) :
    links_exist gd (generate_unit gd caches e d fs).2 d := by
  obtain ⟨c, ec, ek, _, _, _, _, _, _, hfs⟩ := generate_unit_ok h
  rw [hfs, h1, h2, h3, h4]
  refine ⟨?_, ?_, ?_, ?_⟩
  · exact FS.pathExists_symlink_mono _ _ _ _ _ (FS.pathExists_mkdir_mono _ _ _ _
      (FS.pathExists_symlink_mono _ _ _ _ _ (FS.pathExists_mkdir _ _)))
  · exact FS.pathExists_symlink_mono _ _ _ _ _ (FS.pathExists_mkdir_mono _ _ _ _
      (FS.pathExists_symlink _ _ _))
  · exact FS.pathExists_symlink_mono _ _ _ _ _ (FS.pathExists_mkdir _ _)
  · exact FS.pathExists_symlink _ _ _

theorem generate_units_from_links_exist (gd : List Char) (caches : List opencas_cache)
    (devices : List opencas_device) :
    ∀ (i : Nat) (fs : FS), (generate_units_from gd caches no_faults i devices fs).1 = true →
      ∀ d ∈ devices,
        links_exist gd (generate_units_from gd caches no_faults i devices fs).2 d := by
  induction devices with
  | nil => intro i fs _ d hd; simp at hd
  | cons d0 rest ih =>
    intro i fs h d hd
    simp only [generate_units_from] at h ⊢
    rcases hs : generate_unit gd caches (no_faults i) d0 fs with ⟨ok, fs1⟩
    rw [hs] at h
    cases ok with
    | false => simp at h
    | true =>
      simp only at h ⊢
      rcases List.mem_cons.mp hd with heq | hmem
      · subst heq
        have hok : (generate_unit gd caches (no_faults i) d fs).1 = true := by rw [hs]
        have hl := generate_unit_links_exist hok rfl rfl rfl rfl
        rw [hs] at hl
        obtain ⟨a, b, c, e⟩ := hl
        exact ⟨generate_units_from_mono _ _ _ _ _ _ _ a,
          generate_units_from_mono _ _ _ _ _ _ _ b,
          generate_units_from_mono _ _ _ _ _ _ _ c,
          generate_units_from_mono _ _ _ _ _ _ _ e⟩
      · exact ih (i + 1) fs1 h d hmem
/-- A completed pass with a full write leaves at its unit path a file that does
not depend on the file system before it, and changes no other file. -/
theorem generate_unit_files_fresh {gd : List Char} {caches : List opencas_cache} {e : Faults}
    {d : opencas_device} {fs : FS} (h : (generate_unit gd caches e d fs).1 = true)
    (hwr : e.dprintf_written = none) (fs2 : FS) :
    (generate_unit gd caches e d fs).2.files (unit_path gd d.cache_id d.core_id)
      = (generate_unit gd caches e d fs2).2.files (unit_path gd d.cache_id d.core_id) ∧
    ∀ q, q ≠ unit_path gd d.cache_id d.core_id →
      (generate_unit gd caches e d fs).2.files q = fs.files q := by
  have h2 : (generate_unit gd caches e d fs2).1 = true := by
    rw [generate_unit_flag gd caches e d fs2 fs]; exact h
  obtain ⟨c, ec, ek, hfind, hc, hd, hfiles⟩ := generate_unit_file h hwr
  obtain ⟨c2, ec2, ek2, hfind2, hc2, hd2, hfiles2⟩ := generate_unit_file h2 hwr
  have e1 : c2 = c := Option.some.inj (hfind2.symm.trans hfind)
  subst e1
  have e2 : ec2 = ec := Option.some.inj (hc2.symm.trans hc)
  have e3 : ek2 = ek := Option.some.inj (hd2.symm.trans hd)
  subst e2 e3
  rw [hfiles, hfiles2]
  refine ⟨by simp, fun q hq => by simp [Function.update_noteq hq]⟩

/-- The files of a completed run with full writes: at the unit path of a
device the file does not depend on the file system before the run; the other
files are those before the run. -/
theorem generate_units_from_files (gd : List Char) (caches : List opencas_cache)
    (env : Nat → Faults) (hwr : ∀ i, (env i).dprintf_written = none)
    (devices : List opencas_device) :
    ∀ (i : Nat) (fs fs2 : FS), (generate_units_from gd caches env i devices fs).1 = true →
      (∀ q, (∃ d ∈ devices, q = unit_path gd d.cache_id d.core_id) →
        (generate_units_from gd caches env i devices fs).2.files q
          = (generate_units_from gd caches env i devices fs2).2.files q) ∧
      (∀ q, (∀ d ∈ devices, q ≠ unit_path gd d.cache_id d.core_id) →
        (generate_units_from gd caches env i devices fs).2.files q = fs.files q) := by
  induction devices with
  | nil =>
    intro i fs fs2 _
    exact ⟨fun q hq => by simp at hq, fun q _ => rfl⟩
  | cons d0 rest ih =>
    intro i fs fs2 h
    have hflag := generate_unit_flag gd caches (env i) d0 fs fs2
    simp only [generate_units_from] at h ⊢
    rcases hs : generate_unit gd caches (env i) d0 fs with ⟨ok, fs1⟩
    rcases hs2 : generate_unit gd caches (env i) d0 fs2 with ⟨ok2, fs3⟩
    rw [hs] at h
    rw [hs, hs2] at hflag
    simp only at hflag
    subst hflag
    cases ok with
    | false => simp at h
    | true =>
      simp only at h ⊢
      have hok : (generate_unit gd caches (env i) d0 fs).1 = true := by rw [hs]
      have hok2 : (generate_unit gd caches (env i) d0 fs2).1 = true := by rw [hs2]
      obtain ⟨f1, f2⟩ := generate_unit_files_fresh hok (hwr i) fs2
      obtain ⟨_, f4⟩ := generate_unit_files_fresh hok2 (hwr i) fs
      rw [hs] at f1 f2
      rw [hs2] at f1 f4
      simp only at f1 f2 f4
      obtain ⟨g1, g2⟩ := ih (i + 1) fs1 fs3 h
      have h3 : (generate_units_from gd caches env (i + 1) rest fs3).1 = true := by
        rw [generate_units_from_flag gd caches env rest (i + 1) fs3 fs1]; exact h
      obtain ⟨_, g4⟩ := ih (i + 1) fs3 fs1 h3
      refine ⟨?_, ?_⟩
      · intro q hq
        by_cases hr : ∃ d ∈ rest, q = unit_path gd d.cache_id d.core_id
        · exact g1 q hr
        · have hr2 : ∀ d ∈ rest, q ≠ unit_path gd d.cache_id d.core_id :=
            fun d hd heq => hr ⟨d, hd, heq⟩
          obtain ⟨d, hd, hq2⟩ := hq
          rcases List.mem_cons.mp hd with heq | hmem
          · subst heq
            rw [g2 q hr2, g4 q hr2, hq2]
            exact f1
          · exact absurd hq2 (hr2 d hmem)
      · intro q hq
        rw [g2 q (fun d hd => hq d (List.mem_cons_of_mem _ hd))]
        exact f2 q (hq d0 (List.mem_cons_self _ _))

/-- Claim C9. When a run from the empty directory succeeds, a second run with
the same tables on the directory it left succeeds too and leaves every file,
directory and symlink as it was (on a file system whose calls fail only when
an entry exists). -/
theorem C9_second_run_changes_nothing (gd : List Char) (caches : List opencas_cache)
    (devices : List opencas_device)
    (h : (generate_units gd caches devices no_faults FS.empty).1 = true) :
    generate_units gd caches devices no_faults
        (generate_units gd caches devices no_faults FS.empty).2
      = (true, (generate_units gd caches devices no_faults FS.empty).2) := by
  unfold generate_units at h ⊢
  have hflag : (generate_units_from gd caches no_faults 0 devices
      (generate_units_from gd caches no_faults 0 devices FS.empty).2).1 = true := by
    rw [generate_units_from_flag gd caches no_faults devices 0 _ FS.empty]; exact h
  obtain ⟨f1, f2⟩ := generate_units_from_files gd caches no_faults (fun _ => rfl) devices 0
    (generate_units_from gd caches no_faults 0 devices FS.empty).2 FS.empty hflag
  obtain ⟨l1, l2⟩ := generate_units_from_links_fixed gd caches no_faults devices 0
    (generate_units_from gd caches no_faults 0 devices FS.empty).2
    (generate_units_from_links_exist gd caches devices 0 FS.empty h)
  apply Prod.ext
  · exact hflag
  · apply FS.ext_fields
    · funext q
      by_cases hq : ∃ d ∈ devices, q = unit_path gd d.cache_id d.core_id
      · exact f1 q hq
      · exact f2 q (fun d hd heq => hq ⟨d, hd, heq⟩)
    · exact l1
    · exact l2

theorem C9_second_run_changes_nothing_witness :
    (generate_units "/run".toList [⟨1, "/dev/sda".toList, 0⟩]
      [⟨0, 1, "/dev/sdb".toList, 0⟩, ⟨1, 1, "/dev/sdc".toList, 0⟩] no_faults FS.empty).1 = true ∧
    generate_units "/run".toList [⟨1, "/dev/sda".toList, 0⟩]
        [⟨0, 1, "/dev/sdb".toList, 0⟩, ⟨1, 1, "/dev/sdc".toList, 0⟩] no_faults
        (generate_units "/run".toList [⟨1, "/dev/sda".toList, 0⟩]
          [⟨0, 1, "/dev/sdb".toList, 0⟩, ⟨1, 1, "/dev/sdc".toList, 0⟩] no_faults FS.empty).2
      = (true, (generate_units "/run".toList [⟨1, "/dev/sda".toList, 0⟩]
          [⟨0, 1, "/dev/sdb".toList, 0⟩, ⟨1, 1, "/dev/sdc".toList, 0⟩] no_faults FS.empty).2) :=
  ⟨by decide, C9_second_run_changes_nothing "/run".toList [⟨1, "/dev/sda".toList, 0⟩]
    [⟨0, 1, "/dev/sdb".toList, 0⟩, ⟨1, 1, "/dev/sdc".toList, 0⟩] (by decide)⟩

/-! ## Names and paths -/

theorem digitChar_isDigit : ∀ m, m < 10 → (Nat.digitChar m).isDigit = true := by
  decide

theorem toDigitsCore_isDigit :
    ∀ (fuel n : Nat) (ds : List Char), (∀ c ∈ ds, c.isDigit = true) →
      ∀ c ∈ Nat.toDigitsCore 10 fuel n ds, c.isDigit = true := by
  intro fuel
  induction fuel with
  | zero => intro n ds h c hc; exact h c (by simpa [Nat.toDigitsCore] using hc)
  | succ fuel ih =>
    intro n ds h c hc
    have hd : (Nat.digitChar (n % 10)).isDigit = true :=
      digitChar_isDigit _ (Nat.mod_lt _ (by decide))
    have hcons : ∀ x ∈ Nat.digitChar (n % 10) :: ds, x.isDigit = true := by
      intro x hx
      rcases List.mem_cons.mp hx with rfl | hx
      · exact hd
      · exact h x hx
    simp only [Nat.toDigitsCore] at hc
    split at hc
    · exact hcons c hc
    · exact ih _ _ hcons c hc

theorem toDigits_isDigit (n : Nat) : ∀ c ∈ Nat.toDigits 10 n, c.isDigit = true :=
  toDigitsCore_isDigit _ _ _ (by simp)

theorem fmt_d_no_slash (n : Int) : '/' ∉ fmt_d n := by
  intro h
  cases n with
  | ofNat m => exact absurd (toDigits_isDigit m _ h) (by decide)
  | negSucc m =>
    simp only [fmt_d, List.mem_cons] at h
    rcases h with h | h
    · exact absurd h (by decide)
    · exact absurd (toDigits_isDigit _ _ h) (by decide)

theorem fmt_d_nonneg_no_hyphen (n : Int) (hn : 0 ≤ n) : '-' ∉ fmt_d n := by
  intro h
  cases n with
  | ofNat m => exact absurd (toDigits_isDigit m _ h) (by decide)
  | negSucc m => exact absurd hn (by simp [Int.negSucc_lt_zero])

theorem unit_name_no_slash (c k : Int) : '/' ∉ unit_name c k := by
  have h1 := fmt_d_no_slash c
  have h2 := fmt_d_no_slash k
  simp [unit_name, h1, h2]

theorem subst_char_append (a : Char) (r s t : List Char) :
    subst_char a r (s ++ t) = subst_char a r s ++ subst_char a r t := by
  induction s with
  | nil => rfl
  | cons c cs ih => simp [subst_char, ih]

theorem subst_char_of_not_mem (a : Char) (r s : List Char) (h : a ∉ s) :
    subst_char a r s = s := by
  induction s with
  | nil => rfl
  | cons c cs ih =>
    have hc : c ≠ a := fun heq => h (by simp [heq])
    have hcs : a ∉ cs := fun hm => h (List.mem_cons_of_mem _ hm)
    simp [subst_char, hc, ih hcs]

/-- For ids that are not negative, the name of the device requirement group is
the escaped name of the device `/dev/opencas<c>-<k>`. -/
theorem build_devname_pair (c k : Int) (hc : 0 ≤ c) (hk : 0 ≤ k) :
    build_devname ("/dev/opencas".toList ++ fmt_d c ++ "-".toList ++ fmt_d k)
      = some ("dev-opencas".toList ++ fmt_d c ++ "\\x2d".toList ++ fmt_d k) := by
  rw [build_devname_eq]
  have e : ("/dev/opencas".toList ++ fmt_d c ++ "-".toList ++ fmt_d k)
      = '/' :: ("dev/opencas".toList ++ fmt_d c ++ "-".toList ++ fmt_d k) := by simp
  rw [e]
  simp only [List.head?_cons, if_true, escape_spec, List.drop_succ_cons, List.drop_zero,
    subst_char_append]
  rw [subst_char_of_not_mem '-' _ (fmt_d c) (fmt_d_nonneg_no_hyphen c hc),
    subst_char_of_not_mem '-' _ (fmt_d k) (fmt_d_nonneg_no_hyphen k hk),
    subst_char_of_not_mem '/' _ (fmt_d c) (fmt_d_no_slash c),
    subst_char_of_not_mem '/' _ (fmt_d k) (fmt_d_no_slash k)]
  rfl

/-- The last component of a path decides the name after the last slash. -/
theorem last_component_eq :
    ∀ (a b u v : List Char), a ++ '/' :: u = b ++ '/' :: v → '/' ∉ u → '/' ∉ v → u = v := by
  intro a
  induction a with
  | nil =>
    intro b u v h hu hv
    cases b with
    | nil => simpa using h
    | cons x b =>
      simp only [List.nil_append, List.cons_append, List.cons.injEq] at h
      exact absurd (by rw [h.2]; simp) hu
  | cons y a ih =>
    intro b u v h hu hv
    cases b with
    | nil =>
      simp only [List.nil_append, List.cons_append, List.cons.injEq] at h
      exact absurd (by rw [← h.2]; simp) hv
    | cons x b =>
      simp only [List.cons_append, List.cons.injEq] at h
      exact ih b u v h.2 hu hv

/-- A name without a slash is not a name followed by a slash and more. -/
theorem no_slash_ne (gd a b u : List Char) (ha : '/' ∉ a) :
    gd ++ '/' :: a ≠ (gd ++ '/' :: b) ++ '/' :: u := by
  intro h
  rw [List.append_assoc, List.append_cancel_left_eq] at h
  simp only [List.cons_append, List.cons.injEq, true_and] at h
  exact ha (by rw [h]; simp)

/-- The name `dev-opencas%d\x2d%d.device.requires`. -/
theorem device_requires_dir_eq (gd : List Char) (c k : Int) :
    device_requires_dir gd c k = gd ++ '/' ::
      ("dev-opencas".toList ++ fmt_d c ++ "\\x2d".toList ++ fmt_d k
        ++ ".device.requires".toList) := by
  simp [device_requires_dir]

theorem target_requires_dir_eq (gd : List Char) (r : Bool) :
    target_requires_dir gd r = gd ++ '/' ::
      (if r then "remote-opencas.target.requires".toList
        else "opencas.target.requires".toList) := by
  cases r <;> simp [target_requires_dir]

theorem unit_path_eq (gd : List Char) (c k : Int) :
    unit_path gd c k = gd ++ '/' :: unit_name c k := by
  simp [unit_path]

theorem symlink_location_eq (dir u : List Char) : symlink_location dir u = dir ++ '/' :: u := by
  simp [symlink_location]

theorem device_name_no_slash (c k : Int) :
    '/' ∉ "dev-opencas".toList ++ fmt_d c ++ "\\x2d".toList ++ fmt_d k
      ++ ".device.requires".toList := by
  have h1 := fmt_d_no_slash c
  have h2 := fmt_d_no_slash k
  simp [h1, h2]

theorem target_name_no_slash (r : Bool) :
    '/' ∉ (if r then "remote-opencas.target.requires".toList
      else "opencas.target.requires".toList) := by
  cases r <;> decide

theorem unit_path_ne_device_dir (gd : List Char) (c k c2 k2 : Int) :
    unit_path gd c k ≠ device_requires_dir gd c2 k2 := by
  simp [unit_path, unit_name, device_requires_dir]

theorem unit_path_ne_target_dir (gd : List Char) (c k : Int) (r : Bool) :
    unit_path gd c k ≠ target_requires_dir gd r := by
  cases r <;> simp [unit_path, unit_name, target_requires_dir]

theorem unit_path_ne_location_device (gd : List Char) (c k c2 k2 : Int) (u : List Char) :
    unit_path gd c k ≠ symlink_location (device_requires_dir gd c2 k2) u := by
  rw [unit_path_eq, symlink_location_eq, device_requires_dir_eq]
  exact no_slash_ne _ _ _ _ (unit_name_no_slash c k)

theorem unit_path_ne_location_target (gd : List Char) (c k : Int) (r : Bool) (u : List Char) :
    unit_path gd c k ≠ symlink_location (target_requires_dir gd r) u := by
  rw [unit_path_eq, symlink_location_eq, target_requires_dir_eq]
  exact no_slash_ne _ _ _ _ (unit_name_no_slash c k)

/-- No requirement directory has the path of a symlink. -/
theorem dir_ne_location (gd : List Char) (c k : Int) (r : Bool) :
    (∀ c2 k2 u, device_requires_dir gd c k ≠ symlink_location (device_requires_dir gd c2 k2) u) ∧
    (∀ r2 u, device_requires_dir gd c k ≠ symlink_location (target_requires_dir gd r2) u) ∧
    (∀ c2 k2 u, target_requires_dir gd r ≠ symlink_location (device_requires_dir gd c2 k2) u) ∧
    (∀ r2 u, target_requires_dir gd r ≠ symlink_location (target_requires_dir gd r2) u) := by
  refine ⟨?_, ?_, ?_, ?_⟩
  · intro c2 k2 u
    rw [symlink_location_eq, device_requires_dir_eq, device_requires_dir_eq]
    exact no_slash_ne _ _ _ _ (device_name_no_slash c k)
  · intro r2 u
    rw [symlink_location_eq, device_requires_dir_eq, target_requires_dir_eq]
    exact no_slash_ne _ _ _ _ (device_name_no_slash c k)
  · intro c2 k2 u
    rw [symlink_location_eq, device_requires_dir_eq, target_requires_dir_eq]
    exact no_slash_ne _ _ _ _ (target_name_no_slash r)
  · intro r2 u
    rw [symlink_location_eq, target_requires_dir_eq, target_requires_dir_eq]
    exact no_slash_ne _ _ _ _ (target_name_no_slash r)

/-- Two symlinks at one location have the same unit name. -/
theorem location_unit_name (dir dir2 : List Char) (c k c2 k2 : Int)
    (h : symlink_location dir (unit_name c k) = symlink_location dir2 (unit_name c2 k2)) :
    unit_name c k = unit_name c2 k2 := by
  rw [symlink_location_eq, symlink_location_eq] at h
  exact last_component_eq _ _ _ _ h (unit_name_no_slash c k) (unit_name_no_slash c2 k2)

/-! ## The layout of the destination directory -/

theorem FS.mkdir_dirs_update (fs : FS) (p : List Char) (h1 : fs.files p = none)
    (h2 : fs.links p = none) : (fs.mkdir p false).dirs = Function.update fs.dirs p true := by
  unfold FS.mkdir
  by_cases h : fs.dirs p = true
  · simp only [FS.pathExists, h1, h2, h, Option.isSome_none, Bool.false_or, Bool.or_false,
      Bool.or_true, if_true]
    funext q
    by_cases hq : q = p
    · subst hq; simp [h]
    · simp [Function.update_noteq hq]
  · simp [FS.pathExists, h1, h2, h]

theorem FS.symlink_links_update (fs : FS) (t p : List Char) (h1 : fs.files p = none)
    (h2 : fs.dirs p = false) (h3 : ∀ t2, fs.links p = some t2 → t2 = t) :
    (fs.symlink t p false).links = Function.update fs.links p (some t) := by
  unfold FS.symlink
  cases h : fs.links p with
  | none => simp [FS.pathExists, h1, h2, h]
  | some t2 =>
    have ht := h3 t2 h
    subst ht
    simp only [FS.pathExists, h1, h2, h, Option.isSome_none, Bool.false_or, Bool.or_false,
      Option.isSome_some, if_true]
    funext q
    by_cases hq : q = p
    · subst hq; simp [h]
    · simp [Function.update_noteq hq]

theorem layout_inv_no_file {gd : List Char} {S : opencas_device → Prop} {fs : FS}
    (hinv : layout_inv gd S fs) (p : List Char) (h : ∀ c k, p ≠ unit_path gd c k) :
    fs.files p = none := by
  cases hf : fs.files p with
  | none => rfl
  | some v =>
    obtain ⟨d, _, hd⟩ := hinv.2.1 p (by simp [hf])
    exact absurd hd (h _ _)

theorem layout_inv_no_dir {gd : List Char} {S : opencas_device → Prop} {fs : FS}
    (hinv : layout_inv gd S fs) (p : List Char) (h1 : ∀ c k, p ≠ device_requires_dir gd c k)
    (h2 : ∀ r, p ≠ target_requires_dir gd r) : fs.dirs p = false := by
  cases hf : fs.dirs p with
  | false => rfl
  | true =>
    obtain ⟨d, _, hd⟩ := hinv.2.2.1 p hf
    rcases hd with hd | hd
    · exact absurd hd (h1 _ _)
    · exact absurd hd (h2 _)

theorem layout_inv_no_link {gd : List Char} {S : opencas_device → Prop} {fs : FS}
    (hinv : layout_inv gd S fs) (p : List Char)
    (h1 : ∀ c k u, p ≠ symlink_location (device_requires_dir gd c k) u)
    (h2 : ∀ r u, p ≠ symlink_location (target_requires_dir gd r) u) : fs.links p = none := by
  cases hf : fs.links p with
  | none => rfl
  | some v =>
    obtain ⟨d, _, _, hd⟩ := hinv.2.2.2 p v hf
    rcases hd with hd | hd
    · exact absurd hd (h1 _ _ _)
    · exact absurd hd (h2 _ _)

theorem layout_inv_link_target {gd : List Char} {S : opencas_device → Prop} {fs : FS}
    (hinv : layout_inv gd S fs) (dir : List Char) (c k : Int) (t : List Char)
    (h : fs.links (symlink_location dir (unit_name c k)) = some t) :
    t = symlink_target c k := by
  obtain ⟨d, _, ht, hd⟩ := hinv.2.2.2 _ t h
  rw [ht]
  unfold symlink_target
  rcases hd with hd | hd
  · rw [location_unit_name _ _ _ _ _ _ hd]
  · rw [location_unit_name _ _ _ _ _ _ hd]

theorem location_ne_dir (gd : List Char) (dir u : List Char)
    (hdir : (∃ c k, dir = device_requires_dir gd c k) ∨ ∃ r, dir = target_requires_dir gd r) :
    (∀ c k, symlink_location dir u ≠ device_requires_dir gd c k) ∧
    (∀ r, symlink_location dir u ≠ target_requires_dir gd r) := by
  rcases hdir with ⟨c2, k2, rfl⟩ | ⟨r2, rfl⟩
  · exact ⟨fun c k h => (dir_ne_location gd c k false).1 c2 k2 u h.symm,
      fun r h => (dir_ne_location gd 0 0 r).2.2.1 c2 k2 u h.symm⟩
  · exact ⟨fun c k h => (dir_ne_location gd c k false).2.1 r2 u h.symm,
      fun r h => (dir_ne_location gd 0 0 r).2.2.2 r2 u h.symm⟩

theorem location_ne_unit_path (gd : List Char) (dir u : List Char)
    (hdir : (∃ c k, dir = device_requires_dir gd c k) ∨ ∃ r, dir = target_requires_dir gd r) :
    ∀ c k, symlink_location dir u ≠ unit_path gd c k := by
  rcases hdir with ⟨c2, k2, rfl⟩ | ⟨r2, rfl⟩
  · exact fun c k h => unit_path_ne_location_device gd c k c2 k2 u h.symm
  · exact fun c k h => unit_path_ne_location_target gd c k r2 u h.symm

theorem dir_ne_unit_path (gd : List Char) (dir : List Char)
    (hdir : (∃ c k, dir = device_requires_dir gd c k) ∨ ∃ r, dir = target_requires_dir gd r) :
    ∀ c k, dir ≠ unit_path gd c k := by
  rcases hdir with ⟨c2, k2, rfl⟩ | ⟨r2, rfl⟩
  · exact fun c k h => unit_path_ne_device_dir gd c k c2 k2 h.symm
  · exact fun c k h => unit_path_ne_target_dir gd c k r2 h.symm

theorem dir_ne_any_location (gd : List Char) (dir : List Char)
    (hdir : (∃ c k, dir = device_requires_dir gd c k) ∨ ∃ r, dir = target_requires_dir gd r) :
    (∀ c k u, dir ≠ symlink_location (device_requires_dir gd c k) u) ∧
    (∀ r u, dir ≠ symlink_location (target_requires_dir gd r) u) := by
  rcases hdir with ⟨c2, k2, rfl⟩ | ⟨r2, rfl⟩
  · exact ⟨(dir_ne_location gd c2 k2 false).1, (dir_ne_location gd c2 k2 false).2.1⟩
  · exact ⟨(dir_ne_location gd 0 0 r2).2.2.1, (dir_ne_location gd 0 0 r2).2.2.2⟩

/-- The fields of the file system after the four calls of the link step, when
no call fails in the environment and the paths are free or hold what is asked. -/
theorem link_step_fields (fsA : FS) (T D1 L1 D2 L2 : List Char)
    (a1 : fsA.files D1 = none) (a2 : fsA.links D1 = none)
    (b1 : fsA.files L1 = none) (b2 : fsA.dirs L1 = false) (b3 : L1 ≠ D1)
    (b4 : ∀ t2, fsA.links L1 = some t2 → t2 = T)
    (c1 : fsA.files D2 = none) (c2 : fsA.links D2 = none) (c3 : D2 ≠ L1)
    (d1 : fsA.files L2 = none) (d2 : fsA.dirs L2 = false) (d3 : L2 ≠ D1) (d4 : L2 ≠ D2)
    (d5 : ∀ t2, fsA.links L2 = some t2 → t2 = T) :
    ((((fsA.mkdir D1 false).symlink T L1 false).mkdir D2 false).symlink T L2 false).files
      = fsA.files ∧
    ((((fsA.mkdir D1 false).symlink T L1 false).mkdir D2 false).symlink T L2 false).dirs
      = Function.update (Function.update fsA.dirs D1 true) D2 true ∧
    ((((fsA.mkdir D1 false).symlink T L1 false).mkdir D2 false).symlink T L2 false).links
      = Function.update (Function.update fsA.links L1 (some T)) L2 (some T) := by
  have hB : (fsA.mkdir D1 false).dirs = Function.update fsA.dirs D1 true :=
    FS.mkdir_dirs_update fsA D1 a1 a2
  have hC : ((fsA.mkdir D1 false).symlink T L1 false).links
      = Function.update fsA.links L1 (some T) := by
    rw [FS.symlink_links_update _ T L1 (by simpa using b1)
      (by rw [hB, Function.update_noteq b3]; exact b2) (by simpa using b4)]
    simp
  have hD : (((fsA.mkdir D1 false).symlink T L1 false).mkdir D2 false).dirs
      = Function.update (Function.update fsA.dirs D1 true) D2 true := by
    rw [FS.mkdir_dirs_update _ D2 (by simpa using c1)
      (by rw [hC, Function.update_noteq c3]; exact c2)]
    simp [hB]
  refine ⟨by simp, by simp [hD], ?_⟩
  rw [FS.symlink_links_update _ T L2 (by simpa using d1)
    (by rw [hD, Function.update_noteq d4, Function.update_noteq d3]; exact d2) ?_]
  · simp [hC]
  · intro t2 ht2
    rw [FS.mkdir_links, hC] at ht2
    by_cases h : L2 = L1
    · rw [h, Function.update_same] at ht2
      exact (Option.some.inj ht2).symm
    · rw [Function.update_noteq h] at ht2
      exact d5 t2 ht2

/-- The fields of the file system after a completed pass without a failure in
the environment, from a file system with the layout of the devices in `S`. -/
theorem generate_unit_fields {gd : List Char} {caches : List opencas_cache} {e : Faults}
    {d : opencas_device} {fs : FS} {S : opencas_device → Prop} (hinv : layout_inv gd S fs)
    (h : (generate_unit gd caches e d fs).1 = true) (hwr : e.dprintf_written = none)
    (h1 : e.mkdir_device_fails = false) (h2 : e.symlink_device_fails = false)
    (h3 : e.mkdir_target_fails = false) (h4 : e.symlink_target_fails = false) :
    (∃ text, (generate_unit gd caches e d fs).2.files
      = Function.update fs.files (unit_path gd d.cache_id d.core_id) (some text)) ∧
    (generate_unit gd caches e d fs).2.dirs
      = Function.update (Function.update fs.dirs (device_requires_dir gd d.cache_id d.core_id)
          true) (target_requires_dir gd (has_network d.flags)) true ∧
    (generate_unit gd caches e d fs).2.links
      = Function.update (Function.update fs.links
          (symlink_location (device_requires_dir gd d.cache_id d.core_id)
            (unit_name d.cache_id d.core_id)) (some (symlink_target d.cache_id d.core_id)))
          (symlink_location (target_requires_dir gd (has_network d.flags))
            (unit_name d.cache_id d.core_id)) (some (symlink_target d.cache_id d.core_id)) := by
  obtain ⟨c, ec, ek, _, _, _, _, _, _, hfs⟩ := generate_unit_ok h
  have hD1 : (∃ c k, device_requires_dir gd d.cache_id d.core_id = device_requires_dir gd c k) ∨
      ∃ r, device_requires_dir gd d.cache_id d.core_id = target_requires_dir gd r :=
    Or.inl ⟨_, _, rfl⟩
  have hD2 : (∃ c k, target_requires_dir gd (has_network d.flags) = device_requires_dir gd c k) ∨
      ∃ r, target_requires_dir gd (has_network d.flags) = target_requires_dir gd r :=
    Or.inr ⟨_, rfl⟩
  have hA : ((fs.creat (unit_path gd d.cache_id d.core_id)).dprintf
        (unit_path gd d.cache_id d.core_id)
        (unit_text d.cache_id d.core_id ec ek d.device (has_network d.flags)) none).files
      = Function.update fs.files (unit_path gd d.cache_id d.core_id)
        (some (unit_text d.cache_id d.core_id ec ek d.device (has_network d.flags))) :=
    FS.creat_dprintf_files _ _ _
  have nofile : ∀ p, (∀ c k, p ≠ unit_path gd c k) →
      ((fs.creat (unit_path gd d.cache_id d.core_id)).dprintf
        (unit_path gd d.cache_id d.core_id)
        (unit_text d.cache_id d.core_id ec ek d.device (has_network d.flags)) none).files p
        = none := by
    intro p hp
    rw [hA, Function.update_noteq (hp _ _)]
    exact layout_inv_no_file hinv p hp
  obtain ⟨f1, f2, f3⟩ := link_step_fields
    ((fs.creat (unit_path gd d.cache_id d.core_id)).dprintf (unit_path gd d.cache_id d.core_id)
      (unit_text d.cache_id d.core_id ec ek d.device (has_network d.flags)) none)
    (symlink_target d.cache_id d.core_id) (device_requires_dir gd d.cache_id d.core_id)
    (symlink_location (device_requires_dir gd d.cache_id d.core_id)
      (unit_name d.cache_id d.core_id))
    (target_requires_dir gd (has_network d.flags))
    (symlink_location (target_requires_dir gd (has_network d.flags))
      (unit_name d.cache_id d.core_id))
    (nofile _ (dir_ne_unit_path gd _ hD1))
    (layout_inv_no_link hinv _ (dir_ne_any_location gd _ hD1).1 (dir_ne_any_location gd _ hD1).2)
    (nofile _ (location_ne_unit_path gd _ _ hD1))
    (layout_inv_no_dir hinv _ (location_ne_dir gd _ _ hD1).1 (location_ne_dir gd _ _ hD1).2)
    ((location_ne_dir gd _ _ hD1).1 _ _)
    (fun t2 ht2 => layout_inv_link_target hinv _ _ _ t2 ht2)
    (nofile _ (dir_ne_unit_path gd _ hD2))
    (layout_inv_no_link hinv _ (dir_ne_any_location gd _ hD2).1 (dir_ne_any_location gd _ hD2).2)
    ((dir_ne_any_location gd _ hD2).1 _ _ _)
    (nofile _ (location_ne_unit_path gd _ _ hD2))
    (layout_inv_no_dir hinv _ (location_ne_dir gd _ _ hD2).1 (location_ne_dir gd _ _ hD2).2)
    ((location_ne_dir gd _ _ hD2).1 _ _)
    ((location_ne_dir gd _ _ hD2).2 _)
    (fun t2 ht2 => layout_inv_link_target hinv _ _ _ t2 ht2)
  rw [hfs, hwr, h1, h2, h3, h4]
  exact ⟨⟨_, f1.trans hA⟩, f2, f3⟩

theorem location_symlink_target (dir dir2 : List Char) (c k c2 k2 : Int)
    (h : symlink_location dir (unit_name c k) = symlink_location dir2 (unit_name c2 k2)) :
    symlink_target c k = symlink_target c2 k2 := by
  unfold symlink_target
  rw [location_unit_name _ _ _ _ _ _ h]

theorem update2_dirs (g : List Char → Bool) (D1 D2 p : List Char)
    (h : p = D1 ∨ p = D2 ∨ g p = true) :
    Function.update (Function.update g D1 true) D2 true p = true := by
  by_cases h2 : p = D2
  · rw [h2, Function.update_same]
  · rw [Function.update_noteq h2]
    by_cases h1 : p = D1
    · rw [h1, Function.update_same]
    · rw [Function.update_noteq h1]
      rcases h with h | h | h
      · exact absurd h h1
      · exact absurd h h2
      · exact h

theorem update2_links (l : List Char → Option (List Char)) (L1 L2 p T t : List Char)
    (h : (p = L1 → t = T) ∧ (p = L2 → t = T) ∧ (p ≠ L1 → p ≠ L2 → l p = some t)) :
    Function.update (Function.update l L1 (some T)) L2 (some T) p = some t := by
  by_cases h2 : p = L2
  · rw [h2, Function.update_same, h.2.1 h2]
  · rw [Function.update_noteq h2]
    by_cases h1 : p = L1
    · rw [h1, Function.update_same, h.1 h1]
    · rw [Function.update_noteq h1]
      exact h.2.2 h1 h2

/-- The layout after one more device. -/
theorem layout_inv_update {gd : List Char} {S : opencas_device → Prop} {fs fs2 : FS}
    (d : opencas_device) (hinv : layout_inv gd S fs) (text : List Char)
    (hf : fs2.files = Function.update fs.files (unit_path gd d.cache_id d.core_id) (some text))
    (hd : fs2.dirs = Function.update (Function.update fs.dirs
      (device_requires_dir gd d.cache_id d.core_id) true)
      (target_requires_dir gd (has_network d.flags)) true)
    (hl : fs2.links = Function.update (Function.update fs.links
      (symlink_location (device_requires_dir gd d.cache_id d.core_id)
        (unit_name d.cache_id d.core_id)) (some (symlink_target d.cache_id d.core_id)))
      (symlink_location (target_requires_dir gd (has_network d.flags))
        (unit_name d.cache_id d.core_id)) (some (symlink_target d.cache_id d.core_id))) :
    layout_inv gd (fun x => S x ∨ x = d) fs2 := by
  obtain ⟨i1, i2, i3, i4⟩ := hinv
  refine ⟨?_, ?_, ?_, ?_⟩
  · intro x hx
    rw [hf, hd, hl]
    rcases hx with hx | hx
    · obtain ⟨a, b, c, e, f⟩ := i1 x hx
      refine ⟨?_, update2_dirs _ _ _ _ (Or.inr (Or.inr b)), update2_links _ _ _ _ _ _ ⟨?_, ?_, ?_⟩,
        update2_dirs _ _ _ _ (Or.inr (Or.inr e)), update2_links _ _ _ _ _ _ ⟨?_, ?_, ?_⟩⟩
      · by_cases hp : unit_path gd x.cache_id x.core_id = unit_path gd d.cache_id d.core_id
        · rw [hp, Function.update_same]; rfl
        · rw [Function.update_noteq hp]; exact a
      · exact fun heq => location_symlink_target _ _ _ _ _ _ heq
      · exact fun heq => location_symlink_target _ _ _ _ _ _ heq
      · exact fun _ _ => c
      · exact fun heq => location_symlink_target _ _ _ _ _ _ heq
      · exact fun heq => location_symlink_target _ _ _ _ _ _ heq
      · exact fun _ _ => f
    · subst hx
      refine ⟨?_, update2_dirs _ _ _ _ (Or.inl rfl), update2_links _ _ _ _ _ _ ⟨?_, ?_, ?_⟩,
        update2_dirs _ _ _ _ (Or.inr (Or.inl rfl)), update2_links _ _ _ _ _ _ ⟨?_, ?_, ?_⟩⟩
      · rw [Function.update_same]; rfl
      · exact fun _ => rfl
      · exact fun _ => rfl
      · exact fun hne => absurd rfl hne
      · exact fun _ => rfl
      · exact fun _ => rfl
      · exact fun _ hne => absurd rfl hne
  · intro p hp
    rw [hf] at hp
    by_cases h : p = unit_path gd d.cache_id d.core_id
    · exact ⟨d, Or.inr rfl, h⟩
    · rw [Function.update_noteq h] at hp
      obtain ⟨x, hx, hpx⟩ := i2 p hp
      exact ⟨x, Or.inl hx, hpx⟩
  · intro p hp
    rw [hd] at hp
    by_cases h2 : p = target_requires_dir gd (has_network d.flags)
    · exact ⟨d, Or.inr rfl, Or.inr h2⟩
    · rw [Function.update_noteq h2] at hp
      by_cases h1 : p = device_requires_dir gd d.cache_id d.core_id
      · exact ⟨d, Or.inr rfl, Or.inl h1⟩
      · rw [Function.update_noteq h1] at hp
        obtain ⟨x, hx, hpx⟩ := i3 p hp
        exact ⟨x, Or.inl hx, hpx⟩
  · intro p t hp
    rw [hl] at hp
    by_cases h2 : p = symlink_location (target_requires_dir gd (has_network d.flags))
        (unit_name d.cache_id d.core_id)
    · rw [h2, Function.update_same] at hp
      exact ⟨d, Or.inr rfl, (Option.some.inj hp).symm, Or.inr h2⟩
    · rw [Function.update_noteq h2] at hp
      by_cases h1 : p = symlink_location (device_requires_dir gd d.cache_id d.core_id)
          (unit_name d.cache_id d.core_id)
      · rw [h1, Function.update_same] at hp
        exact ⟨d, Or.inr rfl, (Option.some.inj hp).symm, Or.inl h1⟩
      · rw [Function.update_noteq h1] at hp
        obtain ⟨x, hx, hpx⟩ := i4 p t hp
        exact ⟨x, Or.inl hx, hpx⟩

theorem layout_inv_empty (gd : List Char) (S : opencas_device → Prop) (h : ∀ d, ¬ S d) :
    layout_inv gd S FS.empty := by
  refine ⟨fun d hd => absurd hd (h d), ?_, ?_, ?_⟩
  · intro p hp; simp [FS.empty] at hp
  · intro p hp; simp [FS.empty] at hp
  · intro p t hp; simp [FS.empty] at hp

theorem layout_inv_congr {gd : List Char} {S S2 : opencas_device → Prop} {fs : FS}
    (h : ∀ d, S d ↔ S2 d) (hinv : layout_inv gd S fs) : layout_inv gd S2 fs := by
  have : S = S2 := funext fun d => propext (h d)
  rw [← this]; exact hinv

/-- The layout after a completed run on a file system whose calls fail only
when an entry exists. -/
theorem generate_units_from_layout (gd : List Char) (caches : List opencas_cache)
    (devices : List opencas_device) :
    ∀ (i : Nat) (fs : FS) (S : opencas_device → Prop), layout_inv gd S fs →
      (generate_units_from gd caches no_faults i devices fs).1 = true →
      layout_inv gd (fun x => S x ∨ x ∈ devices)
        (generate_units_from gd caches no_faults i devices fs).2 := by
  induction devices with
  | nil =>
    intro i fs S hinv _
    exact layout_inv_congr (fun d => by simp) hinv
  | cons d0 rest ih =>
    intro i fs S hinv h
    simp only [generate_units_from] at h ⊢
    rcases hs : generate_unit gd caches (no_faults i) d0 fs with ⟨ok, fs1⟩
    rw [hs] at h
    cases ok with
    | false => simp at h
    | true =>
      simp only at h ⊢
      have hok : (generate_unit gd caches (no_faults i) d0 fs).1 = true := by rw [hs]
      obtain ⟨⟨text, f1⟩, f2, f3⟩ := generate_unit_fields hinv hok rfl rfl rfl rfl rfl
      rw [hs] at f1 f2 f3
      have hinv1 := layout_inv_update d0 hinv text f1 f2 f3
      have := ih (i + 1) fs1 _ hinv1 h
      refine layout_inv_congr (fun d => ?_) this
      simp only [List.mem_cons]
      tauto

/-- Claim C7. After a successful run on an empty destination directory, on a
file system whose calls fail only when an entry exists: for every core device
with ids `c`, `k` that are not negative the directory holds the unit file
`opencas@opencas<c>-<k>.service`, the directory named by the escaped
`/dev/opencas<c>-<k>` and `.device.requires` with a symlink of the unit name
to `../` and the unit name, and the `.target.requires` directory of the
target of the device with the same symlink. Every file is the unit file of a
core device, every directory one of its two requirement directories, every
symlink one of its two symlinks. -/
theorem C7_destination_layout (gd : List Char) (caches : List opencas_cache)
    (devices : List opencas_device)
    (h : (generate_units gd caches devices no_faults FS.empty).1 = true) :
    (∀ d ∈ devices, 0 ≤ d.cache_id → 0 ≤ d.core_id →
      ∃ e, build_devname
          ("/dev/opencas".toList ++ fmt_d d.cache_id ++ "-".toList ++ fmt_d d.core_id)
          = some e ∧
        ((generate_units gd caches devices no_faults FS.empty).2.files
          (gd ++ "/".toList ++ ("opencas@opencas".toList ++ fmt_d d.cache_id ++ "-".toList
            ++ fmt_d d.core_id ++ ".service".toList))).isSome = true ∧
        (generate_units gd caches devices no_faults FS.empty).2.dirs
          (gd ++ "/".toList ++ e ++ ".device.requires".toList) = true ∧
        (generate_units gd caches devices no_faults FS.empty).2.links
          (gd ++ "/".toList ++ e ++ ".device.requires".toList ++ "/".toList
            ++ unit_name d.cache_id d.core_id)
          = some ("../".toList ++ unit_name d.cache_id d.core_id) ∧
        (generate_units gd caches devices no_faults FS.empty).2.dirs
          (gd ++ "/".toList ++ opencas_target (has_network d.flags) ++ ".requires".toList)
          = true ∧
        (generate_units gd caches devices no_faults FS.empty).2.links
          (gd ++ "/".toList ++ opencas_target (has_network d.flags) ++ ".requires".toList
            ++ "/".toList ++ unit_name d.cache_id d.core_id)
          = some ("../".toList ++ unit_name d.cache_id d.core_id)) ∧
    (∀ p, ((generate_units gd caches devices no_faults FS.empty).2.files p).isSome = true →
      ∃ d ∈ devices, p = gd ++ "/".toList ++ unit_name d.cache_id d.core_id) ∧
    (∀ p, (generate_units gd caches devices no_faults FS.empty).2.dirs p = true →
      ∃ d ∈ devices, p = device_requires_dir gd d.cache_id d.core_id ∨
        p = gd ++ "/".toList ++ opencas_target (has_network d.flags) ++ ".requires".toList) ∧
    (∀ p t, (generate_units gd caches devices no_faults FS.empty).2.links p = some t →
      ∃ d ∈ devices, t = "../".toList ++ unit_name d.cache_id d.core_id ∧
        (p = device_requires_dir gd d.cache_id d.core_id ++ "/".toList
            ++ unit_name d.cache_id d.core_id ∨
          p = gd ++ "/".toList ++ opencas_target (has_network d.flags) ++ ".requires".toList
            ++ "/".toList ++ unit_name d.cache_id d.core_id)) := by
  have hinv := generate_units_from_layout gd caches devices 0 FS.empty (fun _ => False)
    (layout_inv_empty gd _ (fun _ hf => hf)) h
  have e1 : ∀ r, gd ++ "/".toList ++ opencas_target r ++ ".requires".toList
      = target_requires_dir gd r := by
    intro r; cases r <;> simp [opencas_target, target_requires_dir]
  have e2 : ∀ (c k : Int), gd ++ "/".toList
      ++ ("dev-opencas".toList ++ fmt_d c ++ "\\x2d".toList ++ fmt_d k)
      ++ ".device.requires".toList = device_requires_dir gd c k := by
    intro c k; simp [device_requires_dir]
  have e3 : ∀ dir u, dir ++ "/".toList ++ u = symlink_location dir u := fun _ _ => rfl
  have e4 : ∀ (c k : Int), gd ++ "/".toList ++ unit_name c k = unit_path gd c k :=
    fun _ _ => rfl
  have e5 : ∀ (c k : Int), "../".toList ++ unit_name c k = symlink_target c k := fun _ _ => rfl
  obtain ⟨i1, i2, i3, i4⟩ := hinv
  refine ⟨?_, ?_, ?_, ?_⟩
  · intro d hd hc hk
    refine ⟨_, build_devname_pair d.cache_id d.core_id hc hk, ?_⟩
    obtain ⟨a, b, c, e, f⟩ := i1 d (Or.inr hd)
    rw [e2, e3, e1, e3, e5]
    exact ⟨a, b, c, e, f⟩
  · intro p hp
    obtain ⟨d, hd, hpd⟩ := i2 p hp
    rcases hd with hd | hd
    · exact absurd hd id
    · exact ⟨d, hd, hpd⟩
  · intro p hp
    obtain ⟨d, hd, hpd⟩ := i3 p hp
    rcases hd with hd | hd
    · exact absurd hd id
    · exact ⟨d, hd, by rw [e1]; exact hpd⟩
  · intro p t hp
    obtain ⟨d, hd, ht, hpd⟩ := i4 p t hp
    rcases hd with hd | hd
    · exact absurd hd id
    · exact ⟨d, hd, ht, by rw [e3, e1, e3]; exact hpd⟩

theorem C7_destination_layout_witness :
    (generate_units "/run".toList [⟨1, "/dev/sda".toList, 0⟩, ⟨2, "/dev/sdx".toList, 1⟩]
      [⟨0, 1, "/dev/sdb".toList, 0⟩, ⟨3, 2, "/dev/sdc".toList, 1⟩] no_faults FS.empty).1 = true ∧
    ((generate_units "/run".toList [⟨1, "/dev/sda".toList, 0⟩, ⟨2, "/dev/sdx".toList, 1⟩]
      [⟨0, 1, "/dev/sdb".toList, 0⟩, ⟨3, 2, "/dev/sdc".toList, 1⟩] no_faults FS.empty).2.files
        "/run/opencas@opencas2-3.service".toList).isSome = true ∧
    (generate_units "/run".toList [⟨1, "/dev/sda".toList, 0⟩, ⟨2, "/dev/sdx".toList, 1⟩]
      [⟨0, 1, "/dev/sdb".toList, 0⟩, ⟨3, 2, "/dev/sdc".toList, 1⟩] no_faults FS.empty).2.links
        "/run/dev-opencas2\\x2d3.device.requires/opencas@opencas2-3.service".toList
      = some "../opencas@opencas2-3.service".toList ∧
    (generate_units "/run".toList [⟨1, "/dev/sda".toList, 0⟩, ⟨2, "/dev/sdx".toList, 1⟩]
      [⟨0, 1, "/dev/sdb".toList, 0⟩, ⟨3, 2, "/dev/sdc".toList, 1⟩] no_faults FS.empty).2.links
        "/run/remote-opencas.target.requires/opencas@opencas2-3.service".toList
      = some "../opencas@opencas2-3.service".toList ∧
    ∀ p, ((generate_units "/run".toList [⟨1, "/dev/sda".toList, 0⟩, ⟨2, "/dev/sdx".toList, 1⟩]
        [⟨0, 1, "/dev/sdb".toList, 0⟩, ⟨3, 2, "/dev/sdc".toList, 1⟩] no_faults
        FS.empty).2.files p).isSome = true →
      p = "/run/opencas@opencas1-0.service".toList ∨
      p = "/run/opencas@opencas2-3.service".toList := by
  have hrun : (generate_units "/run".toList
      [⟨1, "/dev/sda".toList, 0⟩, ⟨2, "/dev/sdx".toList, 1⟩]
      [⟨0, 1, "/dev/sdb".toList, 0⟩, ⟨3, 2, "/dev/sdc".toList, 1⟩] no_faults FS.empty).1 = true := by
    decide
  obtain ⟨h1, h2, _, _⟩ := C7_destination_layout "/run".toList
    [⟨1, "/dev/sda".toList, 0⟩, ⟨2, "/dev/sdx".toList, 1⟩]
    [⟨0, 1, "/dev/sdb".toList, 0⟩, ⟨3, 2, "/dev/sdc".toList, 1⟩] hrun
  obtain ⟨e, he, a, _, c, _, f⟩ := h1 ⟨3, 2, "/dev/sdc".toList, 1⟩ (by simp) (by decide)
    (by decide)
  have hev : e = "dev-opencas2\\x2d3".toList := Option.some.inj (he.symm.trans (by decide))
  subst hev
  refine ⟨hrun, a, c, f, ?_⟩
  intro p hp
  obtain ⟨d, hd, hpd⟩ := h2 p hp
  simp only [List.mem_cons, List.mem_singleton, List.not_mem_nil, or_false] at hd
  rcases hd with rfl | rfl
  · exact Or.inl hpd
  · exact Or.inr hpd

/-! ## The configuration parser -/

/-- The stage changes only on a section header. -/
theorem parse_line_stage (st st2 : ParseState) (b : List Char)
    (h : parse_line st b = some st2) (hne : st2.stage ≠ st.stage) :
    cstr (trim_line b) = "[caches]".toList ∨ cstr (trim_line b) = "[cores]".toList := by
  unfold parse_line at h
  simp only at h
  split_ifs at h with h1 h2 h3 h4 h5 h6 h7
  · simp only [Option.some.injEq] at h; subst h; exact absurd rfl hne
  · exact Or.inl h2
  · exact Or.inr h3
  · simp only [Option.map_eq_some'] at h
    obtain ⟨c, _, hc⟩ := h
    subst hc; exact absurd rfl hne
  · simp only [Option.map_eq_some'] at h
    obtain ⟨c, _, hc⟩ := h
    subst hc; exact absurd rfl hne
  · simp only [Option.some.injEq] at h; subst h; exact absurd rfl hne

/-- The tables that the loop of `parse_config` builds, when no data line of a
section lacks a field and no table overflows: one record for each data line of
the section, in file order, after the records already there. -/
theorem parse_lines_tables (bs : List (List Char)) :
    ∀ st : ParseState,
      st.caches.length + (data_lines_under STAGE_PARSE_CACHES st.stage bs).length
        ≤ MAX_CACHES →
      st.devices.length + (data_lines_under STAGE_PARSE_DEVICES st.stage bs).length
        ≤ MAX_DEVICES →
      (∀ l ∈ data_lines_under STAGE_PARSE_CACHES st.stage bs, (parse_cache l).isSome = true) →
      (∀ l ∈ data_lines_under STAGE_PARSE_DEVICES st.stage bs,
        (parse_device l).isSome = true) →
      ∃ st2, parse_lines st bs = some st2 ∧
        st2.caches.map some = st.caches.map some
          ++ (data_lines_under STAGE_PARSE_CACHES st.stage bs).map parse_cache ∧
        st2.devices.map some = st.devices.map some
          ++ (data_lines_under STAGE_PARSE_DEVICES st.stage bs).map parse_device := by
  induction bs with
  | nil =>
    intro st _ _ _ _
    exact ⟨st, rfl, by simp [data_lines_under], by simp [data_lines_under]⟩
  | cons b bs ih =>
    intro st hc hd wc wd
    rcases st with ⟨stage, cs, ds⟩
    have n12 : ¬ STAGE_PARSE_CACHES = STAGE_PARSE_DEVICES := by decide
    have n21 : ¬ STAGE_PARSE_DEVICES = STAGE_PARSE_CACHES := by decide
    simp only [parse_lines, parse_line]
    simp only at hc hd wc wd ⊢
    by_cases h1 : trim_line b = []
    · simp only [data_lines_under, h1, if_true] at hc hd wc wd ⊢
      exact ih ⟨stage, cs, ds⟩ hc hd wc wd
    · by_cases h2 : cstr (trim_line b) = "[caches]".toList
      · simp only [data_lines_under, h1, h2, if_true, if_false] at hc hd wc wd ⊢
        exact ih ⟨STAGE_PARSE_CACHES, cs, ds⟩ hc hd wc wd
      · by_cases h3 : cstr (trim_line b) = "[cores]".toList
        · simp only [data_lines_under, h1, h2, h3, if_true, if_false] at hc hd wc wd ⊢
          exact ih ⟨STAGE_PARSE_DEVICES, cs, ds⟩ hc hd wc wd
        · by_cases h4 : stage = STAGE_PARSE_CACHES
          · subst h4
            simp only [data_lines_under, h1, h2, h3, n12, if_true, if_false,
              List.length_cons, List.mem_cons, forall_eq_or_imp, List.map_cons] at hc hd wc wd ⊢
            have hlt : cs.length < MAX_CACHES := by omega
            obtain ⟨c, hcs⟩ := Option.isSome_iff_exists.mp wc.1
            simp only [hlt, if_true, hcs, Option.map_some']
            obtain ⟨st2, e1, e2, e3⟩ := ih ⟨STAGE_PARSE_CACHES, cs ++ [c], ds⟩
              (by simp only [List.length_append, List.length_singleton]; omega) hd wc.2 wd
            refine ⟨st2, e1, ?_, ?_⟩
            · rw [e2]; simp
            · rw [e3]
          · by_cases h5 : stage = STAGE_PARSE_DEVICES
            · subst h5
              simp only [data_lines_under, h1, h2, h3, n21, if_true, if_false,
                List.length_cons, List.mem_cons, forall_eq_or_imp, List.map_cons]
                at hc hd wc wd ⊢
              have hlt : ds.length < MAX_DEVICES := by omega
              obtain ⟨c, hcs⟩ := Option.isSome_iff_exists.mp wd.1
              simp only [hlt, if_true, hcs, Option.map_some']
              obtain ⟨st2, e1, e2, e3⟩ := ih ⟨STAGE_PARSE_DEVICES, cs, ds ++ [c]⟩ hc
                (by simp only [List.length_append, List.length_singleton]; omega) wc wd.2
              refine ⟨st2, e1, ?_, ?_⟩
              · rw [e2]
              · rw [e3]; simp
            · simp only [data_lines_under, h1, h2, h3, h4, h5, if_false]
                at hc hd wc wd ⊢
              exact ih ⟨stage, cs, ds⟩ hc hd wc wd

/-- The tables of `parse_config` on a text whose data lines all have the
fields that `parse_cache` and `parse_device` read, at most `MAX_CACHES` of them
under `[caches]` and at most `MAX_DEVICES` under `[cores]`: the parser returns
success, the cache table holds one record for each data line under `[caches]`
and the core table one for each data line under `[cores]`, in file order; the
data lines before the first header give no record. -/
theorem parse_config_tables (text : List Char)
    (hc : (data_lines_under STAGE_PARSE_CACHES STAGE_PROLOG (getlines text [])).length
      ≤ MAX_CACHES)
    (hd : (data_lines_under STAGE_PARSE_DEVICES STAGE_PROLOG (getlines text [])).length
      ≤ MAX_DEVICES)
    (wc : ∀ l ∈ data_lines_under STAGE_PARSE_CACHES STAGE_PROLOG (getlines text []),
      (parse_cache l).isSome = true)
    (wd : ∀ l ∈ data_lines_under STAGE_PARSE_DEVICES STAGE_PROLOG (getlines text []),
      (parse_device l).isSome = true) :
    ∃ caches devices, parse_config (some text) = some (true, caches, devices) ∧
      caches.map some
        = (data_lines_under STAGE_PARSE_CACHES STAGE_PROLOG (getlines text [])).map
            parse_cache ∧
      devices.map some
        = (data_lines_under STAGE_PARSE_DEVICES STAGE_PROLOG (getlines text [])).map
            parse_device := by
  obtain ⟨st2, e1, e2, e3⟩ := parse_lines_tables (getlines text []) ⟨STAGE_PROLOG, [], []⟩
    (by simpa using hc) (by simpa using hd) wc wd
  refine ⟨st2.caches, st2.devices, ?_, by simpa using e2, by simpa using e3⟩
  simp [parse_config, e1]

/-- Claim C10, at the input on which the code departs from it: the text has
one data line under `[caches]`, the line `1`, and `parse_config` has no defined
result there (`strtok_r` gives no device token and `strdup` gets NULL), so no
cache table with a record for the line exists. With a device field the record
is there, and two lines with one id give two records. -/
theorem C10_missing_field_no_table :
    data_lines_under STAGE_PARSE_CACHES STAGE_PROLOG (getlines "[caches]\n1\n".toList [])
      = ["1".toList] ∧
    parse_config (some "[caches]\n1\n".toList) = none ∧
    parse_config (some "1 /dev/sdz wt\n[caches]\n1 /dev/sda\n1 /dev/sdb\n".toList)
      = some (true, [⟨1, "/dev/sda".toList, 0⟩, ⟨1, "/dev/sdb".toList, 0⟩], []) := by
  decide

/-! ## The two passes of `str_replace` -/

theorem replace_occurrences_skip (old_word new_word : List Char) :
    ∀ (k : Nat) (s : List Char),
      replace_occurrences old_word new_word k s
        = replace_occurrences old_word new_word 0 (s.drop k) := by
  intro k
  induction k with
  | zero => intro s; rfl
  | succ k ih =>
    intro s
    cases s with
    | nil => simp [replace_occurrences]
    | cons c cs => simp only [replace_occurrences, List.drop_succ_cons]; exact ih cs

theorem count_occurrences_skip (old_word : List Char) :
    ∀ (k : Nat) (s : List Char),
      count_occurrences old_word k s = count_occurrences old_word 0 (s.drop k) := by
  intro k
  induction k with
  | zero => intro s; rfl
  | succ k ih =>
    intro s
    cases s with
    | nil => simp [count_occurrences]
    | cons c cs => simp only [count_occurrences, List.drop_succ_cons]; exact ih cs

/-- With a needle that is not empty and fuel above the length left, the
counting pass ends at the end of `s` with the number of occurrences, and the
copying pass ends with the occurrences replaced. -/
theorem str_replace_passes_spec (s old_word new_word : List Char) (hold : old_word ≠ []) :
    ∀ (fuel i cnt : Nat) (result : List Char), i ≤ s.length → s.length - i < fuel →
      str_replace_count s old_word fuel i cnt
        = some (s.length, cnt + count_occurrences old_word 0 (s.drop i)) ∧
      str_replace_copy old_word new_word fuel (s.drop i) result
        = some (result ++ replace_occurrences old_word new_word 0 (s.drop i)) := by
  have hpos : 0 < old_word.length := List.length_pos.mpr hold
  intro fuel
  induction fuel with
  | zero => intro i cnt result _ h; omega
  | succ fuel ih =>
    intro i cnt result hi hfuel
    cases hd : s.drop i with
    | nil =>
      have hlen : s.length ≤ i := List.drop_eq_nil_iff.mp hd
      have hi2 : i = s.length := by omega
      simp [str_replace_count, str_replace_copy, hd, hi2, count_occurrences,
        replace_occurrences]
    | cons c rest =>
      have hlen : (c :: rest).length = s.length - i := by rw [← hd, List.length_drop]
      by_cases hp : strstr_here (c :: rest) old_word = true
      · have hle := strstr_here_length hp
        have hdrop : (c :: rest).drop old_word.length = s.drop (i + old_word.length) := by
          rw [← hd, List.drop_drop]
        have hrest : rest.drop (old_word.length - 1) = s.drop (i + old_word.length) := by
          rw [← hdrop]
          have : old_word.length = (old_word.length - 1) + 1 := by omega
          conv_rhs => rw [this, List.drop_succ_cons]
        obtain ⟨h1, h2⟩ := ih (i + old_word.length) (cnt + 1) (result ++ new_word)
          (by omega) (by omega)
        have hp2 : old_word.isPrefixOf (c :: rest) = true := hp
        constructor
        · simp only [str_replace_count, hd, hp, if_true]
          rw [h1]
          simp only [count_occurrences, hp2, if_true]
          rw [count_occurrences_skip _ (old_word.length - 1) rest, hrest]
          congr 2; omega
        · simp only [str_replace_copy, hp, if_true]
          rw [hdrop, h2]
          simp only [replace_occurrences, hp2, if_true]
          rw [replace_occurrences_skip _ _ (old_word.length - 1), hrest, List.append_assoc]
      · have hrest : rest = s.drop (i + 1) := by
          have := congrArg (List.drop 1) hd
          rw [List.drop_drop] at this
          simpa [Nat.add_comm] using this.symm
        simp only [List.length_cons] at hlen
        obtain ⟨h1, h2⟩ := ih (i + 1) cnt (result ++ [c]) (by omega) (by omega)
        have hp2 : ¬ old_word.isPrefixOf (c :: rest) = true := hp
        constructor
        · simp only [str_replace_count, hd, hp]
          rw [h1, ← hrest]
          simp [count_occurrences, hp2]
        · simp only [str_replace_copy, hp]
          rw [hrest, h2, ← hrest]
          simp [replace_occurrences, hp2]

/-- Claim C20. For a needle that is not empty, both passes of `str_replace`
end with any fuel above the length of `s`; the counting pass ends at
`strlen(s)` with the number of leftmost non-overlapping occurrences, the size
`strlen(s) + cnt * (new_len - old_len) + 1` is the length of the copy plus one,
and the result is `s` with each of those occurrences replaced. -/
theorem C20_str_replace_buffer (s old_word new_word : List Char) (hold : old_word ≠ []) :
    (∀ fuel, s.length < fuel →
      str_replace_count s old_word fuel 0 0
        = some (s.length, count_occurrences old_word 0 s) ∧
      str_replace_copy old_word new_word fuel s []
        = some (replace_occurrences old_word new_word 0 s)) ∧
    str_replace_size s.length (count_occurrences old_word 0 s) old_word new_word
      = ((replace_occurrences old_word new_word 0 s).length : Int) + 1 ∧
    str_replace s old_word new_word = some (replace_occurrences old_word new_word 0 s) := by
  have hspec : ∀ fuel, s.length < fuel →
      str_replace_count s old_word fuel 0 0
        = some (s.length, count_occurrences old_word 0 s) ∧
      str_replace_copy old_word new_word fuel s []
        = some (replace_occurrences old_word new_word 0 s) := by
    intro fuel hf
    have := str_replace_passes_spec s old_word new_word hold fuel 0 0 [] (Nat.zero_le _)
      (by omega)
    simpa using this
  obtain ⟨n, r, h1, h2, h3⟩ := str_replace_passes s old_word new_word hold (s.length + 1) 0 0 []
    (Nat.zero_le _) (by omega)
  obtain ⟨g1, g2⟩ := hspec (s.length + 1) (by omega)
  simp only [List.drop_zero, List.nil_append, Nat.zero_add, Nat.sub_zero] at h1 h2 h3
  rw [g1] at h1
  rw [g2] at h2
  have hn : count_occurrences old_word 0 s = n := by
    have := Option.some.inj h1
    exact (Prod.mk.inj this).2
  have hr : replace_occurrences old_word new_word 0 s = r := Option.some.inj h2
  have hsize : str_replace_size s.length (count_occurrences old_word 0 s) old_word new_word
      = ((replace_occurrences old_word new_word 0 s).length : Int) + 1 := by
    rw [hn, hr]
    simp only [str_replace_size]
    have : ((r.length : Int) + (n : Int) * (old_word.length : Int)) =
        (s.length : Int) + (n : Int) * (new_word.length : Int) := by exact_mod_cast h3
    linarith
  refine ⟨hspec, hsize, ?_⟩
  unfold str_replace
  rw [g1, g2]
  simp only
  rw [if_pos (le_of_eq hsize.symm)]

theorem C20_str_replace_buffer_witness :
    "XX".toList ≠ [] ∧
    ((∀ fuel, "aXXbXXXc".toList.length < fuel →
      str_replace_count "aXXbXXXc".toList "XX".toList fuel 0 0
        = some ("aXXbXXXc".toList.length, count_occurrences "XX".toList 0 "aXXbXXXc".toList) ∧
      str_replace_copy "XX".toList "123".toList fuel "aXXbXXXc".toList []
        = some (replace_occurrences "XX".toList "123".toList 0 "aXXbXXXc".toList)) ∧
    str_replace_size "aXXbXXXc".toList.length
        (count_occurrences "XX".toList 0 "aXXbXXXc".toList) "XX".toList "123".toList
      = ((replace_occurrences "XX".toList "123".toList 0 "aXXbXXXc".toList).length : Int) + 1 ∧
    str_replace "aXXbXXXc".toList "XX".toList "123".toList
      = some (replace_occurrences "XX".toList "123".toList 0 "aXXbXXXc".toList)) ∧
    replace_occurrences "XX".toList "123".toList 0 "aXXbXXXc".toList = "a123b123Xc".toList ∧
    count_occurrences "XX".toList 0 "aXXbXXXc".toList = 2 :=
  ⟨by decide, C20_str_replace_buffer "aXXbXXXc".toList "XX".toList "123".toList (by decide),
    by decide, by decide⟩

/-! ## The escaper is injective on paths without backslash -/

theorem escape_spec_eq_chars (p : List Char) : escape_spec p = escape_chars (p.drop 1) := by
  unfold escape_spec
  generalize p.drop 1 = s
  induction s with
  | nil => rfl
  | cons c cs ih =>
    simp only [subst_char, escape_chars, subst_char_append, ih]
    by_cases h1 : c = '-'
    · subst h1; rfl
    · by_cases h2 : c = '/'
      · subst h2; rfl
      · simp [escape_char, h1, h2, subst_char]

theorem escape_chars_injective :
    ∀ p q : List Char, '\\' ∉ p → '\\' ∉ q → escape_chars p = escape_chars q → p = q := by
  intro p
  induction p with
  | nil =>
    intro q _ _ h
    cases q with
    | nil => rfl
    | cons c cs =>
      simp only [escape_chars, escape_char] at h
      split_ifs at h <;> simp at h
  | cons c cs ih =>
    intro q hp hq h
    have hc : c ≠ '\\' := fun e => hp (by simp [e])
    have hcs : '\\' ∉ cs := fun e => hp (List.mem_cons_of_mem _ e)
    cases q with
    | nil =>
      simp only [escape_chars, escape_char] at h
      split_ifs at h <;> simp at h
    | cons d ds =>
      have hd : d ≠ '\\' := fun e => hq (by simp [e])
      have hds : '\\' ∉ ds := fun e => hq (List.mem_cons_of_mem _ e)
      simp only [escape_chars, escape_char] at h
      split_ifs at h with h1 h2 h3 h4 h5 h6 h7 h8 <;>
        simp only [List.cons_append, List.nil_append, List.cons.injEq, true_and] at h
      · rw [h1, h2, ih ds hcs hds h]
      · exact absurd h.1 (by decide)
      · exact absurd h.1.symm hd
      · exact absurd h.1 (by decide)
      · rw [h4, h6, ih ds hcs hds h]
      · exact absurd h.1.symm h5
      · exact absurd h.1 hc
      · exact absurd h.1 h1
      · rw [h.1, ih ds hcs hds h.2]

/-- Claim C19. Two paths that begin with a slash and hold no backslash, and
that `build_devname` maps to the same name, are the same path. -/
theorem C19_build_devname_injective (p q : List Char) (hp : p.head? = some '/')
    (hq : q.head? = some '/') (bp : '\\' ∉ p) (bq : '\\' ∉ q)
    (h : build_devname p = build_devname q) : p = q := by
  rw [build_devname_eq, build_devname_eq, if_pos hp, if_pos hq, escape_spec_eq_chars,
    escape_spec_eq_chars] at h
  have h2 := Option.some.inj h
  cases p with
  | nil => simp at hp
  | cons a p1 =>
    cases q with
    | nil => simp at hq
    | cons b q1 =>
      simp only [List.head?_cons, Option.some.injEq] at hp hq
      subst hp hq
      simp only [List.drop_succ_cons, List.drop_zero] at h2
      rw [escape_chars_injective p1 q1 (fun e => bp (List.mem_cons_of_mem _ e))
        (fun e => bq (List.mem_cons_of_mem _ e)) h2]

theorem C19_build_devname_injective_witness :
    "/dev/a-b/c".toList.head? = some '/' ∧ "/dev/a-b/c".toList.head? = some '/' ∧
    '\\' ∉ "/dev/a-b/c".toList ∧
    build_devname "/dev/a-b/c".toList = build_devname "/dev/a-b/c".toList ∧
    "/dev/a-b/c".toList = "/dev/a-b/c".toList ∧
    build_devname "/dev/a/b".toList ≠ build_devname "/dev/a-b".toList ∧
    build_devname "/a\\x2db".toList = build_devname "/a-b".toList :=
  ⟨by decide, by decide, by decide, rfl,
    C19_build_devname_injective "/dev/a-b/c".toList "/dev/a-b/c".toList (by decide) (by decide)
      (by decide) (by decide) rfl,
    by decide, by decide⟩

/-! ## Cache records that share an id -/

theorem find_cache_first (pre post : List opencas_cache) (c : opencas_cache) (cache_id : Int)
    (hpre : ∀ x ∈ pre, x.id ≠ cache_id) (hc : c.id = cache_id) :
    find_cache (pre ++ c :: post) cache_id = some c := by
  unfold find_cache
  induction pre with
  | nil => simp [hc]
  | cons x pre ih =>
    have hx : ¬ cache_id = x.id := fun e => hpre x (List.mem_cons_self _ _) e.symm
    simp only [List.cons_append, List.find?_cons, hx, decide_False]
    exact ih (fun y hy => hpre y (List.mem_cons_of_mem _ hy))

/-- Records after the first one with the id of `c` do not enter any lookup,
when the later records with another id stay as they are. -/
theorem find_cache_later (pre post post2 : List opencas_cache) (c : opencas_cache)
    (hpost : post.filter (fun x => decide (x.id ≠ c.id))
      = post2.filter (fun x => decide (x.id ≠ c.id))) (cache_id : Int) :
    find_cache (pre ++ c :: post) cache_id = find_cache (pre ++ c :: post2) cache_id := by
  unfold find_cache
  rw [List.find?_append, List.find?_append]
  cases List.find? (fun x => decide (cache_id = x.id)) pre with
  | some y => rfl
  | none =>
    simp only [Option.none_or, List.find?_cons]
    by_cases h : cache_id = c.id
    · simp [h]
    · simp only [h, decide_False]
      have key : ∀ l : List opencas_cache,
          List.find? (fun x => decide (cache_id = x.id)) l
            = List.find? (fun x => decide (cache_id = x.id))
                (l.filter (fun x => decide (x.id ≠ c.id))) := by
        intro l
        induction l with
        | nil => rfl
        | cons y l ih =>
          by_cases hy : y.id = c.id
          · have hne : ¬ cache_id = y.id := fun e => h (e.trans hy)
            simp [List.find?_cons, List.filter_cons, hy, hne, h, ih]
          · by_cases hm : cache_id = y.id
            · simp [List.find?_cons, List.filter_cons, hy, hm]
            · simp [List.find?_cons, List.filter_cons, hy, hm, ih]
      rw [key post, key post2, hpost]

theorem generate_unit_congr_find (gd : List Char) (caches caches2 : List opencas_cache)
    (e : Faults) (d : opencas_device) (fs : FS)
    (h : find_cache caches d.cache_id = find_cache caches2 d.cache_id) :
    generate_unit gd caches e d fs = generate_unit gd caches2 e d fs := by
  unfold generate_unit
  rw [h]

theorem generate_units_from_congr_find (gd : List Char) (caches caches2 : List opencas_cache)
    (env : Nat → Faults) (h : ∀ x, find_cache caches x = find_cache caches2 x)
    (devices : List opencas_device) :
    ∀ (i : Nat) (fs : FS),
      generate_units_from gd caches env i devices fs
        = generate_units_from gd caches2 env i devices fs := by
  induction devices with
  | nil => intro i fs; rfl
  | cons d rest ih =>
    intro i fs
    simp only [generate_units_from]
    rw [generate_unit_congr_find gd caches caches2 (env i) d fs (h _)]
    rcases generate_unit gd caches2 (env i) d fs with ⟨ok, fs1⟩
    cases ok with
    | false => rfl
    | true => exact ih (i + 1) fs1

/-- Claim C18. Let `c` be the first cache record with its id, and let the
records after it change only in records with that id (`post` becomes `post2`).
A core device with that cache id resolves to `c`; the whole run is the same
with `post` and with `post2`; the policy check reads the flags of `c`; and the
`BindsTo=` and `After=` lines of the unit carry the escaped device path of `c`. -/
theorem C18_first_cache_record_wins (gd : List Char) (pre post post2 : List opencas_cache)
    (c : opencas_cache) (hpre : ∀ x ∈ pre, x.id ≠ c.id)
    (hpost : post.filter (fun x => decide (x.id ≠ c.id))
      = post2.filter (fun x => decide (x.id ≠ c.id))) :
    (∀ (devices : List opencas_device) (env : Nat → Faults) (fs : FS),
      generate_units gd (pre ++ c :: post) devices env fs
        = generate_units gd (pre ++ c :: post2) devices env fs) ∧
    (∀ d : opencas_device, d.cache_id = c.id →
      find_cache (pre ++ c :: post) d.cache_id = some c ∧
      (∀ (e : Faults) (fs : FS), has_network c.flags = true → has_network d.flags = false →
        generate_unit gd (pre ++ c :: post) e d fs = (false, fs)) ∧
      (∀ (e : Faults) (fs : FS), (generate_unit gd (pre ++ c :: post) e d fs).1 = true →
        e.dprintf_written = none →
        ∃ ec ek text, build_devname c.device = some ec ∧ build_devname d.device = some ek ∧
          (generate_unit gd (pre ++ c :: post) e d fs).2.files
            (unit_path gd d.cache_id d.core_id) = some text ∧
          has_line ("BindsTo=".toList ++ ec ++ ".device ".toList ++ ek ++ ".device".toList)
            text ∧
          has_line ("After=".toList ++ ec ++ ".device ".toList ++ ek ++ ".device".toList)
            text)) := by
  refine ⟨?_, ?_⟩
  · intro devices env fs
    exact generate_units_from_congr_find gd _ _ env
      (find_cache_later pre post post2 c hpost) devices 0 fs
  · intro d hd
    have hfind : find_cache (pre ++ c :: post) d.cache_id = some c :=
      find_cache_first pre post c d.cache_id (fun x hx => by rw [hd]; exact hpre x hx) hd.symm
    refine ⟨hfind, ?_, ?_⟩
    · intro e fs hc hdn
      simp [generate_unit, hfind, hc, hdn]
    · intro e fs hok hwr
      obtain ⟨c2, ec, ek, hfind2, hc, hdv, hfiles⟩ := generate_unit_file hok hwr
      have e1 : c2 = c := Option.some.inj (hfind2.symm.trans hfind)
      subst e1
      refine ⟨ec, ek, unit_text d.cache_id d.core_id ec ek d.device (has_network d.flags), hc, hdv,
        by rw [hfiles]; simp, has_lines_of_index _ 14 _ rfl,
        has_lines_of_index _ 15 _ rfl⟩

theorem C18_first_cache_record_wins_witness :
    (∀ x ∈ [(⟨2, "/dev/sdx".toList, 0⟩ : opencas_cache)],
      x.id ≠ (⟨1, "/dev/sda".toList, 0⟩ : opencas_cache).id) ∧
    [(⟨1, "/dev/sdb".toList, 1⟩ : opencas_cache), ⟨3, "/dev/sdy".toList, 0⟩].filter
        (fun x => decide (x.id ≠ (⟨1, "/dev/sda".toList, 0⟩ : opencas_cache).id))
      = [(⟨3, "/dev/sdy".toList, 0⟩ : opencas_cache), ⟨1, "/dev/sdc".toList, 0⟩].filter
        (fun x => decide (x.id ≠ (⟨1, "/dev/sda".toList, 0⟩ : opencas_cache).id)) ∧
    find_cache ([⟨2, "/dev/sdx".toList, 0⟩] ++ ⟨1, "/dev/sda".toList, 0⟩
        :: [⟨1, "/dev/sdb".toList, 1⟩, ⟨3, "/dev/sdy".toList, 0⟩])
        (⟨0, 1, "/dev/sdd".toList, 0⟩ : opencas_device).cache_id
      = some ⟨1, "/dev/sda".toList, 0⟩ ∧
    generate_units "/run".toList ([⟨2, "/dev/sdx".toList, 0⟩] ++ ⟨1, "/dev/sda".toList, 0⟩
        :: [⟨1, "/dev/sdb".toList, 1⟩, ⟨3, "/dev/sdy".toList, 0⟩])
        [⟨0, 1, "/dev/sdd".toList, 0⟩] no_faults FS.empty
      = generate_units "/run".toList ([⟨2, "/dev/sdx".toList, 0⟩] ++ ⟨1, "/dev/sda".toList, 0⟩
        :: [⟨3, "/dev/sdy".toList, 0⟩, ⟨1, "/dev/sdc".toList, 0⟩])
        [⟨0, 1, "/dev/sdd".toList, 0⟩] no_faults FS.empty :=
  ⟨by decide, by decide,
    ((C18_first_cache_record_wins "/run".toList [⟨2, "/dev/sdx".toList, 0⟩]
      [⟨1, "/dev/sdb".toList, 1⟩, ⟨3, "/dev/sdy".toList, 0⟩]
      [⟨3, "/dev/sdy".toList, 0⟩, ⟨1, "/dev/sdc".toList, 0⟩] ⟨1, "/dev/sda".toList, 0⟩
      (by decide) (by decide)).2 ⟨0, 1, "/dev/sdd".toList, 0⟩ rfl).1,
    (C18_first_cache_record_wins "/run".toList [⟨2, "/dev/sdx".toList, 0⟩]
      [⟨1, "/dev/sdb".toList, 1⟩, ⟨3, "/dev/sdy".toList, 0⟩]
      [⟨3, "/dev/sdy".toList, 0⟩, ⟨1, "/dev/sdc".toList, 0⟩] ⟨1, "/dev/sda".toList, 0⟩
      (by decide) (by decide)).1 [⟨0, 1, "/dev/sdd".toList, 0⟩] no_faults FS.empty⟩

/-! ## The code at the inputs on which it departs from the specification -/

theorem append_cons_cancel {c : Char} :
    ∀ {x x2 y y2 : List Char}, c ∉ x → c ∉ x2 → x ++ c :: y = x2 ++ c :: y2 → x = x2 ∧ y = y2 := by
  intro x
  induction x with
  | nil =>
    intro x2 y y2 _ h2 h
    cases x2 with
    | nil => simpa using h
    | cons d x2 =>
      simp only [List.nil_append, List.cons_append, List.cons.injEq] at h
      exact absurd (by simp [h.1]) h2
  | cons a x ih =>
    intro x2 y y2 h1 h2 h
    cases x2 with
    | nil =>
      simp only [List.nil_append, List.cons_append, List.cons.injEq] at h
      exact absurd (by simp [h.1]) h1
    | cons d x2 =>
      simp only [List.cons_append, List.cons.injEq] at h
      obtain ⟨e1, e2⟩ := ih (fun m => h1 (List.mem_cons_of_mem _ m))
        (fun m => h2 (List.mem_cons_of_mem _ m)) h.2
      exact ⟨by rw [h.1, e1], e2⟩

/-- A full line without newline of a text made of lines without newline is one
of those lines. -/
theorem has_line_mem (l : List Char) (hl : '\n' ∉ l) :
    ∀ ls : List (List Char), (∀ x ∈ ls, '\n' ∉ x) → has_line l (join_lines ls) → l ∈ ls := by
  have key : ∀ ls : List (List Char), (∀ x ∈ ls, '\n' ∉ x) → ∀ pre post,
      join_lines ls = pre ++ l ++ '\n' :: post → (pre = [] ∨ ∃ pre0, pre = pre0 ++ ['\n']) →
      l ∈ ls := by
    intro ls
    induction ls with
    | nil =>
      intro _ pre post h _
      simp [join_lines] at h
    | cons a ls ih =>
      intro hls pre post h hpre
      have ha : '\n' ∉ a := hls a (List.mem_cons_self _ _)
      have hrest : ∀ x ∈ ls, '\n' ∉ x := fun x hx => hls x (List.mem_cons_of_mem _ hx)
      simp only [join_lines] at h
      rcases hpre with rfl | ⟨pre0, rfl⟩
      · rw [List.nil_append] at h
        rw [(append_cons_cancel ha hl h).1]
        exact List.mem_cons_self _ _
      · by_cases hn : '\n' ∈ pre0
        · obtain ⟨p1, p2, e, hp1⟩ := List.eq_append_cons_of_mem hn
          have h2 : a ++ '\n' :: join_lines ls
              = p1 ++ '\n' :: ((p2 ++ ['\n']) ++ l ++ '\n' :: post) := by
            rw [h, e]; simp
          exact List.mem_cons_of_mem _
            (ih hrest _ _ (append_cons_cancel ha hp1 h2).2 (Or.inr ⟨p2, rfl⟩))
        · have h2 : a ++ '\n' :: join_lines ls = pre0 ++ '\n' :: ([] ++ l ++ '\n' :: post) := by
            rw [h]; simp
          exact List.mem_cons_of_mem _
            (ih hrest _ _ (append_cons_cancel ha hn h2).2 (Or.inl rfl))
  intro ls hls h
  obtain ⟨pre, post, ht, hpre⟩ := h
  exact key ls hls pre post (by rw [ht]; simp [join_lines]) hpre

/-- The unit text of cache `1 /dev/sda` with core `1 0 /dev/sdb`. -/
theorem unit_file_pair_1_0 :
    (generate_units "/run".toList [⟨1, "/dev/sda".toList, 0⟩] [⟨0, 1, "/dev/sdb".toList, 0⟩]
      no_faults FS.empty).2.files "/run/opencas@opencas1-0.service".toList
      = some (unit_text 1 0 "dev-sda".toList "dev-sdb".toList "/dev/sdb".toList false) := by
  have hok : (generate_unit "/run".toList [⟨1, "/dev/sda".toList, 0⟩] (no_faults 0)
      ⟨0, 1, "/dev/sdb".toList, 0⟩ FS.empty).1 = true := by decide
  obtain ⟨c, ec, ek, hfind, hc, hd, hfiles⟩ := generate_unit_file hok rfl
  have hc0 : c = ⟨1, "/dev/sda".toList, 0⟩ := Option.some.inj (hfind.symm.trans (by decide))
  subst hc0
  have hec : ec = "dev-sda".toList := Option.some.inj (hc.symm.trans (by decide))
  have hek : ek = "dev-sdb".toList := Option.some.inj (hd.symm.trans (by decide))
  subst hec hek
  have hrun : generate_units "/run".toList [⟨1, "/dev/sda".toList, 0⟩]
      [⟨0, 1, "/dev/sdb".toList, 0⟩] no_faults FS.empty
      = (true, (generate_unit "/run".toList [⟨1, "/dev/sda".toList, 0⟩] (no_faults 0)
          ⟨0, 1, "/dev/sdb".toList, 0⟩ FS.empty).2) := by
    simp only [generate_units, generate_units_from]
    rcases hs : generate_unit "/run".toList [⟨1, "/dev/sda".toList, 0⟩] (no_faults 0)
      ⟨0, 1, "/dev/sdb".toList, 0⟩ FS.empty with ⟨ok, fs1⟩
    rw [hs] at hok
    simp only at hok
    subst hok
    rfl
  rw [hrun]
  simp only
  rw [hfiles]
  exact Function.update_same _ _ _

theorem unit_lines_no_newline :
    ∀ x ∈ unit_lines 1 0 "dev-sda".toList "dev-sdb".toList "/dev/sdb".toList false,
      '\n' ∉ x := by
  decide

/-- Claim C17, at cache 1 with core `1 0`: the requirement directory carries
the escaped pair name `dev-opencas1\x2d0`, which is `build_devname` of
`/dev/opencas1-0`, while the `Before=` and `Wants=` lines of the unit text name
`blockdev@dev-opencas1\x20.target`; the lines with `\x2d0` are not in the text. -/
theorem C17_blockdev_target_name :
    build_devname "/dev/opencas1-0".toList = some "dev-opencas1\\x2d0".toList ∧
    (generate_units "/run".toList [⟨1, "/dev/sda".toList, 0⟩] [⟨0, 1, "/dev/sdb".toList, 0⟩]
      no_faults FS.empty).1 = true ∧
    (generate_units "/run".toList [⟨1, "/dev/sda".toList, 0⟩] [⟨0, 1, "/dev/sdb".toList, 0⟩]
      no_faults FS.empty).2.dirs "/run/dev-opencas1\\x2d0.device.requires".toList = true ∧
    ∃ text,
      (generate_units "/run".toList [⟨1, "/dev/sda".toList, 0⟩] [⟨0, 1, "/dev/sdb".toList, 0⟩]
        no_faults FS.empty).2.files "/run/opencas@opencas1-0.service".toList = some text ∧
      has_line "Before=blockdev@dev-opencas1\\x20.target".toList text ∧
      has_line "Wants=blockdev@dev-opencas1\\x20.target".toList text ∧
      ¬ has_line "Before=blockdev@dev-opencas1\\x2d0.target".toList text ∧
      ¬ has_line "Wants=blockdev@dev-opencas1\\x2d0.target".toList text := by
  refine ⟨by decide, by decide, by decide,
    unit_text 1 0 "dev-sda".toList "dev-sdb".toList "/dev/sdb".toList false,
    unit_file_pair_1_0, has_lines_of_index _ 8 _ rfl, has_lines_of_index _ 9 _ rfl, ?_, ?_⟩
  · intro h
    exact absurd (has_line_mem _ (by decide) _ unit_lines_no_newline h) (by decide)
  · intro h
    exact absurd (has_line_mem _ (by decide) _ unit_lines_no_newline h) (by decide)

/-- Claim C15, at a cache whose device path is `dev/sda` and at a core whose
device path is `dev/sdb`: `build_devname` rejects the path and the run returns
failure, but `creat` has run before the escaper, so the unit file of the pair
exists afterwards, empty. -/
theorem C15_rejected_path_leaves_unit_file :
    parse_config (some "[caches]\n1 dev/sda wt\n[cores]\n1 0 /dev/sdb\n".toList)
      = some (true, [⟨1, "dev/sda".toList, 0⟩], [⟨0, 1, "/dev/sdb".toList, 0⟩]) ∧
    build_devname "dev/sda".toList = none ∧
    (generate_units "/run".toList [⟨1, "dev/sda".toList, 0⟩] [⟨0, 1, "/dev/sdb".toList, 0⟩]
      no_faults FS.empty).1 = false ∧
    (generate_units "/run".toList [⟨1, "dev/sda".toList, 0⟩] [⟨0, 1, "/dev/sdb".toList, 0⟩]
      no_faults FS.empty).2.files "/run/opencas@opencas1-0.service".toList = some [] ∧
    (generate_units "/run".toList [⟨1, "/dev/sda".toList, 0⟩] [⟨0, 1, "dev/sdb".toList, 0⟩]
      no_faults FS.empty).1 = false ∧
    (generate_units "/run".toList [⟨1, "/dev/sda".toList, 0⟩] [⟨0, 1, "dev/sdb".toList, 0⟩]
      no_faults FS.empty).2.files "/run/opencas@opencas1-0.service".toList = some [] := by
  decide

/-- A pass in which `creat` or `close` fails returns false. -/
theorem generate_unit_io_failure (gd : List Char) (caches : List opencas_cache) (e : Faults)
    (d : opencas_device) (fs : FS) (h : e.creat_fails = true ∨ e.close_fails = true) :
    (generate_unit gd caches e d fs).1 = false := by
  cases hr : (generate_unit gd caches e d fs).1 with
  | false => rfl
  | true =>
    obtain ⟨_, _, _, _, _, h1, _, _, h2, _⟩ := generate_unit_ok hr
    rcases h with h | h
    · rw [h1] at h; exact absurd h (by decide)
    · rw [h2] at h; exact absurd h (by decide)

/-- A run in which the pass of some device returns false returns false. -/
theorem generate_units_from_false (gd : List Char) (caches : List opencas_cache)
    (env : Nat → Faults) (devices : List opencas_device) :
    ∀ (i : Nat) (fs : FS) (n : Nat) (hn : n < devices.length),
      (∀ fs1, (generate_unit gd caches (env (i + n)) devices[n] fs1).1 = false) →
      (generate_units_from gd caches env i devices fs).1 = false := by
  induction devices with
  | nil => intro i fs n hn; simp at hn
  | cons d rest ih =>
    intro i fs n hn h
    simp only [generate_units_from]
    rcases hs : generate_unit gd caches (env i) d fs with ⟨ok, fs1⟩
    cases ok with
    | false => rfl
    | true =>
      cases n with
      | zero =>
        have := h fs
        simp only [Nat.add_zero, List.getElem_cons_zero, hs] at this
        exact absurd this (by decide)
      | succ n =>
        simp only [List.length_cons, Nat.add_lt_add_iff_right] at hn
        refine ih (i + 1) fs1 n hn ?_
        intro fs2
        have := h fs2
        simp only [List.getElem_cons_succ] at this
        rw [show i + 1 + n = i + (n + 1) by omega]
        exact this

/-- When `creat` or `close` fails in the pass of some device, `generate_units`
returns failure. -/
theorem generate_units_io_failure (gd : List Char) (caches : List opencas_cache)
    (devices : List opencas_device) (env : Nat → Faults) (fs : FS) (n : Nat)
    (hn : n < devices.length)
    (h : (env n).creat_fails = true ∨ (env n).close_fails = true) :
    (generate_units gd caches devices env fs).1 = false := by
  refine generate_units_from_false gd caches env devices 0 fs n hn ?_
  intro fs1
  rw [Nat.zero_add]
  exact generate_unit_io_failure gd caches (env n) devices[n] fs1 h

/-- Claim C14, at a run in which `dprintf` writes only ten bytes of the first
unit text and `close` succeeds: `generate_units` goes on to the second core
device and returns success, and the first unit file holds the ten bytes. -/
theorem C14_short_write_not_detected :
    (generate_units "/run".toList [⟨1, "/dev/sda".toList, 0⟩]
      [⟨0, 1, "/dev/sdb".toList, 0⟩, ⟨1, 1, "/dev/sdc".toList, 0⟩]
      (fun i => ⟨false, if i = 0 then some 10 else none, false, false, false, false, false⟩)
      FS.empty).1 = true ∧
    (generate_units "/run".toList [⟨1, "/dev/sda".toList, 0⟩]
      [⟨0, 1, "/dev/sdb".toList, 0⟩, ⟨1, 1, "/dev/sdc".toList, 0⟩]
      (fun i => ⟨false, if i = 0 then some 10 else none, false, false, false, false, false⟩)
      FS.empty).2.files "/run/opencas@opencas1-0.service".toList = some "# Automati".toList ∧
    ((generate_units "/run".toList [⟨1, "/dev/sda".toList, 0⟩]
      [⟨0, 1, "/dev/sdb".toList, 0⟩, ⟨1, 1, "/dev/sdc".toList, 0⟩]
      (fun i => ⟨false, if i = 0 then some 10 else none, false, false, false, false, false⟩)
      FS.empty).2.files "/run/opencas@opencas1-1.service".toList).isSome = true ∧
    "# Automati".toList
      ≠ unit_text 1 0 "dev-sda".toList "dev-sdb".toList "/dev/sdb".toList false :=
  ⟨by decide, by decide, by decide, by decide⟩

/-- Claim C13, at record lines that lack a field: a core line with two fields
and one with a single field give `parse_device` a NULL token for `strdup` or
`atoi`, and `parse_config` has no defined result. A file that cannot be opened
gives failure; an empty file and a line with a malformed id give success. -/
theorem C13_missing_field_undefined :
    parse_config (some "[cores]\n1 0\n".toList) = none ∧
    parse_config (some "[cores]\n1\n".toList) = none ∧
    parse_device "1 0".toList = none ∧
    parse_config none = some (false, [], []) ∧
    parse_config (some []) = some (true, [], []) ∧
    parse_config (some "[caches]\nx /dev/sda\n".toList)
      = some (true, [⟨0, "/dev/sda".toList, 0⟩], []) :=
  ⟨by decide, by decide, by decide, by decide, by decide, by decide⟩

/-! ## Fields and options of a record line -/

theorem split_on_ne_nil (delim s : List Char) : split_on delim s ≠ [] := by
  cases s with
  | nil => simp [split_on]
  | cons c cs =>
    simp only [split_on]
    split_ifs
    · simp
    · split <;> simp

theorem split_on_delim (delim : List Char) (c : Char) (cs : List Char) (h : c ∈ delim) :
    split_on delim (c :: cs) = [] :: split_on delim cs := by
  simp [split_on, h]

theorem split_on_word_end (delim : List Char) :
    ∀ w : List Char, (∀ x ∈ w, x ∉ delim) → split_on delim w = [w] := by
  intro w
  induction w with
  | nil => intro _; rfl
  | cons c w ih =>
    intro hw
    have hc : c ∉ delim := hw c (List.mem_cons_self _ _)
    have := ih (fun x hx => hw x (List.mem_cons_of_mem _ hx))
    simp only [split_on, hc, if_false, this]

theorem split_on_word (delim : List Char) (d : Char) (r : List Char) (hd : d ∈ delim) :
    ∀ w : List Char, (∀ x ∈ w, x ∉ delim) →
      split_on delim (w ++ d :: r) = w :: split_on delim r := by
  intro w
  induction w with
  | nil => intro _; simp [split_on, hd]
  | cons c w ih =>
    intro hw
    have hc : c ∉ delim := hw c (List.mem_cons_self _ _)
    have := ih (fun x hx => hw x (List.mem_cons_of_mem _ hx))
    simp only [List.cons_append, split_on, hc, if_false]
    rw [show w.append (d :: r) = w ++ d :: r from rfl, this]

/-- A word that is not empty, followed by nothing or by a delimiter, is the
first field. -/
theorem delimited_fields_word (delim w rest : List Char) (hw : ∀ x ∈ w, x ∉ delim)
    (hne : w ≠ []) (hrest : rest = [] ∨ ∃ d r, rest = d :: r ∧ d ∈ delim) :
    delimited_fields delim (w ++ rest) = w :: delimited_fields delim (rest.drop 1) := by
  unfold delimited_fields
  rcases hrest with rfl | ⟨d, r, rfl, hd⟩
  · rw [List.append_nil, split_on_word_end delim w hw]
    simp [split_on, hne]
  · rw [split_on_word delim d r hd w hw, List.filter_cons_of_pos (by simpa using hne)]
    simp

theorem delimited_fields_dropWhile (delim s : List Char) :
    delimited_fields delim (s.dropWhile fun c => decide (c ∈ delim))
      = delimited_fields delim s := by
  induction s with
  | nil => rfl
  | cons c cs ih =>
    by_cases h : c ∈ delim
    · simp only [List.dropWhile_cons, h, decide_True, if_true, ih]
      simp [delimited_fields, split_on, h]
    · simp [List.dropWhile_cons, h]

/-- One call of `strtok_r` returns the first field and leaves the other fields. -/
theorem strtok_r_fields (delim s : List Char) :
    (strtok_r delim s).1 = (delimited_fields delim s).head? ∧
    delimited_fields delim (strtok_r delim s).2 = (delimited_fields delim s).tail ∧
    ((strtok_r delim s).1.isSome = true → (strtok_r delim s).2.length < s.length) := by
  have hdrop := delimited_fields_dropWhile delim s
  have hlen : (s.dropWhile fun c => decide (c ∈ delim)).length ≤ s.length :=
    (List.dropWhile_sublist _).length_le
  unfold strtok_r
  cases hs : s.dropWhile fun c => decide (c ∈ delim) with
  | nil =>
    rw [hs] at hdrop
    simp only
    rw [← hdrop]
    simp [delimited_fields, split_on]
  | cons c rest =>
    rw [hs] at hdrop hlen
    have hc : c ∉ delim := by
      have := List.head_dropWhile_not (fun c => decide (c ∈ delim)) s (by rw [hs]; simp)
      simpa [hs] using this
    simp only
    have hsplit := List.takeWhile_append_dropWhile (fun x => !decide (x ∈ delim)) (c :: rest)
    have hw : ∀ x ∈ (c :: rest).takeWhile (fun x => !decide (x ∈ delim)), x ∉ delim := by
      intro x hx
      have := List.mem_takeWhile_imp hx
      simpa using this
    have hafter : (c :: rest).dropWhile (fun x => !decide (x ∈ delim)) = [] ∨
        ∃ d r, (c :: rest).dropWhile (fun x => !decide (x ∈ delim)) = d :: r ∧ d ∈ delim := by
      cases ha : (c :: rest).dropWhile (fun x => !decide (x ∈ delim)) with
      | nil => exact Or.inl rfl
      | cons d r =>
        right
        refine ⟨d, r, rfl, ?_⟩
        have := List.head_dropWhile_not (fun x => !decide (x ∈ delim)) (c :: rest)
          (by rw [ha]; simp)
        simpa [ha] using this
    have hne : (c :: rest).takeWhile (fun x => !decide (x ∈ delim)) ≠ [] := by
      simp [List.takeWhile_cons, hc]
    have hfields : delimited_fields delim (c :: rest)
        = (c :: rest).takeWhile (fun x => !decide (x ∈ delim))
          :: delimited_fields delim
              (((c :: rest).dropWhile (fun x => !decide (x ∈ delim))).drop 1) := by
      conv_lhs => rw [← hsplit]
      exact delimited_fields_word delim _ _ hw hne hafter
    rw [← hdrop, hfields]
    refine ⟨rfl, rfl, fun _ => ?_⟩
    have h1 : (((c :: rest).dropWhile (fun x => !decide (x ∈ delim))).drop 1).length
        ≤ ((c :: rest).dropWhile (fun x => !decide (x ∈ delim))).length := by
      simp
    have h2 := congrArg List.length hsplit
    rw [List.length_append] at h2
    have h3 : 0 < ((c :: rest).takeWhile (fun x => !decide (x ∈ delim))).length :=
      List.length_pos.mpr hne
    omega

theorem mem_delimited_fields (delim s w : List Char) (hw : w ≠ []) :
    w ∈ delimited_fields delim s ↔ w ∈ split_on delim s := by
  simp [delimited_fields, List.mem_filter, hw]

/-- The loop over the options finds `_netdev` exactly when it is a field. -/
theorem scan_options_eq :
    ∀ (fuel : Nat) (s : List Char), s.length < fuel →
      scan_options fuel s = decide ("_netdev".toList ∈ delimited_fields [','] s) := by
  intro fuel
  induction fuel with
  | zero => intro s h; omega
  | succ fuel ih =>
    intro s hs
    obtain ⟨h1, h2, h3⟩ := strtok_r_fields [','] s
    simp only [scan_options]
    rcases hst : strtok_r [','] s with ⟨tok, rest⟩
    rw [hst] at h1 h2 h3
    simp only at h1 h2 h3
    cases tok with
    | none =>
      cases hf : delimited_fields [','] s with
      | nil => simp
      | cons a l => rw [hf] at h1; simp at h1
    | some o =>
      cases hf : delimited_fields [','] s with
      | nil => rw [hf] at h1; simp at h1
      | cons a l =>
        rw [hf] at h1 h2
        simp only [List.head?_cons, Option.some.injEq, List.tail_cons] at h1 h2
        subst h1
        by_cases ho : o = "_netdev".toList
        · simp [ho]
        · have hlt : rest.length < fuel := by
            have := h3 rfl
            omega
          have ho2 : ¬ "_netdev".toList = o := fun e => ho e.symm
          simp only [ho, if_false, ih rest hlt, h2, List.mem_cons, ho2, false_or]

theorem has_network_options_flags (options : Option (List Char)) :
    has_network (options_flags options) = true ↔
      ∃ o, options = some o ∧ "_netdev".toList ∈ split_on [','] o := by
  cases options with
  | none => simp [options_flags, has_network]
  | some o =>
    have hs := scan_options_eq (o.length + 1) o (by omega)
    have hm := mem_delimited_fields [','] o "_netdev".toList (by decide)
    simp only [options_flags, hs, Option.some.injEq, exists_eq_left']
    by_cases h : "_netdev".toList ∈ delimited_fields [','] o
    · simp only [h, decide_True, if_true]
      exact ⟨fun _ => hm.mp h, fun _ => by decide⟩
    · simp only [h, decide_False]
      exact ⟨fun hn => absurd hn (by decide), fun hn => absurd (hm.mpr hn) h⟩

/-- The record of `parse_cache` in terms of the fields of the line. -/
theorem parse_cache_of_fields (line : List Char) :
    parse_cache line =
      match (line_fields line).head?, (line_fields line).tail.head? with
      | some id, some device =>
        some ⟨atoi id, device, options_flags (line_fields line).tail.tail.tail.head?⟩
      | _, _ => none := by
  have e : parse_cache line =
      match (strtok_r [' ', '\t'] line).1,
        (strtok_r [' ', '\t'] (strtok_r [' ', '\t'] line).2).1 with
      | some id, some device =>
        some ⟨atoi id, device, options_flags (strtok_r [' ', '\t'] (strtok_r [' ', '\t']
          (strtok_r [' ', '\t'] (strtok_r [' ', '\t'] line).2).2).2).1⟩
      | _, _ => none := rfl
  obtain ⟨a1, a2, _⟩ := strtok_r_fields [' ', '\t'] line
  obtain ⟨b1, b2, _⟩ := strtok_r_fields [' ', '\t'] (strtok_r [' ', '\t'] line).2
  obtain ⟨_, c2, _⟩ := strtok_r_fields [' ', '\t']
    (strtok_r [' ', '\t'] (strtok_r [' ', '\t'] line).2).2
  obtain ⟨d1, _, _⟩ := strtok_r_fields [' ', '\t']
    (strtok_r [' ', '\t'] (strtok_r [' ', '\t'] (strtok_r [' ', '\t'] line).2).2).2
  rw [e, a1, b1, d1, c2, b2, a2]
  rfl

/-- The record of `parse_device` in terms of the fields of the line. -/
theorem parse_device_of_fields (line : List Char) :
    parse_device line =
      match (line_fields line).head?, (line_fields line).tail.head?,
        (line_fields line).tail.tail.head? with
      | some cache_id, some core_id, some device =>
        some ⟨atoi core_id, atoi cache_id, device,
          options_flags (line_fields line).tail.tail.tail.head?⟩
      | _, _, _ => none := by
  have e : parse_device line =
      match (strtok_r [' ', '\t'] line).1,
        (strtok_r [' ', '\t'] (strtok_r [' ', '\t'] line).2).1,
        (strtok_r [' ', '\t'] (strtok_r [' ', '\t'] (strtok_r [' ', '\t'] line).2).2).1 with
      | some cache_id, some core_id, some device =>
        some ⟨atoi core_id, atoi cache_id, device,
          options_flags (strtok_r [' ', '\t'] (strtok_r [' ', '\t']
            (strtok_r [' ', '\t'] (strtok_r [' ', '\t'] line).2).2).2).1⟩
      | _, _, _ => none := rfl
  obtain ⟨a1, a2, _⟩ := strtok_r_fields [' ', '\t'] line
  obtain ⟨b1, b2, _⟩ := strtok_r_fields [' ', '\t'] (strtok_r [' ', '\t'] line).2
  obtain ⟨c1, c2, _⟩ := strtok_r_fields [' ', '\t']
    (strtok_r [' ', '\t'] (strtok_r [' ', '\t'] line).2).2
  obtain ⟨d1, _, _⟩ := strtok_r_fields [' ', '\t']
    (strtok_r [' ', '\t'] (strtok_r [' ', '\t'] (strtok_r [' ', '\t'] line).2).2).2
  rw [e, a1, b1, c1, d1, c2, b2, a2]
  rfl

/-- Claim C12. On a record line with at least three space/tab-delimited fields
`parse_cache` and `parse_device` store a record, and its network flag is set
exactly when a fourth field exists and one of its comma-separated tokens is
`_netdev`; without a fourth field the flag is unset. -/
theorem C12_network_flag_from_options (line : List Char) (h : 3 ≤ (line_fields line).length) :
    (∃ c, parse_cache line = some c ∧ (has_network c.flags = true ↔ netdev_declared line) ∧
      ((line_fields line)[3]? = none → has_network c.flags = false)) ∧
    (∃ d, parse_device line = some d ∧ (has_network d.flags = true ↔ netdev_declared line) ∧
      ((line_fields line)[3]? = none → has_network d.flags = false)) := by
  have hc := parse_cache_of_fields line
  have hd := parse_device_of_fields line
  unfold netdev_declared
  rcases hf : line_fields line with _ | ⟨f1, _ | ⟨f2, _ | ⟨f3, rest⟩⟩⟩
  · rw [hf] at h; simp at h
  · rw [hf] at h; simp at h
  · rw [hf] at h; simp at h
  · rw [hf] at hc hd
    simp only [List.head?_cons, List.tail_cons] at hc hd
    have h3 : (f1 :: f2 :: f3 :: rest)[3]? = rest.head? := by
      cases rest <;> simp
    have hnone : rest.head? = none →
        has_network (options_flags rest.head?) = false := by
      intro hn
      rw [hn]; decide
    refine ⟨⟨_, hc, ?_, ?_⟩, ⟨_, hd, ?_, ?_⟩⟩
    · rw [h3]; exact has_network_options_flags _
    · rw [h3]; exact hnone
    · rw [h3]; exact has_network_options_flags _
    · rw [h3]; exact hnone

theorem C12_network_flag_from_options_witness :
    3 ≤ (line_fields "1 /dev/sda\twt  rw,_netdev,x".toList).length ∧
    ((∃ c, parse_cache "1 /dev/sda\twt  rw,_netdev,x".toList = some c ∧
        (has_network c.flags = true ↔ netdev_declared "1 /dev/sda\twt  rw,_netdev,x".toList) ∧
        ((line_fields "1 /dev/sda\twt  rw,_netdev,x".toList)[3]? = none →
          has_network c.flags = false)) ∧
      (∃ d, parse_device "1 /dev/sda\twt  rw,_netdev,x".toList = some d ∧
        (has_network d.flags = true ↔ netdev_declared "1 /dev/sda\twt  rw,_netdev,x".toList) ∧
        ((line_fields "1 /dev/sda\twt  rw,_netdev,x".toList)[3]? = none →
          has_network d.flags = false))) ∧
    parse_cache "1 /dev/sda\twt  rw,_netdev,x".toList = some ⟨1, "/dev/sda".toList, 1⟩ ∧
    parse_cache "1 /dev/sda wt rw,_netdevice".toList = some ⟨1, "/dev/sda".toList, 0⟩ ∧
    parse_cache "1 /dev/sda wt".toList = some ⟨1, "/dev/sda".toList, 0⟩ :=
  ⟨by decide, C12_network_flag_from_options "1 /dev/sda\twt  rw,_netdev,x".toList (by decide),
    by decide, by decide, by decide⟩

/-! ## The escaper and the escaping of the init system -/

/-- Claim C16 as stated fails: on the root path, on a path with a repeated or
trailing slash, and on a path with a byte outside letters, digits, `:`, `_`,
`.`, `-`, `/` (here `+`, and the backslash of a udev-escaped label), the name of
`build_devname` is not the name the init system gives. -/
theorem C16_differs_from_systemd_escape :
    build_devname "/".toList = some [] ∧
    systemd_path_escape "/".toList = "-".toList ∧
    build_devname "/dev//sda/".toList = some "dev--sda-".toList ∧
    systemd_path_escape "/dev//sda/".toList = "dev-sda".toList ∧
    build_devname "/dev/disk/by-id/a+b".toList = some "dev-disk-by\\x2did-a+b".toList ∧
    systemd_path_escape "/dev/disk/by-id/a+b".toList = "dev-disk-by\\x2did-a\\x2bb".toList ∧
    build_devname "/dev/disk/by-label/EFI\\x20System".toList
      ≠ some (systemd_path_escape "/dev/disk/by-label/EFI\\x20System".toList) ∧
    ¬ ∀ p : List Char, p.head? = some '/' →
      build_devname p = some (systemd_path_escape p) :=
  ⟨by decide, by decide, by decide, by decide, by decide, by decide, by decide,
    fun h => absurd (h "/".toList (by decide)) (by decide)⟩

theorem squeeze_slashes_id :
    ∀ (s : List Char) (c : Char), no_empty_component (c :: s) = true →
      squeeze_slashes (c :: s) = c :: s := by
  intro s
  induction s with
  | nil =>
    intro c h
    simp only [no_empty_component, ne_eq, decide_not, Bool.not_eq_true', decide_eq_false_iff_not]
      at h
    simp [squeeze_slashes, h]
  | cons d r ih =>
    intro c h
    simp only [no_empty_component, Bool.and_eq_true, Bool.not_eq_true', Bool.and_eq_false_iff,
      decide_eq_false_iff_not] at h
    have h1 : ¬ (c = '/' ∧ d = '/') := by
      rintro ⟨a, b⟩
      rcases h.1 with h1 | h1
      · exact h1 a
      · exact h1 b
    simp only [squeeze_slashes, h1, if_false, ih d h.2]

theorem systemd_escape_chars_plain (s : List Char)
    (h : ∀ c ∈ s, (is_unit_char c || c = '-' || c = '/') = true) :
    systemd_escape_chars s = escape_chars s := by
  induction s with
  | nil => rfl
  | cons c cs ih =>
    have hc := h c (List.mem_cons_self _ _)
    rw [systemd_escape_chars, escape_chars, ih (fun x hx => h x (List.mem_cons_of_mem _ hx))]
    congr 1
    by_cases h1 : c = '/'
    · subst h1; rfl
    · by_cases h2 : c = '-'
      · subst h2; rfl
      · have hu : is_unit_char c = true := by simpa [h1, h2] using hc
        simp [escape_char, h1, h2, hu]

/-- Claim C16, amended. On an absolute path whose part after the leading slash
is a plain path, the name of `build_devname` is the name that the
path-to-unit-name escaping of the init system gives. -/
theorem C16_systemd_escape_on_plain_paths (p : List Char) (hp : p.head? = some '/')
    (h : plain_path (p.drop 1) = true) :
    build_devname p = some (systemd_path_escape p) := by
  rw [build_devname_eq, if_pos hp, escape_spec_eq_chars]
  cases p with
  | nil => simp at hp
  | cons a s =>
    simp only [List.head?_cons, Option.some.injEq] at hp
    subst hp
    simp only [List.drop_succ_cons, List.drop_zero] at h ⊢
    simp only [plain_path, Bool.and_eq_true, decide_eq_true_eq, List.all_eq_true] at h
    obtain ⟨⟨⟨⟨hne, hslash⟩, hdot⟩, hcomp⟩, hall⟩ := h
    cases s with
    | nil => exact absurd rfl hne
    | cons c cs =>
      have hc1 : c ≠ '/' := fun e => hslash (by simp [e])
      have hc2 : c ≠ '.' := fun e => hdot (by simp [e])
      have hdrop : List.dropWhile (fun c => decide (c = '/')) ('/' :: c :: cs) = c :: cs := by
        simp [List.dropWhile_cons, hc1]
      unfold systemd_path_escape
      rw [hdrop, squeeze_slashes_id cs c hcomp]
      simp only [hc2, if_false]
      rw [← systemd_escape_chars_plain (c :: cs) hall]
      simp [systemd_escape_chars]

theorem C16_systemd_escape_on_plain_paths_witness :
    "/dev/disk/by-path/pci-0000:00:1f.2-ata-1".toList.head? = some '/' ∧
    plain_path ("/dev/disk/by-path/pci-0000:00:1f.2-ata-1".toList.drop 1) = true ∧
    build_devname "/dev/disk/by-path/pci-0000:00:1f.2-ata-1".toList
      = some (systemd_path_escape "/dev/disk/by-path/pci-0000:00:1f.2-ata-1".toList) ∧
    systemd_path_escape "/dev/disk/by-path/pci-0000:00:1f.2-ata-1".toList
      = "dev-disk-by\\x2dpath-pci\\x2d0000:00:1f.2\\x2data\\x2d1".toList :=
  ⟨by decide, by decide,
    C16_systemd_escape_on_plain_paths "/dev/disk/by-path/pci-0000:00:1f.2-ata-1".toList
      (by decide) (by decide),
    by decide⟩

/-! ## Comments and white space -/

theorem trim_line_eq (b : List Char) : trim_line b = trim_ws (cut_comment b) := rfl

theorem isspace_plain {c : Char} (h : isspace c = true) : plain_char c = true := by
  simp only [isspace, Bool.or_eq_true, decide_eq_true_eq] at h
  rcases h with ((((h | h) | h) | h) | h) | h <;> subst h <;> decide

theorem trim_ws_append_space (x e : List Char) (he : ∀ c ∈ e, isspace c = true) :
    trim_ws (x ++ e) = trim_ws x := by
  unfold trim_ws
  rw [List.reverse_append, List.dropWhile_append_of_pos (by simpa using he)]

theorem trim_ws_space (w : List Char) (hw : ∀ c ∈ w, isspace c = true) : trim_ws w = [] := by
  unfold trim_ws
  have : w.reverse.dropWhile isspace = [] := by
    rw [List.dropWhile_eq_nil_iff]
    simpa using hw
  rw [this]; rfl

theorem trim_ws_space_append (w x : List Char) (hw : ∀ c ∈ w, isspace c = true) :
    trim_ws (w ++ x) = trim_ws x := by
  unfold trim_ws
  rw [List.reverse_append, List.dropWhile_append]
  by_cases h : (x.reverse.dropWhile isspace).isEmpty = true
  · have h2 : x.reverse.dropWhile isspace = [] := List.isEmpty_iff.mp h
    have h3 : w.reverse.dropWhile isspace = [] := by
      rw [List.dropWhile_eq_nil_iff]
      simpa using hw
    rw [if_pos h, h2, h3]
  · rw [if_neg h, List.reverse_append, List.reverse_reverse,
      List.dropWhile_append_of_pos hw]

/-- White space is trimmed up to a character that is not white space. -/
theorem trim_ws_through (x y : List Char) (c : Char) (hc : isspace c = false) :
    ∃ z, trim_ws (x ++ c :: y) = x.dropWhile isspace ++ c :: z := by
  unfold trim_ws
  have hsplit := List.takeWhile_append_dropWhile isspace y.reverse
  have hy : y.reverse.dropWhile isspace ++ [c] ++ x.reverse
      = (x ++ c :: y).reverse.dropWhile isspace := by
    rw [List.reverse_append, List.reverse_cons, List.append_assoc, List.append_assoc,
      List.dropWhile_append]
    by_cases h : (y.reverse.dropWhile isspace).isEmpty = true
    · have h2 : y.reverse.dropWhile isspace = [] := List.isEmpty_iff.mp h
      rw [if_pos h, h2]
      simp [List.dropWhile_cons, hc]
    · rw [if_neg h]
  refine ⟨(y.reverse.dropWhile isspace).reverse, ?_⟩
  rw [← hy]
  simp only [List.reverse_append, List.reverse_reverse, List.reverse_cons, List.reverse_nil,
    List.nil_append, List.append_assoc, List.singleton_append]
  rw [List.dropWhile_append]
  by_cases h : (x.dropWhile isspace).isEmpty = true
  · have h2 : x.dropWhile isspace = [] := List.isEmpty_iff.mp h
    rw [if_pos h, h2]
    simp [List.dropWhile_cons, hc]
  · rw [if_neg h]

theorem cstr_takeWhile (b : List Char) :
    ('#' ∈ cstr b ↔ (b.dropWhile plain_char).head? = some '#') ∧
    (cstr b).takeWhile (fun c => c != '#') = b.takeWhile plain_char := by
  induction b with
  | nil => simp [cstr]
  | cons c b ih =>
    unfold cstr at ih ⊢
    by_cases h0 : c = '\x00'
    · subst h0
      simp [List.takeWhile_cons, List.dropWhile_cons, plain_char]
    · by_cases h1 : c = '#'
      · subst h1
        simp [List.takeWhile_cons, List.dropWhile_cons, plain_char]
      · have hp : plain_char c = true := by simp [plain_char, h0, h1]
        have h1b : ¬ '#' = c := fun e => h1 e.symm
        simp only [List.takeWhile_cons, List.dropWhile_cons, hp, if_true, bne_iff_ne, ne_eq,
          h0, not_false_eq_true, decide_True, h1, List.mem_cons, h1b, false_or]
        exact ⟨ih.1, by rw [ih.2]⟩

theorem cut_comment_eq (b : List Char) :
    cut_comment b
      = if (b.dropWhile plain_char).head? = some '#' then b.takeWhile plain_char else b := by
  unfold cut_comment
  obtain ⟨h1, h2⟩ := cstr_takeWhile b
  by_cases h : '#' ∈ cstr b
  · rw [if_pos h, if_pos (h1.mp h), h2]
  · rw [if_neg h, if_neg (fun e => h (h1.mpr e))]

theorem dropWhile_cons_append {p : Char → Bool} {l r : List Char} {c : Char}
    (h : l.dropWhile p = c :: r) (y : List Char) :
    (l ++ y).dropWhile p = c :: (r ++ y) ∧ (l ++ y).takeWhile p = l.takeWhile p := by
  constructor
  · rw [List.dropWhile_append, h]; rfl
  · rw [List.takeWhile_append]
    have := congrArg List.length (List.takeWhile_append_dropWhile p l)
    rw [List.length_append, h, List.length_cons] at this
    rw [if_neg (by omega)]

theorem dropWhile_nil_append {p : Char → Bool} {l : List Char} (h : l.dropWhile p = [])
    (y : List Char) :
    (l ++ y).dropWhile p = y.dropWhile p ∧ (l ++ y).takeWhile p = l ++ y.takeWhile p := by
  have hall : ∀ a ∈ l, p a = true := List.dropWhile_eq_nil_iff.mp h
  exact ⟨List.dropWhile_append_of_pos hall, List.takeWhile_append_of_pos hall⟩

/-- White space at both ends of a line does not change what the parser reads. -/
theorem trim_line_spaces (w l e : List Char) (hw : ∀ c ∈ w, isspace c = true)
    (he : ∀ c ∈ e, isspace c = true) : trim_line (w ++ l ++ e) = trim_line l := by
  have hwq : ∀ c ∈ w, plain_char c = true := fun c hc => isspace_plain (hw c hc)
  have heq : ∀ c ∈ e, plain_char c = true := fun c hc => isspace_plain (he c hc)
  have hed : e.dropWhile plain_char = [] := List.dropWhile_eq_nil_iff.mpr heq
  rw [trim_line_eq, trim_line_eq, cut_comment_eq, cut_comment_eq, List.append_assoc,
    List.dropWhile_append_of_pos hwq, List.takeWhile_append_of_pos hwq]
  cases hd : l.dropWhile plain_char with
  | nil =>
    obtain ⟨d1, _⟩ := dropWhile_nil_append hd e
    rw [d1, hed, if_neg (by simp), if_neg (by simp), ← List.append_assoc,
      trim_ws_append_space _ _ he, trim_ws_space_append _ _ hw]
  | cons c r =>
    obtain ⟨d1, d2⟩ := dropWhile_cons_append hd e
    rw [d1, d2]
    simp only [List.head?_cons]
    by_cases hc : c = '#'
    · subst hc
      simp only [if_true]
      exact trim_ws_space_append _ _ hw
    · have hc2 : ¬ some c = some '#' := fun h => hc (Option.some.inj h)
      rw [if_neg hc2, if_neg hc2, ← List.append_assoc, trim_ws_append_space _ _ he,
        trim_ws_space_append _ _ hw]

/-- A comment appended to a line does not change what the parser reads: the
line stays empty or not, and the C string it holds stays the same. -/
theorem trim_line_comment (l t : List Char) :
    (trim_line (l ++ '#' :: t) = [] ↔ trim_line l = []) ∧
    cstr (trim_line (l ++ '#' :: t)) = cstr (trim_line l) := by
  rw [trim_line_eq, trim_line_eq, cut_comment_eq, cut_comment_eq]
  cases hd : l.dropWhile plain_char with
  | nil =>
    obtain ⟨d1, d2⟩ := dropWhile_nil_append hd ('#' :: t)
    rw [d1, d2]
    have e1 : List.dropWhile plain_char ('#' :: t) = '#' :: t := by
      simp [List.dropWhile_cons, plain_char]
    have e2 : List.takeWhile plain_char ('#' :: t) = [] := by
      simp [List.takeWhile_cons, plain_char]
    rw [e1, e2]
    simp
  | cons c r =>
    obtain ⟨d1, d2⟩ := dropWhile_cons_append hd ('#' :: t)
    rw [d1, d2]
    simp only [List.head?_cons]
    by_cases hc : c = '#'
    · subst hc
      simp
    · have hc2 : ¬ some c = some '#' := fun h => hc (Option.some.inj h)
      rw [if_neg hc2, if_neg hc2]
      have hnp : plain_char c = false := by
        have := List.head_dropWhile_not plain_char l (by rw [hd]; simp)
        simpa [hd] using this
      have hc0 : c = '\x00' := by
        simp only [plain_char, Bool.and_eq_false_iff, bne_eq_false_iff_eq] at hnp
        rcases hnp with h | h
        · exact h
        · exact absurd h hc
      subst hc0
      have hl := List.takeWhile_append_dropWhile plain_char l
      rw [hd] at hl
      have hu : ∀ a ∈ (l.takeWhile plain_char).dropWhile isspace,
          (fun c => c != '\x00') a = true := by
        intro a ha
        have h1 := (List.dropWhile_sublist isspace).subset ha
        have h2 := List.mem_takeWhile_imp h1
        simp only [plain_char, Bool.and_eq_true] at h2
        exact h2.1
      obtain ⟨z1, hz1⟩ := trim_ws_through (l.takeWhile plain_char) r '\x00' (by decide)
      obtain ⟨z2, hz2⟩ := trim_ws_through (l.takeWhile plain_char) (r ++ '#' :: t) '\x00'
        (by decide)
      have hl2 : l ++ '#' :: t = l.takeWhile plain_char ++ '\x00' :: (r ++ '#' :: t) := by
        conv_lhs => rw [← hl]
        simp
      have hA : trim_ws l
          = (l.takeWhile plain_char).dropWhile isspace ++ '\x00' :: z1 := by
        rw [← hz1, hl]
      have hB : trim_ws (l ++ '#' :: t)
          = (l.takeWhile plain_char).dropWhile isspace ++ '\x00' :: z2 := by
        rw [← hz2, ← hl2]
      rw [hA, hB]
      refine ⟨by simp, ?_⟩
      unfold cstr
      rw [List.takeWhile_append_of_pos hu, List.takeWhile_append_of_pos hu]
      simp [List.takeWhile_cons]

/-- The body of the loop reads a line only through `trim_line`: whether it is
empty, and the C string it holds. -/
theorem parse_line_congr (st : ParseState) (b b2 : List Char)
    (h1 : trim_line b = [] ↔ trim_line b2 = [])
    (h2 : cstr (trim_line b) = cstr (trim_line b2)) : parse_line st b = parse_line st b2 := by
  unfold parse_line
  simp only
  by_cases h : trim_line b = []
  · rw [if_pos h, if_pos (h1.mp h)]
  · rw [if_neg h, if_neg (fun e => h (h1.mpr e)), h2]

theorem parse_line_blank (st : ParseState) (b : List Char) (h : trim_line b = []) :
    parse_line st b = some st := by
  unfold parse_line
  simp only
  rw [if_pos h]

/-- An ignorable line is empty after trimming, with or without its newline. -/
theorem trim_line_ignorable (x e : List Char) (hx : ignorable_line x)
    (he : ∀ c ∈ e, isspace c = true) : trim_line (x ++ e) = [] := by
  rcases hx with hx | ⟨w, t, rfl, hw⟩
  · have := trim_line_spaces x [] e hx he
    rw [List.append_nil] at this
    rw [this]
    decide
  · have hwq : ∀ c ∈ w, plain_char c = true := fun c hc => isspace_plain (hw c hc)
    rw [trim_line_eq, cut_comment_eq, List.append_assoc, List.dropWhile_append_of_pos hwq,
      List.takeWhile_append_of_pos hwq]
    have e1 : List.dropWhile plain_char ('#' :: t ++ e) = '#' :: (t ++ e) := by
      simp [List.dropWhile_cons, plain_char]
    have e2 : List.takeWhile plain_char ('#' :: t ++ e) = [] := by
      simp [List.takeWhile_cons, plain_char]
    rw [e1, e2]
    simp only [List.head?_cons, if_true, List.append_nil]
    exact trim_ws_space w hw

theorem getlines_line (l : List Char) (hl : '\n' ∉ l) :
    ∀ (rest cur : List Char), getlines (l ++ rest) cur = getlines rest (cur ++ l) := by
  induction l with
  | nil => intro rest cur; simp
  | cons c l ih =>
    intro rest cur
    have hc : c ≠ '\n' := fun e => hl (by simp [e])
    have hl2 : '\n' ∉ l := fun e => hl (List.mem_cons_of_mem _ e)
    simp only [List.cons_append, getlines, hc, if_false]
    refine Eq.trans (ih hl2 rest (cur ++ [c])) ?_
    simp

theorem getlines_newline (rest cur : List Char) :
    getlines ('\n' :: rest) cur = (cur ++ ['\n']) :: getlines rest [] := by
  simp [getlines]

theorem getlines_end (cur : List Char) : getlines [] cur = if cur = [] then [] else [cur] := by
  cases cur <;> simp [getlines]

theorem getlines_through_newline (x : List Char) :
    ∀ (rest cur : List Char),
      getlines (x ++ '\n' :: rest) cur = getlines (x ++ ['\n']) cur ++ getlines rest [] := by
  induction x with
  | nil => intro rest cur; simp [getlines]
  | cons c x ih =>
    intro rest cur
    by_cases hc : c = '\n'
    · subst hc
      simp only [List.cons_append, getlines_newline, ih rest [], List.cons_append]
    · simp only [List.cons_append, getlines, hc, if_false]
      exact ih rest (cur ++ [c])

theorem getlines_line_start (a rest : List Char) (ha : a = [] ∨ ∃ a0, a = a0 ++ ['\n']) :
    getlines (a ++ rest) [] = getlines a [] ++ getlines rest [] := by
  rcases ha with rfl | ⟨a0, rfl⟩
  · simp [getlines]
  · rw [List.append_assoc, List.singleton_append, getlines_through_newline]

theorem parse_lines_append (xs ys : List (List Char)) :
    ∀ st : ParseState,
      parse_lines st (xs ++ ys) = (parse_lines st xs).bind fun s => parse_lines s ys := by
  induction xs with
  | nil => intro st; simp [parse_lines]
  | cons x xs ih =>
    intro st
    simp only [List.cons_append, parse_lines]
    cases parse_line st x with
    | none => rfl
    | some s => exact ih s

/-- The tables do not change when one line is replaced by a line that the
parser reads in the same way, with and without a newline after it. -/
theorem parse_config_line_edit (a l l2 b : List Char)
    (ha : a = [] ∨ ∃ a0, a = a0 ++ ['\n']) (hl : '\n' ∉ l) (hl2 : '\n' ∉ l2)
    (hb : b = [] ∨ ∃ b0, b = '\n' :: b0)
    (h : ∀ e : List Char, (∀ c ∈ e, isspace c = true) →
      (trim_line (l2 ++ e) = [] ↔ trim_line (l ++ e) = []) ∧
      cstr (trim_line (l2 ++ e)) = cstr (trim_line (l ++ e))) :
    parse_config (some (a ++ l2 ++ b)) = parse_config (some (a ++ l ++ b)) := by
  have key : ∀ st : ParseState,
      parse_lines st (getlines (l2 ++ b) []) = parse_lines st (getlines (l ++ b) []) := by
    intro st
    rw [getlines_line l hl, getlines_line l2 hl2, List.nil_append, List.nil_append]
    rcases hb with rfl | ⟨b0, rfl⟩
    · obtain ⟨h1, h2⟩ := h [] (by simp)
      rw [List.append_nil, List.append_nil] at h1 h2
      have one : ∀ y : List Char,
          parse_lines st (if y = [] then [] else [y]) = parse_line st y := by
        intro y
        by_cases hy : y = []
        · subst hy
          rw [if_pos rfl, parse_line_blank st [] (by decide)]
          rfl
        · rw [if_neg hy]
          simp only [parse_lines]
          cases parse_line st y <;> rfl
      rw [getlines_end, getlines_end, one, one]
      exact parse_line_congr st l2 l h1 h2
    · obtain ⟨h1, h2⟩ := h ['\n'] (by decide)
      rw [getlines_newline, getlines_newline]
      simp only [parse_lines]
      rw [parse_line_congr st (l2 ++ ['\n']) (l ++ ['\n']) h1 h2]
  unfold parse_config
  simp only
  rw [List.append_assoc, List.append_assoc, getlines_line_start a _ ha,
    getlines_line_start a _ ha, parse_lines_append, parse_lines_append]
  cases parse_lines ⟨STAGE_PROLOG, [], []⟩ (getlines a []) with
  | none => rfl
  | some s => simp only [Option.some_bind, key s]

/-- Claim C11. In a text `a ++ l ++ b` where `l` is one line (`a` ends a line
or is empty, `b` starts with a newline or is empty): a comment `#t` appended to
`l`, white space `w1`, `w2` put around `l`, and an ignorable line `x` inserted
at the start of a line leave the result of `parse_config`, the two tables in
their order, as it was. -/
theorem C11_comments_and_whitespace (a l b t w1 w2 x rest : List Char)
    (ha : a = [] ∨ ∃ a0, a = a0 ++ ['\n']) (hl : '\n' ∉ l)
    (hb : b = [] ∨ ∃ b0, b = '\n' :: b0) (ht : '\n' ∉ t)
    (hw1 : ∀ c ∈ w1, isspace c = true ∧ c ≠ '\n') (hw2 : ∀ c ∈ w2, isspace c = true ∧ c ≠ '\n')
    (hx : ignorable_line x) (hxn : '\n' ∉ x) :
    parse_config (some (a ++ (l ++ '#' :: t) ++ b)) = parse_config (some (a ++ l ++ b)) ∧
    parse_config (some (a ++ (w1 ++ l ++ w2) ++ b)) = parse_config (some (a ++ l ++ b)) ∧
    parse_config (some (a ++ (x ++ '\n' :: rest))) = parse_config (some (a ++ rest)) := by
  refine ⟨?_, ?_, ?_⟩
  · apply parse_config_line_edit a l (l ++ '#' :: t) b ha hl ?_ hb
    · intro e he
      have h1 := trim_line_spaces [] (l ++ '#' :: t) e (by simp) he
      have h2 := trim_line_spaces [] l e (by simp) he
      rw [List.nil_append] at h1 h2
      rw [h1, h2]
      exact trim_line_comment l t
    · intro hm
      rcases List.mem_append.mp hm with h | h
      · exact hl h
      · rcases List.mem_cons.mp h with h | h
        · exact absurd h (by decide)
        · exact ht h
  · apply parse_config_line_edit a l (w1 ++ l ++ w2) b ha hl ?_ hb
    · intro e he
      have h1 := trim_line_spaces w1 l (w2 ++ e) (fun c hc => (hw1 c hc).1) (by
        intro c hc
        rcases List.mem_append.mp hc with h | h
        · exact (hw2 c h).1
        · exact he c h)
      have h2 := trim_line_spaces [] l e (by simp) he
      rw [List.nil_append] at h2
      rw [← List.append_assoc] at h1
      rw [h1, h2]
      exact ⟨Iff.rfl, rfl⟩
    · intro hm
      rcases List.mem_append.mp hm with h | h
      · rcases List.mem_append.mp h with h | h
        · exact (hw1 _ h).2 rfl
        · exact hl h
      · exact (hw2 _ h).2 rfl
  · unfold parse_config
    simp only
    rw [getlines_line_start a _ ha, getlines_line_start a _ ha, parse_lines_append,
      parse_lines_append, getlines_line x hxn, getlines_newline, List.nil_append]
    cases parse_lines ⟨STAGE_PROLOG, [], []⟩ (getlines a []) with
    | none => rfl
    | some s =>
      simp only [Option.some_bind, parse_lines]
      rw [parse_line_blank s _ (trim_line_ignorable x ['\n'] hx (by decide))]

theorem C11_comments_and_whitespace_witness :
    ("[caches]\n".toList = [] ∨ ∃ a0, "[caches]\n".toList = a0 ++ ['\n']) ∧
    '\n' ∉ "1 /dev/sda wt".toList ∧
    ("\n[cores]\n1 0 /dev/sdb\n".toList = [] ∨
      ∃ b0, "\n[cores]\n1 0 /dev/sdb\n".toList = '\n' :: b0) ∧
    (parse_config (some ("[caches]\n".toList ++ ("1 /dev/sda wt".toList ++ '#' :: " x y".toList)
        ++ "\n[cores]\n1 0 /dev/sdb\n".toList))
      = parse_config (some ("[caches]\n".toList ++ "1 /dev/sda wt".toList
        ++ "\n[cores]\n1 0 /dev/sdb\n".toList)) ∧
    parse_config (some ("[caches]\n".toList ++ (" \t".toList ++ "1 /dev/sda wt".toList
        ++ "  ".toList) ++ "\n[cores]\n1 0 /dev/sdb\n".toList))
      = parse_config (some ("[caches]\n".toList ++ "1 /dev/sda wt".toList
        ++ "\n[cores]\n1 0 /dev/sdb\n".toList)) ∧
    parse_config (some ("[caches]\n".toList ++ ("  # note".toList
        ++ '\n' :: "1 /dev/sda wt\n".toList)))
      = parse_config (some ("[caches]\n".toList ++ "1 /dev/sda wt\n".toList))) ∧
    parse_config (some ("[caches]\n".toList ++ "1 /dev/sda wt".toList
        ++ "\n[cores]\n1 0 /dev/sdb\n".toList))
      = some (true, [⟨1, "/dev/sda".toList, 0⟩], [⟨0, 1, "/dev/sdb".toList, 0⟩]) :=
  ⟨Or.inr ⟨"[caches]".toList, by decide⟩, by decide, Or.inr ⟨"[cores]\n1 0 /dev/sdb\n".toList, by decide⟩,
    C11_comments_and_whitespace "[caches]\n".toList "1 /dev/sda wt".toList
      "\n[cores]\n1 0 /dev/sdb\n".toList " x y".toList " \t".toList "  ".toList
      "  # note".toList "1 /dev/sda wt\n".toList
      (Or.inr ⟨"[caches]".toList, by decide⟩) (by decide)
      (Or.inr ⟨"[cores]\n1 0 /dev/sdb\n".toList, by decide⟩) (by decide) (by decide) (by decide)
      (Or.inr ⟨"  ".toList, " note".toList, by decide, by decide⟩) (by decide),
    by decide⟩

end OpenCAS
